import Mathlib

/-!
Verification of parts of lal: RTP/AAC depacketisation and the RTMP chunk composer.

A shallow embedding of

* `pkg/rtprtcp/rtp_unpacker_aac.go` (`parseAU`, `RTPUnpackerAAC.TryUnpackOne`),
* `rtmp/compose.go` (`Composer.RunLoop`),
* `httpflv/subsession.go` (`SubSession.ReadRequest`, `WritePacket`, `Dispose`),

together with the properties stated about them.

Conventions of the embedding.

* Go `byte`, `uint16`, `uint32` values are carried by `UInt8`, `UInt16`, `UInt32`; all
  arithmetic is done on `Nat` with an explicit `% 2 ^ 32` wherever the Go expression is a
  `uint32` expression.  Go `int` values are `Int` (64-bit `int`, no wrap-around occurs for
  the counters and lengths involved).
* A Go run-time panic (index or slice bounds out of range, integer division by zero,
  explicit `panic`) is the result `none`, or an `Exit` of its own for `RunLoop`.
* A `[]byte` is a `ByteSlice`: its `len` elements and, separately, the elements of the
  backing array between `len` and `cap`.  Indexing is checked against `len`, a two-index
  slice expression against `cap`, as in Go.
* Logging (`nazalog.*`) has no effect on the results and is left out.
-/

namespace Lal

/-! ## Byte slices -/

/-- A Go `[]byte`: `data` holds the elements `0 .. len-1`, `spare` the elements of the backing
array from `len` up to `cap - 1`. -/
structure ByteSlice where
  data : List UInt8
  spare : List UInt8
deriving DecidableEq, Repr

/-- Go `len(s)`. -/
def ByteSlice.len (s : ByteSlice) : Nat := s.data.length

/-- Go `cap(s)`. -/
def ByteSlice.cap (s : ByteSlice) : Nat := s.data.length + s.spare.length

/-- Go `s[lo:]`: panics when `lo > len(s)`. -/
def ByteSlice.sliceFrom (s : ByteSlice) (lo : Nat) : Option ByteSlice :=
  if lo ≤ s.data.length then some ⟨s.data.drop lo, s.spare⟩ else none

/-- Go `s[lo:hi]`: panics unless `lo ≤ hi ≤ cap(s)`.  Only the elements of the result are
kept. -/
def ByteSlice.slice (s : ByteSlice) (lo hi : Nat) : Option (List UInt8) :=
  if lo ≤ hi ∧ hi ≤ s.data.length + s.spare.length then
    some (((s.data ++ s.spare).drop lo).take (hi - lo))
  else none

/-! ## `parseAU` (rtp_unpacker_aac.go, lines 169-210) -/

/-- Go `type au struct { size uint32; pos uint32 }`. -/
structure au where
  size : Nat
  pos : Nat
deriving DecidableEq, Repr

/-- The `for i := uint32(0); i < nbAUHeaders; i++` loop of `parseAU`; the first argument is the
number of iterations still to run, then `pauh`, `pau`, `ret`. -/
def parseAULoop (b : List UInt8) : Nat → Nat → Nat → List au → Option (List au)
  | 0, _, _, ret => some ret
  | n + 1, pauh, pau, ret =>
    match b[pauh]?, b[(pauh + 1) % 2 ^ 32]? with
    | some x, some y =>
      let auSize := ((x.toNat <<< 8) % 2 ^ 32 ||| (y &&& 0xF8).toNat) / 8
      parseAULoop b n ((pauh + 2) % 2 ^ 32) ((pau + auSize) % 2 ^ 32) (ret ++ [⟨auSize, pau⟩])
    | _, _ => none

/-- Go `parseAU(b []byte) (ret []au)`; only the elements of `b` are read. -/
def parseAU (b : List UInt8) : Option (List au) :=
  match b[0]?, b[1]? with
  | some b0, some b1 =>
    let auHeadersLength := ((b0.toNat <<< 8) % 2 ^ 32 + b1.toNat) % 2 ^ 32
    let auHeadersLength := ((auHeadersLength + 7) % 2 ^ 32) / 8
    let nbAUHeaders := auHeadersLength / 2
    parseAULoop b nbAUHeaders 2 ((2 + auHeadersLength) % 2 ^ 32) []
  | _, _ => none

/-! ## `RTPUnpackerAAC.TryUnpackOne` (rtp_unpacker_aac.go, lines 16-167) -/

/-- The fields of `RTPPacket.Header` that `TryUnpackOne` reads. -/
structure RTPHeader where
  Seq : UInt16
  Timestamp : UInt32
  payloadOffset : UInt32
deriving DecidableEq, Repr

/-- Go `RTPPacket`: the header and the raw packet bytes. -/
structure RTPPacket where
  Header : RTPHeader
  Raw : ByteSlice
deriving DecidableEq, Repr

/-- Go `RTPPacketList`: `packets` is the chain of nodes reached from `head.next`, `size` the
separately kept counter. -/
structure RTPPacketList where
  packets : List RTPPacket
  size : Int
deriving DecidableEq, Repr

/-- Go `base.AVPacket`. -/
structure AVPacket where
  PayloadType : Int
  Timestamp : Nat
  Payload : List UInt8
deriving DecidableEq, Repr

/-- Go `RTPUnpackerAAC`; the `onAVPacket` callback is represented by the sequence of packets
handed to it (`Result.emitted`). -/
structure RTPUnpackerAAC where
  payloadType : Int
  clockRate : Int
deriving DecidableEq, Repr

/-- What one call of `TryUnpackOne` does: the two return values, the list afterwards and the
packets passed to `onAVPacket`, in call order. -/
structure Result where
  unpackedFlag : Bool
  unpackedSeq : UInt16
  list : RTPPacketList
  emitted : List AVPacket
deriving DecidableEq, Repr

/-- Modelled from the spec: `SubSeq` lives in another file of package `rtprtcp`; it is
`a - b` in 16-bit modular arithmetic, re-interpreted as a signed 16-bit value. -/
def SubSeq (a b : UInt16) : Int :=
  let d := (a.toNat + 65536 - b.toNat) % 65536
  if d < 32768 then (d : Int) else (d : Int) - 65536

/-- Go `uint32(unpacker.clockRate/1000)`. -/
def RTPUnpackerAAC.clockDiv (u : RTPUnpackerAAC) : Nat :=
  ((Int.tdiv u.clockRate 1000) % 2 ^ 32).toNat

/-- Go `p.packet.Raw[p.packet.Header.payloadOffset:]`. -/
def RTPPacket.payload (p : RTPPacket) : Option ByteSlice :=
  p.Raw.sliceFrom p.Header.payloadOffset.toNat

/-- The `return false, 0` of `TryUnpackOne`: nothing was written, nothing emitted. -/
def Result.reject (l : RTPPacketList) : Result := ⟨false, 0, l, []⟩

/-- The `for { ... }` loop of the fragmented branch (lines 101-149).  Arguments after the
fixed `totalSize` and `timestamp`: the chain starting at `p`, then `seq`, `cacheSize`,
`as`, `packetCount` as they are on loop entry. -/
def fragmentLoop (u : RTPUnpackerAAC) (l : RTPPacketList) (totalSize : Nat)
    (timestamp : UInt32) :
    List RTPPacket → UInt16 → Nat → List (List UInt8) → Int → Option Result
  | [], _, _, _, _ => some (Result.reject l)
  | p :: next, seq, cacheSize, as, packetCount =>
    let packetCount := packetCount + 1
    if SubSeq p.Header.Seq seq ≠ 1 then some (Result.reject l)
    else if p.Header.Timestamp ≠ timestamp then some (Result.reject l)
    else
      match p.payload with
      | none => none
      | some b =>
        match parseAU b.data with
        | none => none
        | some [a0] =>
          if a0.size ≠ totalSize then some (Result.reject l)
          else
            match b.sliceFrom a0.pos with
            | none => none
            | some frag =>
              let cacheSize := (cacheSize + frag.len % 2 ^ 32) % 2 ^ 32
              let as := as ++ [frag.data]
              if cacheSize < totalSize then
                fragmentLoop u l totalSize timestamp next p.Header.Seq cacheSize as packetCount
              else if cacheSize = totalSize then
                if u.clockDiv = 0 then none
                else
                  some ⟨true, p.Header.Seq, ⟨next, l.size - packetCount⟩,
                    [⟨u.payloadType, p.Header.Timestamp.toNat / u.clockDiv, as.flatten⟩]⟩
              else some (Result.reject l)
        | some _ => some (Result.reject l)

/-- The `for i := range aus` loop of the last branch (lines 154-162), from index `i` on:
the packets handed to `onAVPacket`. -/
def emitEach (u : RTPUnpackerAAC) (p : RTPPacket) (b : ByteSlice) :
    List au → Nat → Option (List AVPacket)
  | [], _ => some []
  | a :: rest, i =>
    if u.clockDiv = 0 then none
    else if u.clockRate = 0 then none
    else
      let ts := (p.Header.Timestamp.toNat / u.clockDiv +
        ((Int.tdiv ((i : Int) * (1024 * 1000)) u.clockRate) % 2 ^ 32).toNat) % 2 ^ 32
      match b.slice a.pos ((a.pos + a.size) % 2 ^ 32) with
      | none => none
      | some payload =>
        match emitEach u p b rest (i + 1) with
        | none => none
        | some out => some (⟨u.payloadType, ts, payload⟩ :: out)

/-- Go `func (unpacker *RTPUnpackerAAC) TryUnpackOne(list *RTPPacketList)`. -/
def TryUnpackOne (u : RTPUnpackerAAC) (l : RTPPacketList) : Option Result :=
  match l.packets with
  | [] => some (Result.reject l)
  | p :: next =>
    match p.payload with
    | none => none
    | some b =>
      match parseAU b.data with
      | none => none
      | some [a0] =>
        match b.sliceFrom a0.pos with
        | none => none
        | some frag =>
          if a0.size ≤ frag.len % 2 ^ 32 then
            if u.clockDiv = 0 then none
            else
              match b.slice a0.pos ((a0.pos + a0.size) % 2 ^ 32) with
              | none => none
              | some payload =>
                some ⟨true, p.Header.Seq, ⟨next, l.size - 1⟩,
                  [⟨u.payloadType, p.Header.Timestamp.toNat / u.clockDiv, payload⟩]⟩
          else
            fragmentLoop u l a0.size p.Header.Timestamp next p.Header.Seq
              (frag.len % 2 ^ 32) [frag.data] 0
      | some aus =>
        match emitEach u p b aus 0 with
        | none => none
        | some out => some ⟨true, p.Header.Seq, ⟨next, l.size - 1⟩, out⟩


/-! ## Vocabulary of the statements about `TryUnpackOne` -/

/-- For a packet that carries exactly one AU-header: the size that header declares and the
access-unit data `b[aus[0].pos:]` of the packet. -/
def RTPPacket.fragment (p : RTPPacket) : Option (Nat × List UInt8) :=
  match p.payload with
  | none => none
  | some b =>
    match parseAU b.data with
    | some [a0] =>
      match b.sliceFrom a0.pos with
      | none => none
      | some frag => some (a0.size, frag.data)
    | _ => none

/-- The packet `q` directly follows `p`: its sequence number is the next one modulo `2^16`. -/
def RTPPacket.follows (p q : RTPPacket) : Prop :=
  q.Header.Seq.toNat = (p.Header.Seq.toNat + 1) % 65536

instance (p q : RTPPacket) : Decidable (RTPPacket.follows p q) :=
  inferInstanceAs (Decidable (q.Header.Seq.toNat = (p.Header.Seq.toNat + 1) % 65536))

/-- Each packet of the list directly follows the one before it, the first one following
`prev`. -/
def ConsecutiveFrom (prev : RTPPacket) : List RTPPacket → Prop
  | [] => True
  | p :: ps => prev.follows p ∧ ConsecutiveFrom p ps

/-- Each packet of the list directly follows the one before it. -/
def Consecutive : List RTPPacket → Prop
  | [] => True
  | p :: ps => ConsecutiveFrom p ps

instance decConsecutiveFrom : ∀ (prev : RTPPacket) (ps : List RTPPacket),
    Decidable (ConsecutiveFrom prev ps)
  | _, [] => isTrue trivial
  | prev, p :: ps =>
    match (inferInstance : Decidable (prev.follows p)), decConsecutiveFrom p ps with
    | isTrue h1, isTrue h2 => isTrue ⟨h1, h2⟩
    | isFalse h1, _ => isFalse (fun h => h1 h.1)
    | _, isFalse h2 => isFalse (fun h => h2 h.2)

instance decConsecutive : ∀ (ps : List RTPPacket), Decidable (Consecutive ps)
  | [] => isTrue trivial
  | p :: ps => decConsecutiveFrom p ps

/-- A packet with payload offset 0 and a backing array without spare capacity. -/
def mkPacket (seq : UInt16) (timestamp : UInt32) (raw : List UInt8) : RTPPacket :=
  ⟨⟨seq, timestamp, 0⟩, ⟨raw, []⟩⟩

/-- An unpacker for a 48 kHz stream. -/
def unpacker48k : RTPUnpackerAAC := ⟨1, 48000⟩

/-- One access unit of 6 bytes (AU-header `00 30`) split over three packets of two data bytes
each, the sequence numbers wrapping from `0xFFFF` to `0x0000`. -/
def threeFragments : RTPPacketList :=
  ⟨[mkPacket 65535 96000 [0x00, 0x10, 0x00, 0x30, 1, 2],
    mkPacket 0 96000 [0x00, 0x10, 0x00, 0x30, 3, 4],
    mkPacket 1 96000 [0x00, 0x10, 0x00, 0x30, 5, 6]], 3⟩

/-- The first fragment of `threeFragments` alone: the access unit cannot be completed. -/
def loneFragment : RTPPacketList :=
  ⟨[mkPacket 65535 96000 [0x00, 0x10, 0x00, 0x30, 1, 2]], 1⟩

/-! ## Vocabulary of the statements about `parseAU` -/

/-- The AU-headers-length field: the 16-bit big-endian value of `b[0..2]`. -/
def auHeadersLengthBits (b : List UInt8) : Nat :=
  (b.getD 0 0).toNat * 256 + (b.getD 1 0).toNat

/-- The length in bytes of the AU-header section after its length field. -/
def auHeadersLengthBytes (b : List UInt8) : Nat := (auHeadersLengthBits b + 7) / 8

/-- The number of two-byte AU-headers the length field announces. -/
def nbAUHeaders (b : List UInt8) : Nat := auHeadersLengthBytes b / 2

/-- The descriptors follow one another without gap from `pau` on, each declaring a 13-bit
size. -/
def Contiguous : Nat → List au → Prop
  | _, [] => True
  | pau, a :: rest => a.pos = pau ∧ a.size < 8192 ∧ Contiguous (pau + a.size) rest

/-- The two bytes of one AU-header: the 16-bit big-endian value `size << 3 | index`. -/
def encodeAUHeader (h : Nat × Nat) : List UInt8 :=
  [UInt8.ofNat (((h.1 <<< 3) ||| h.2) / 256), UInt8.ofNat (((h.1 <<< 3) ||| h.2) % 256)]

/-- The payload built from `K` (size, index) pairs: the 16-bit big-endian value `16 * K`,
the `K` two-byte AU-headers, then the data bytes. -/
def buildPayload (hs : List (Nat × Nat)) (data : List UInt8) : List UInt8 :=
  [UInt8.ofNat ((16 * hs.length) / 256), UInt8.ofNat ((16 * hs.length) % 256)] ++
    (hs.map encodeAUHeader).flatten ++ data

/-- A payload announcing one AU-header of size 8191 and carrying no data at all. -/
def oversizedAU : List UInt8 := [0x00, 0x10, 0xFF, 0xF8]

/-- The packets `frags` are `N ≥ 2` fragments of one access unit of `totalSize` bytes with
RTP timestamp `T`, and `ds` are their AU data: consecutive sequence numbers, the same
timestamp, each packet carrying exactly one AU-header that declares `totalSize`, the data
of the first `k` packets totalling less than `totalSize` for `1 ≤ k < N`, and the data of
all `N` packets totalling `totalSize`. -/
def IsFragmentRun (frags : List RTPPacket) (ds : List (List UInt8)) (T : UInt32)
    (totalSize : Nat) : Prop :=
  2 ≤ frags.length ∧
  Consecutive frags ∧
  (∀ q ∈ frags, q.Header.Timestamp = T) ∧
  frags.map RTPPacket.fragment = ds.map (fun d => some (totalSize, d)) ∧
  (∀ k, 1 ≤ k → k < frags.length → ((ds.take k).map List.length).sum < totalSize) ∧
  (ds.map List.length).sum = totalSize

instance (frags : List RTPPacket) (ds : List (List UInt8)) (T : UInt32) (totalSize : Nat) :
    Decidable (IsFragmentRun frags ds T totalSize) :=
  inferInstanceAs (Decidable (
    2 ≤ frags.length ∧
    Consecutive frags ∧
    (∀ q ∈ frags, q.Header.Timestamp = T) ∧
    frags.map RTPPacket.fragment = ds.map (fun d => some (totalSize, d)) ∧
    (∀ k, 1 ≤ k → k < frags.length → ((ds.take k).map List.length).sum < totalSize) ∧
    (ds.map List.length).sum = totalSize))

/-- The unpacker of `unpacker48k` with clock rate 0. -/
def unpackerClock0 : RTPUnpackerAAC := ⟨1, 0⟩

/-- A single packet whose AU-header section announces no AU-header: payload `00 00`. -/
def emptyAUSection : RTPPacketList := ⟨[mkPacket 7 96000 [0x00, 0x00]], 1⟩

/-- A single packet announcing two access units of 16 bytes each (`00 20 00 80 00 80`) and
carrying only 24 data bytes, in a backing array without spare capacity. -/
def truncatedTwoAUs : RTPPacketList :=
  ⟨[mkPacket 7 96000 ([0x00, 0x20, 0x00, 0x80, 0x00, 0x80] ++ List.replicate 24 0)], 1⟩

/-! ## Vocabulary of the statement about packets with several access units -/

/-- The AV packet expected for the `i`-th descriptor `a` of the payload `b` of packet `p`:
payload `b[a.pos : a.pos + a.size]`, timestamp
`p.timestamp / (clockRate / 1000) + i * 1024 * 1000 / clockRate` in 32-bit arithmetic. -/
def expectedAV (u : RTPUnpackerAAC) (p : RTPPacket) (b : ByteSlice) (i : Nat) (a : au) :
    AVPacket :=
  ⟨u.payloadType,
    (p.Header.Timestamp.toNat / (u.clockRate.toNat / 1000) +
      i * 1024 * 1000 / u.clockRate.toNat) % 2 ^ 32,
    (b.data.drop a.pos).take a.size⟩

/-- A single packet with two complete access units of 16 bytes each: payload
`00 20 00 80 00 80`, 16 bytes `0x11`, 16 bytes `0x22`; RTP timestamp 96000. -/
def twoAUs : RTPPacketList :=
  ⟨[mkPacket 7 96000 ([0x00, 0x20, 0x00, 0x80, 0x00, 0x80] ++ List.replicate 16 0x11 ++
      List.replicate 16 0x22)], 1⟩

/-- An unpacker whose clock rate is `1000 * 2^32`, so that `uint32(clockRate/1000)` is 0. -/
def unpackerClockWrap : RTPUnpackerAAC := ⟨1, 4294967296000⟩

/-! ## `Composer.RunLoop` (rtmp/compose.go)

The reader is the sequence of bytes it will still deliver; `io.ReadAtLeast(reader, buf[:n], n)`
takes the next `n` bytes, or fails when fewer are left.  The callback is a function telling
whether it returns an error; the streams it is called with are recorded in call order. -/

/-- Modelled from the spec: `bele.BEUint24` (package `bele` is not part of the sources):
the big-endian value of the first three bytes. -/
def BEUint24 (p : List UInt8) : Nat :=
  (p.getD 0 0).toNat * 65536 + (p.getD 1 0).toNat * 256 + (p.getD 2 0).toNat

/-- Modelled from the spec: `bele.BEUint32`: the big-endian value of the first four bytes. -/
def BEUint32 (p : List UInt8) : Nat :=
  (p.getD 0 0).toNat * 16777216 + (p.getD 1 0).toNat * 65536 + (p.getD 2 0).toNat * 256 +
    (p.getD 3 0).toNat

/-- Modelled from the spec: `bele.LEUint32`: the little-endian value of the first four
bytes. -/
def LEUint32 (p : List UInt8) : Nat :=
  (p.getD 0 0).toNat + (p.getD 1 0).toNat * 256 + (p.getD 2 0).toNat * 65536 +
    (p.getD 3 0).toNat * 16777216

/-- Modelled from the spec: the constant `defaultChunkSize` (declared outside compose.go),
the protocol default 128. -/
def defaultChunkSize : Int := 128

/-- Modelled from the spec: the constant `maxTimestampInMessageHeader`, the extended
timestamp sentinel `0xFFFFFF`. -/
def maxTimestampInMessageHeader : Int := 0xFFFFFF

/-- Modelled from the spec: the constant `typeidSetChunkSize`, message type 1. -/
def typeidSetChunkSize : Int := 1

/-- Modelled from the spec: the `header` of a chunk stream (type `Stream` is declared
outside compose.go). -/
structure Header where
  timestamp : Int
  msgTypeID : Int
  msgStreamID : Int
deriving DecidableEq, Repr

/-- Modelled from the spec: a chunk stream.  Of the message buffer `msg` only the bytes
between its cursors are kept: `msg.len()` is `msg.length`, `msg.produced(n)` after a read of
`n` bytes into `msg.buf[msg.e:msg.e+n]` appends them, `msg.clear()` empties it.  The
capacity is not tracked: `msg.reserve` is taken to make room for every read that follows.
`msg.buf` read from its start is the message assembled so far, continued by zero bytes. -/
structure Stream where
  header : Header
  timestampAbs : Int
  msgLen : Int
  msg : List UInt8
deriving DecidableEq, Repr

/-- Modelled from the spec: `NewStream()`, a chunk stream with zero fields and an empty
message buffer. -/
def NewStream : Stream := ⟨⟨0, 0, 0⟩, 0, 0, []⟩

/-- Go `Composer`; the map `csid2stream` is an association list, newest entry first. -/
structure Composer where
  peerChunkSize : Int
  csid2stream : List (Nat × Stream)
deriving DecidableEq, Repr

/-- Go `NewComposer()`. -/
def NewComposer : Composer := ⟨defaultChunkSize, []⟩

/-- Go `c.csid2stream[csid]`. -/
def Composer.lookup (c : Composer) (csid : Nat) : Option Stream :=
  (c.csid2stream.find? (fun e => e.1 == csid)).map Prod.snd

/-- The composer after the stream stored for `csid` became `s`. -/
def Composer.store (c : Composer) (csid : Nat) (s : Stream) : Composer :=
  { c with csid2stream := (csid, s) :: c.csid2stream.filter (fun e => e.1 != csid) }

/-- Go `c.getOrCreateStream(csid)`: the stream of `csid`, a new one when there is none. -/
def Composer.getOrCreateStream (c : Composer) (csid : Nat) : Stream :=
  match c.lookup csid with
  | some s => s
  | none => NewStream

/-- Go `io.ReadAtLeast(reader, buf[:n], n)`: the `n` bytes read and the reader afterwards, or
`none` for the error of the reader. -/
def readAtLeast (reader : List UInt8) (n : Nat) : Option (List UInt8 × List UInt8) :=
  if n ≤ reader.length then some (reader.take n, reader.drop n) else none

/-- How an iteration, or the loop, ends other than by going on. -/
inductive Exit where
  /-- `return err` with the error of the reader. -/
  | readErr
  /-- `return err` with the error of the callback. -/
  | cbErr
  /-- A slice expression with a negative length: run-time panic. -/
  | slicePanic
  /-- The `panic(0)` after `msg.len() > msgLen`. -/
  | panic0
  /-- The model ran out of fuel (never the case for `RunLoop`). -/
  | outOfFuel
deriving DecidableEq, Repr

/-- The result of one iteration of the `for` loop of `RunLoop`. -/
inductive Step where
  /-- The iteration left the function. -/
  | exit (e : Exit) (delivered : Option Stream)
  /-- The iteration completed: the composer and the reader afterwards, the chunk stream id
  it worked on, and the stream handed to the callback if a message was completed. -/
  | next (c : Composer) (reader : List UInt8) (csid : Nat) (delivered : Option Stream)
deriving DecidableEq, Repr

/-- Lines 38-55: the chunk basic header.  Returns `fmt`, `csid` and the reader afterwards. -/
def readBasicHeader (reader : List UInt8) : Option (Nat × Nat × List UInt8) :=
  match readAtLeast reader 1 with
  | none => none
  | some (bootstrap, reader) =>
    let fmt := (((bootstrap.getD 0 0) >>> 6) &&& 0x03).toNat
    let csid := ((bootstrap.getD 0 0) &&& 0x3f).toNat
    match csid with
    | 0 =>
      match readAtLeast reader 1 with
      | none => none
      | some (bootstrap, reader) => some (fmt, 64 + (bootstrap.getD 0 0).toNat, reader)
    | 1 =>
      match readAtLeast reader 2 with
      | none => none
      | some (bootstrap, reader) =>
        some (fmt, 64 + (bootstrap.getD 0 0).toNat + (bootstrap.getD 1 0).toNat * 256, reader)
    | _ => some (fmt, csid, reader)

/-- Lines 59-91: the chunk message header, by `fmt`. -/
def readMessageHeader (fmt : Nat) (stream : Stream) (reader : List UInt8) :
    Option (Stream × List UInt8) :=
  match fmt with
  | 0 =>
    match readAtLeast reader 11 with
    | none => none
    | some (bootstrap, reader) =>
      some ({ header := ⟨BEUint24 bootstrap, (bootstrap.getD 6 0).toNat,
                LEUint32 (bootstrap.drop 7)⟩,
              timestampAbs := BEUint24 bootstrap,
              msgLen := BEUint24 (bootstrap.drop 3),
              msg := stream.msg }, reader)
  | 1 =>
    match readAtLeast reader 7 with
    | none => none
    | some (bootstrap, reader) =>
      some ({ header := ⟨BEUint24 bootstrap, (bootstrap.getD 6 0).toNat,
                stream.header.msgStreamID⟩,
              timestampAbs := stream.timestampAbs + BEUint24 bootstrap,
              msgLen := BEUint24 (bootstrap.drop 3),
              msg := stream.msg }, reader)
  | 2 =>
    match readAtLeast reader 3 with
    | none => none
    | some (bootstrap, reader) =>
      some ({ stream with
              header := { stream.header with timestamp := BEUint24 bootstrap },
              timestampAbs := stream.timestampAbs + BEUint24 bootstrap }, reader)
  | _ => some (stream, reader)

/-- Lines 93-109: the extended timestamp. -/
def readExtendedTimestamp (fmt : Nat) (stream : Stream) (reader : List UInt8) :
    Option (Stream × List UInt8) :=
  if stream.header.timestamp = maxTimestampInMessageHeader then
    match readAtLeast reader 4 with
    | none => none
    | some (bootstrap, reader) =>
      let stream := { stream with
        header := { stream.header with timestamp := BEUint32 bootstrap } }
      match fmt with
      | 0 => some ({ stream with timestampAbs := stream.header.timestamp }, reader)
      | 1 => some ({ stream with timestampAbs :=
          stream.timestampAbs - maxTimestampInMessageHeader + stream.header.timestamp }, reader)
      | 2 => some ({ stream with timestampAbs :=
          stream.timestampAbs - maxTimestampInMessageHeader + stream.header.timestamp }, reader)
      | _ => some (stream, reader)
  else some (stream, reader)

/-- Lines 111-119: `neededSize`. -/
def neededSize (c : Composer) (stream : Stream) : Int :=
  if stream.msgLen ≤ c.peerChunkSize then stream.msgLen
  else
    let n := stream.msgLen - stream.msg.length
    if n > c.peerChunkSize then c.peerChunkSize else n

/-- One iteration of the `for` loop of `RunLoop` (lines 34-139). -/
def chunkStep (c : Composer) (reader : List UInt8) (cb : Stream → Bool) : Step :=
  match readBasicHeader reader with
  | none => .exit .readErr none
  | some (fmt, csid, reader) =>
    let stream := c.getOrCreateStream csid
    match readMessageHeader fmt stream reader with
    | none => .exit .readErr none
    | some (stream, reader) =>
      match readExtendedTimestamp fmt stream reader with
      | none => .exit .readErr none
      | some (stream, reader) =>
        let needed := neededSize c stream
        if needed < 0 then .exit .slicePanic none
        else
          match readAtLeast reader needed.toNat with
          | none => .exit .readErr none
          | some (bytes, reader) =>
            let stream := { stream with msg := stream.msg ++ bytes }
            if (stream.msg.length : Int) = stream.msgLen then
              let c := if stream.header.msgTypeID = typeidSetChunkSize
                then { c with peerChunkSize := BEUint32 stream.msg } else c
              if cb stream then .exit .cbErr (some stream)
              else
                let cleared := { stream with msg := [] }
                if (cleared.msg.length : Int) > cleared.msgLen then .exit .panic0 (some stream)
                else .next (c.store csid cleared) reader csid (some stream)
            else if (stream.msg.length : Int) > stream.msgLen then .exit .panic0 none
            else .next (c.store csid stream) reader csid none

/-- What a run of `RunLoop` does: how it ends and the streams handed to the callback. -/
structure Run where
  exit : Exit
  delivered : List Stream
deriving DecidableEq, Repr

/-- The `for` loop of `RunLoop`, for at most `fuel` iterations. -/
def runLoopFuel (cb : Stream → Bool) : Nat → Composer → List UInt8 → List Stream → Run
  | 0, _, _, delivered => ⟨.outOfFuel, delivered⟩
  | fuel + 1, c, reader, delivered =>
    match chunkStep c reader cb with
    | .exit e d => ⟨e, delivered ++ d.toList⟩
    | .next c reader _ d => runLoopFuel cb fuel c reader (delivered ++ d.toList)

/-- Go `func (c *Composer) RunLoop(reader io.Reader, cb CompleteMessageCB) error`.  Every
iteration that goes on has read at least one byte, so `reader.length + 1` iterations are
enough. -/
def RunLoop (c : Composer) (reader : List UInt8) (cb : Stream → Bool) : Run :=
  runLoopFuel cb (reader.length + 1) c reader []

/-- The bytes of a `fmt == 0` chunk on chunk stream `csid` (2 to 63): basic header, message
header with timestamp 0, the given message length and type, message stream id 0, and the
payload bytes. -/
def chunk0 (csid : UInt8) (msgLen : Nat) (msgTypeID : UInt8) (payload : List UInt8) :
    List UInt8 :=
  [csid, 0, 0, 0, UInt8.ofNat (msgLen / 65536), UInt8.ofNat (msgLen / 256 % 256),
    UInt8.ofNat (msgLen % 256), msgTypeID, 0, 0, 0, 0] ++ payload

/-- The bytes of a `fmt == 3` chunk on chunk stream `csid` (2 to 63). -/
def chunk3 (csid : UInt8) (payload : List UInt8) : List UInt8 :=
  (0xC0 ||| csid) :: payload

/-- A message of 300 bytes is begun on chunk stream 3 (first chunk, 128 bytes); then a new
`fmt == 0` header on the same chunk stream announces a message of 100 bytes. -/
def restartedMessage : List UInt8 :=
  chunk0 3 300 8 (List.replicate 128 0xAA) ++ chunk0 3 100 8 (List.replicate 100 0xBB)

/-- A message of 300 bytes is begun on chunk stream 3 (two chunks, 256 bytes); then a new
`fmt == 0` header on the same chunk stream announces a message of 200 bytes. -/
def restartedLate : List UInt8 :=
  chunk0 3 300 8 (List.replicate 128 0xAA) ++ chunk3 3 (List.replicate 128 0xAA) ++
    chunk0 3 200 8 (List.replicate 200 0xBB)

/-- A message of 300 bytes is begun on chunk stream 3 (first chunk, 128 bytes); a
Set-Chunk-Size message on chunk stream 2 raises the chunk size to 4096; the sender goes on
with the remaining 172 bytes of the message in one `fmt == 3` chunk, followed by another
message of 200 bytes on chunk stream 4. -/
def chunkSizeRaised : List UInt8 :=
  chunk0 3 300 8 (List.replicate 128 0xAA) ++ chunk0 2 4 1 [0x00, 0x00, 0x10, 0x00] ++
    chunk3 3 (List.replicate 172 0xAA) ++ chunk0 4 200 8 (List.replicate 200 0xCC)

/-- A callback that never returns an error. -/
def cbOk : Stream → Bool := fun _ => false

/-! ## Vocabulary of the statements about `RunLoop` -/

/-- The loop of `RunLoop` for exactly `n` iterations that all go on: the composer and the
reader afterwards and the streams handed to the callback; `none` when one of the
iterations leaves the function. -/
def runSteps (cb : Stream → Bool) :
    Nat → Composer → List UInt8 → List Stream → Option (Composer × List UInt8 × List Stream)
  | 0, c, reader, delivered => some (c, reader, delivered)
  | n + 1, c, reader, delivered =>
    match chunkStep c reader cb with
    | .exit _ _ => none
    | .next c reader _ d => runSteps cb n c reader (delivered ++ d.toList)

/-- One iteration of the `for` loop of `RunLoop` with a callback that also sees the composer
as it is at the time of the call (a Go closure over the composer): the same code as
`chunkStep`, which is the case of a callback that ignores the composer. -/
def chunkStepWith (c : Composer) (reader : List UInt8) (cb : Composer → Stream → Bool) :
    Step :=
  match readBasicHeader reader with
  | none => .exit .readErr none
  | some (fmt, csid, reader) =>
    let stream := c.getOrCreateStream csid
    match readMessageHeader fmt stream reader with
    | none => .exit .readErr none
    | some (stream, reader) =>
      match readExtendedTimestamp fmt stream reader with
      | none => .exit .readErr none
      | some (stream, reader) =>
        let needed := neededSize c stream
        if needed < 0 then .exit .slicePanic none
        else
          match readAtLeast reader needed.toNat with
          | none => .exit .readErr none
          | some (bytes, reader) =>
            let stream := { stream with msg := stream.msg ++ bytes }
            if (stream.msg.length : Int) = stream.msgLen then
              let c := if stream.header.msgTypeID = typeidSetChunkSize
                then { c with peerChunkSize := BEUint32 stream.msg } else c
              if cb c stream then .exit .cbErr (some stream)
              else
                let cleared := { stream with msg := [] }
                if (cleared.msg.length : Int) > cleared.msgLen then .exit .panic0 (some stream)
                else .next (c.store csid cleared) reader csid (some stream)
            else if (stream.msg.length : Int) > stream.msgLen then .exit .panic0 none
            else .next (c.store csid stream) reader csid none

/-- The chunk basic header for `fmt` and chunk stream id `csid`: one byte for ids 2 to 63,
two bytes for 64 to 319, three bytes for 320 to 65599. -/
def basicHeader (fmt csid : Nat) : List UInt8 :=
  if csid < 64 then [UInt8.ofNat (fmt * 64 + csid)]
  else if csid < 320 then [UInt8.ofNat (fmt * 64), UInt8.ofNat (csid - 64)]
  else [UInt8.ofNat (fmt * 64 + 1), UInt8.ofNat ((csid - 64) % 256),
    UInt8.ofNat ((csid - 64) / 256)]

/-- The 11 bytes of a `fmt == 0` chunk message header: big-endian 24-bit timestamp and
message length, message type, little-endian 32-bit message stream id. -/
def messageHeader0 (timestamp msgLen msgTypeID msgStreamID : Nat) : List UInt8 :=
  [UInt8.ofNat (timestamp / 65536), UInt8.ofNat (timestamp / 256 % 256),
    UInt8.ofNat (timestamp % 256),
    UInt8.ofNat (msgLen / 65536), UInt8.ofNat (msgLen / 256 % 256), UInt8.ofNat (msgLen % 256),
    UInt8.ofNat msgTypeID,
    UInt8.ofNat (msgStreamID % 256), UInt8.ofNat (msgStreamID / 256 % 256),
    UInt8.ofNat (msgStreamID / 65536 % 256), UInt8.ofNat (msgStreamID / 16777216)]

/-- The list `l` cut into pieces of `n` bytes, the last one possibly shorter; `fuel` bounds
the number of pieces. -/
def chunksAux (n : Nat) : Nat → List UInt8 → List (List UInt8)
  | 0, _ => []
  | fuel + 1, l => if l = [] then [] else l.take n :: chunksAux n fuel (l.drop n)

/-- The continuation chunks (`fmt == 3`) carrying the bytes `l` in pieces of `n`. -/
def continuationChunks (csid n : Nat) (l : List UInt8) : List (List UInt8) :=
  (chunksAux n l.length l).map (fun piece => basicHeader 3 csid ++ piece)

/-- The encoding of the message `m` for chunk size `n`: one `fmt == 0` chunk with the first
`n` bytes, then `fmt == 3` chunks with the following bytes in pieces of `n`. -/
def encodeMessage (csid n timestamp msgTypeID msgStreamID : Nat) (m : List UInt8) :
    List UInt8 :=
  basicHeader 0 csid ++ messageHeader0 timestamp m.length msgTypeID msgStreamID ++ m.take n ++
    (continuationChunks csid n (m.drop n)).flatten

/-- The number of chunks of `encodeMessage`. -/
def chunkCount (n : Nat) (m : List UInt8) : Nat :=
  1 + (chunksAux n (m.drop n).length (m.drop n)).length

/-- The message of the stream as it is handed to the callback once `m` is assembled. -/
def completedStream (timestamp msgTypeID msgStreamID : Nat) (m : List UInt8) : Stream :=
  ⟨⟨timestamp, msgTypeID, msgStreamID⟩, timestamp, m.length, m⟩

/-- A message of 300 bytes: 128 bytes `0xA1`, 128 bytes `0xA2`, 44 bytes `0xA3`. -/
def message300 : List UInt8 :=
  List.replicate 128 0xA1 ++ List.replicate 128 0xA2 ++ List.replicate 44 0xA3

/-- A callback that returns an error on every message. -/
def cbFail : Stream → Bool := fun _ => true

/-- Lines 34-109 of `RunLoop`: the basic header, the chunk stream looked up or created, the
message header and the extended timestamp.  Returns `fmt`, `csid`, the chunk stream after
the headers and the reader afterwards; `none` for an error of the reader. -/
def readHeaders (c : Composer) (reader : List UInt8) :
    Option (Nat × Nat × Stream × List UInt8) :=
  match readBasicHeader reader with
  | none => none
  | some (fmt, csid, reader) =>
    match readMessageHeader fmt (c.getOrCreateStream csid) reader with
    | none => none
    | some (stream, reader) =>
      match readExtendedTimestamp fmt stream reader with
      | none => none
      | some (stream, reader) => some (fmt, csid, stream, reader)

/-- Lines 111-139 of `RunLoop`: the payload and the delivery, for the chunk stream `stream`
of `csid` as it is after the headers. -/
def readPayload (c : Composer) (csid : Nat) (stream : Stream) (reader : List UInt8)
    (cb : Composer → Stream → Bool) : Step :=
  let needed := neededSize c stream
  if needed < 0 then .exit .slicePanic none
  else
    match readAtLeast reader needed.toNat with
    | none => .exit .readErr none
    | some (bytes, reader) =>
      let stream := { stream with msg := stream.msg ++ bytes }
      if (stream.msg.length : Int) = stream.msgLen then
        let c := if stream.header.msgTypeID = typeidSetChunkSize
          then { c with peerChunkSize := BEUint32 stream.msg } else c
        if cb c stream then .exit .cbErr (some stream)
        else
          let cleared := { stream with msg := [] }
          if (cleared.msg.length : Int) > cleared.msgLen then .exit .panic0 (some stream)
          else .next (c.store csid cleared) reader csid (some stream)
      else if (stream.msg.length : Int) > stream.msgLen then .exit .panic0 none
      else .next (c.store csid stream) reader csid none

/-- Lines 128-131 of `RunLoop`: the composer as it is when the callback is called with the
completed stream `stream`: for a Set-Chunk-Size message `peerChunkSize` has been set from
the message. -/
def Composer.atCallback (c : Composer) (stream : Stream) : Composer :=
  if stream.header.msgTypeID = typeidSetChunkSize
  then { c with peerChunkSize := BEUint32 stream.msg } else c

/-- A Set-Chunk-Size message to 4096 on chunk stream 2, then a message of 300 bytes on chunk
stream 3 sent as a single chunk. -/
def setSizeThenMessage : List UInt8 :=
  chunk0 2 4 1 [0x00, 0x00, 0x10, 0x00] ++ chunk0 3 300 8 message300

/-- A `fmt == 0` chunk on chunk stream 3 with the timestamp sentinel `FF FF FF`, message
length 200, and the extended timestamp `00 FF FF FF`, carrying the first 128 bytes. -/
def sentinelChunk : List UInt8 :=
  [0x03, 0xFF, 0xFF, 0xFF, 0x00, 0x00, 0xC8, 0x08, 0x00, 0x00, 0x00, 0x00,
    0x00, 0xFF, 0xFF, 0xFF] ++ List.replicate 128 0xAA

/-- A `fmt == 3` chunk on chunk stream 3: the basic header `C3` followed by 76 bytes. -/
def continuation76 : List UInt8 :=
  [0xC3, 0x01, 0x02, 0x03, 0x04] ++ List.replicate 72 0xBB

/-- A `fmt == 0` chunk on chunk stream 3 with the timestamp sentinel `FF FF FF`, the
extended timestamp `01 02 03 04` and a message of two bytes. -/
def extendedChunk : List UInt8 :=
  [0x03, 0xFF, 0xFF, 0xFF, 0x00, 0x00, 0x02, 0x08, 0x00, 0x00, 0x00, 0x00,
    0x01, 0x02, 0x03, 0x04, 0x0A, 0x0B]

/-- The effective timestamp of a chunk whose message header of `headerLen` bytes starts
the bytes `r0`: the 3-byte value, or the 4-byte extended value that follows the header when
the 3-byte value is `0xFFFFFF`. -/
def effectiveTimestamp (r0 : List UInt8) (headerLen : Nat) : Int :=
  if BEUint24 r0 = 0xFFFFFF then (BEUint32 (r0.drop headerLen) : Int) else (BEUint24 r0 : Int)

/-! ## `SubSession` (httpflv/subsession.go)

Strings are lists of characters.  The session is the record of the fields the methods
read and write; the socket, the exit channel and the `sync.Once` are their states.  One
method call at a time is modelled: the calls of concurrent tasks appear in some order. -/

/-- Go `strings.Split(s, sep)` for a separator of one character. -/
def splitOn (sep : Char) : List Char → List (List Char)
  | [] => [[]]
  | c :: cs =>
    if c = sep then [] :: splitOn sep cs
    else
      match splitOn sep cs with
      | [] => [[c]]
      | part :: parts => (c :: part) :: parts

/-- Go `strings.HasSuffix(s, suffix)`:
`len(s) >= len(suffix) && s[len(s)-len(suffix):] == suffix`. -/
def hasSuffix (s suffix : List Char) : Bool :=
  decide (suffix.length ≤ s.length) && (s.drop (s.length - suffix.length) == suffix)

/-- Go `var wChanSize = 1024`: the capacity of the outbound queue. -/
def wChanSize : Nat := 1024

/-- Go `flvHTTPResponseHeaderStr`. -/
def flvHTTPResponseHeaderStr : String :=
  "HTTP/1.1 200 OK\r\n" ++
  "Cache-Control: no-cache\r\n" ++
  "Content-Type: video/x-flv\r\n" ++
  "Connection: close\r\n" ++
  "Expires: -1\r\n" ++
  "Pragma: no-cache\r\n" ++
  "\r\n"

/-- Go `flvHTTPResponseHeader = []byte(flvHTTPResponseHeaderStr)` (the string is ASCII). -/
def flvHTTPResponseHeader : List UInt8 :=
  flvHTTPResponseHeaderStr.toList.map (fun ch => UInt8.ofNat ch.toNat)

/-- Go `flvHeaderBuf13`. -/
def flvHeaderBuf13 : List UInt8 :=
  [0x46, 0x4c, 0x56, 0x01, 0x05, 0x0, 0x0, 0x0, 0x09, 0x0, 0x0, 0x0, 0x0]

/-- Go `SubSession`, the fields used by `ReadRequest`, `WritePacket` and `Dispose`.
`wChan` is the content of the buffered channel, oldest first; `closeOnceDone` the state of
`closeOnce`; `exitChanClosed` whether `exitChan` is closed; `connCloseCount` the number of
`conn.Close()` calls made so far. -/
structure SubSession where
  StartTick : Int
  StreamName : List Char
  AppName : List Char
  URI : List Char
  Headers : List (List Char × List Char)
  wChan : List (List UInt8)
  closeOnceDone : Bool
  exitChanClosed : Bool
  hasClosedFlag : Nat
  connCloseCount : Nat
deriving DecidableEq, Repr

/-- Go `NewSubSession(conn, writeTimeout)`: empty fields, empty queue, nothing closed. -/
def NewSubSession : SubSession :=
  ⟨0, [], [], [], [], [], false, false, 0, 0⟩

/-- Go `session.hasClosed()`: `atomic.LoadUint32(&session.hasClosedFlag) == 1`. -/
def SubSession.hasClosed (s : SubSession) : Bool := s.hasClosedFlag == 1

/-- Go `session.Dispose(err)`: under `closeOnce`, store 1 in the closed flag, close the exit
channel, close the connection.  The exit channel is closed nowhere else. -/
def SubSession.Dispose (s : SubSession) : SubSession :=
  if s.closeOnceDone then s
  else
    { s with
      closeOnceDone := true
      hasClosedFlag := 1
      exitChanClosed := true
      connCloseCount := s.connCloseCount + 1 }

/-- What the external `parseHTTPHeader(session.rb)` returned: the first line, the headers
and whether the error is non-nil. -/
structure ParseResult where
  firstLine : List Char
  headers : List (List Char × List Char)
  err : Bool
deriving DecidableEq, Repr

/-- The error returned by `ReadRequest`: the one of `parseHTTPHeader`, or `fxxkErr`. -/
inductive RequestErr where
  | parseErr
  | fxxkErr
deriving DecidableEq, Repr

/-- Go `session.ReadRequest()`, for the time `now` and the result `p` of `parseHTTPHeader`:
the session afterwards and the error returned (`none` for nil).  The deferred function
disposes the session when the error is non-nil. -/
def SubSession.ReadRequest (s : SubSession) (now : Int) (p : ParseResult) :
    SubSession × Option RequestErr :=
  let s := { s with StartTick := now }
  let s := { s with Headers := p.headers }
  if p.err then (s.Dispose, some .parseErr)
  else
    let items := splitOn ' ' p.firstLine
    if items.length ≠ 3 ∨ items.getD 0 [] ≠ "GET".toList then (s.Dispose, some .fxxkErr)
    else
      let s := { s with URI := items.getD 1 [] }
      if ¬ hasSuffix s.URI ".flv".toList then (s.Dispose, some .fxxkErr)
      else
        let items := splitOn '/' s.URI
        if items.length ≠ 3 then (s.Dispose, some .fxxkErr)
        else
          let s := { s with AppName := items.getD 1 [] }
          let items := splitOn '.' (items.getD 2 [])
          if items.length < 2 then (s.Dispose, some .fxxkErr)
          else
            let s := { s with StreamName := items.getD 0 [] }
            (s, none)

/-- Go `session.WritePacket(pkt)`.  `none` stands for a call that does not return: the
session is open and the queue is full, so the loop keeps taking the `default` case until
another task takes a packet or disposes the session. -/
def SubSession.WritePacket (s : SubSession) (pkt : List UInt8) : Option SubSession :=
  if s.hasClosed then some s
  else if s.wChan.length < wChanSize then some { s with wChan := s.wChan ++ [pkt] }
  else if s.hasClosed then some s
  else none

/-- Go `session.WriteHTTPResponseHeader()`. -/
def SubSession.WriteHTTPResponseHeader (s : SubSession) : Option SubSession :=
  s.WritePacket flvHTTPResponseHeader

/-- Go `session.WriteFlvHeader()`. -/
def SubSession.WriteFlvHeader (s : SubSession) : Option SubSession :=
  s.WritePacket flvHeaderBuf13

/-- Go `session.Write(tag)`, for the bytes `tag.Raw`. -/
def SubSession.Write (s : SubSession) (tagRaw : List UInt8) : Option SubSession :=
  s.WritePacket tagRaw

/-- One pass of the `select` of `runWriteLoop` that takes a packet from the queue:
`none` when the queue is empty (the receive does not return); the loop ends when the session
is closed; `writeErr` says whether `conn.Write` fails, in which case the session is
disposed. -/
def SubSession.takePacket (s : SubSession) (writeErr : Bool) : Option SubSession :=
  match s.wChan with
  | [] => none
  | _ :: rest =>
    let s := { s with wChan := rest }
    if s.hasClosed then some s
    else if writeErr then some s.Dispose
    else some s

/-- The calls made on a session. -/
inductive Op where
  | readRequest (now : Int) (p : ParseResult)
  | writePacket (pkt : List UInt8)
  | dispose
  | takePacket (writeErr : Bool)
deriving DecidableEq, Repr

/-- The session after one call; `none` when the call does not return. -/
def SubSession.step (s : SubSession) : Op → Option SubSession
  | .readRequest now p => some (s.ReadRequest now p).1
  | .writePacket pkt => s.WritePacket pkt
  | .dispose => some s.Dispose
  | .takePacket writeErr => s.takePacket writeErr

/-- The session after a sequence of calls that all return. -/
def SubSession.runOps : List Op → SubSession → Option SubSession
  | [], s => some s
  | op :: ops, s =>
    match s.step op with
    | none => none
    | some s2 => SubSession.runOps ops s2

/-- The states a session is in between calls: either it has not been disposed and nothing
is closed, or it has been and the flag is set, the exit channel closed and the connection
closed once. -/
def SubSession.Consistent (s : SubSession) : Prop :=
  (s.closeOnceDone = false ∧ s.hasClosedFlag = 0 ∧ s.exitChanClosed = false ∧
    s.connCloseCount = 0) ∨
  (s.closeOnceDone = true ∧ s.hasClosedFlag = 1 ∧ s.exitChanClosed = true ∧
    s.connCloseCount = 1)

instance (s : SubSession) : Decidable s.Consistent :=
  inferInstanceAs (Decidable (_ ∨ _))

/-- The request line `GET /<app>/<file>.flv HTTP/1.1`. -/
def requestLine (app file : List Char) : List Char :=
  "GET /".toList ++ app ++ "/".toList ++ file ++ ".flv HTTP/1.1".toList

/-- The result of `parseHTTPHeader` for the request line `GET /live/stream1.flv HTTP/1.1`
without headers. -/
def liveRequest : ParseResult := ⟨"GET /live/stream1.flv HTTP/1.1".toList, [], false⟩

/-- A request line whose uri does not begin with `/` and whose third token is not
`HTTP/1.1`. -/
def oddRequest : ParseResult := ⟨"GET a/b/c.flv FTP/9".toList, [], false⟩

/-- A session whose queue holds `wChanSize` packets. -/
def fullSession : SubSession :=
  { NewSubSession with wChan := List.replicate 1024 [] }

/-! ## Shared lemmas on `TryUnpackOne` -/

/-- Every exit of the fragment loop is either the untouched rejection or the detachment
of the packets up to and including the last fragment, with exactly one emitted packet. -/
theorem fragmentLoop_exit (u : RTPUnpackerAAC) (l : RTPPacketList) (totalSize : Nat)
    (timestamp : UInt32) :
    ∀ (ps : List RTPPacket) (seq : UInt16) (cacheSize : Nat) (as : List (List UInt8))
      (packetCount : Int) (r : Result),
      fragmentLoop u l totalSize timestamp ps seq cacheSize as packetCount = some r →
      r = Result.reject l ∨
      (r.unpackedFlag = true ∧ ∃ j, j < ps.length ∧ r.list.packets = ps.drop (j + 1) ∧
        r.list.size = l.size - (packetCount + j + 1) ∧
        (ps[j]?).map (fun p => p.Header.Seq) = some r.unpackedSeq ∧
        r.emitted.length = 1) := by
  intro ps
  induction ps with
  | nil =>
    intro seq cacheSize as packetCount r h
    simp only [fragmentLoop, Option.some.injEq] at h
    exact Or.inl h.symm
  | cons p next ih =>
    intro seq cacheSize as packetCount r h
    rw [fragmentLoop] at h
    simp only at h
    split at h
    · exact Or.inl (Option.some.inj h).symm
    split at h
    · exact Or.inl (Option.some.inj h).symm
    split at h
    · exact absurd h (by simp)
    split at h
    · exact absurd h (by simp)
    · split at h
      · exact Or.inl (Option.some.inj h).symm
      split at h
      · exact absurd h (by simp)
      split at h
      · rcases ih _ _ _ _ _ h with h1 | ⟨hf, j, hj, hp, hs, hq, he⟩
        · exact Or.inl h1
        · refine Or.inr ⟨hf, j + 1, by simpa using hj, by simpa using hp, ?_, by simpa using hq, he⟩
          rw [hs]; push_cast; ring
      split at h
      · split at h
        · exact absurd h (by simp)
        · have h := (Option.some.inj h).symm
          subst h
          refine Or.inr ⟨rfl, 0, by simp, by simp, by simp, by simp, by simp⟩
      · exact Or.inl (Option.some.inj h).symm
    · exact Or.inl (Option.some.inj h).symm

/-- The emission loop of the last branch hands one packet per descriptor to the callback. -/
theorem emitEach_length (u : RTPUnpackerAAC) (p : RTPPacket) (b : ByteSlice) :
    ∀ (aus : List au) (i : Nat) (out : List AVPacket),
      emitEach u p b aus i = some out → out.length = aus.length := by
  intro aus
  induction aus with
  | nil => intro i out h; simp only [emitEach, Option.some.injEq] at h; subst h; rfl
  | cons a rest ih =>
    intro i out h
    rw [emitEach] at h
    simp only at h
    split at h
    · exact absurd h (by simp)
    split at h
    · exact absurd h (by simp)
    split at h
    · exact absurd h (by simp)
    split at h
    · exact absurd h (by simp)
    · rename_i out1 hout
      have h := (Option.some.inj h).symm
      subst h
      simp [ih _ _ hout]

/-- Every return of `TryUnpackOne` is either the untouched rejection `(false, 0)`, or
`(true, s)` with a non-empty prefix of the chain detached, the counter lowered by at least
one and `s` the sequence number of the last detached packet. -/
theorem TryUnpackOne_exit (u : RTPUnpackerAAC) (l : RTPPacketList) (r : Result)
    (h : TryUnpackOne u l = some r) :
    r = Result.reject l ∨
    (r.unpackedFlag = true ∧ ∃ k, 1 ≤ k ∧ k ≤ l.packets.length ∧
      r.list.packets = l.packets.drop k ∧ r.list.size ≤ l.size - 1 ∧
      (l.packets[k - 1]?).map (fun p => p.Header.Seq) = some r.unpackedSeq) := by
  unfold TryUnpackOne at h
  split at h
  · exact Or.inl (Option.some.inj h).symm
  · rename_i p next hl
    split at h
    · exact absurd h (by simp)
    split at h
    · exact absurd h (by simp)
    · split at h
      · exact absurd h (by simp)
      split at h
      · split at h
        · exact absurd h (by simp)
        split at h
        · exact absurd h (by simp)
        · have h := (Option.some.inj h).symm
          subst h
          exact Or.inr ⟨rfl, 1, le_refl _, by simp [hl], by simp [hl], by simp, by simp [hl]⟩
      · rcases fragmentLoop_exit _ _ _ _ _ _ _ _ _ _ h with h1 | ⟨hf, j, hj, hp, hs, hq, _⟩
        · exact Or.inl h1
        · refine Or.inr ⟨hf, j + 2, by omega, by simp [hl]; omega, by simpa [hl] using hp, ?_, ?_⟩
          · rw [hs]; have : (0 : Int) ≤ (j : Int) := Int.ofNat_nonneg j; omega
          · simpa [hl] using hq
    · split at h
      · exact absurd h (by simp)
      · have h := (Option.some.inj h).symm
        subst h
        exact Or.inr ⟨rfl, 1, le_refl _, by simp [hl], by simp [hl], by simp, by simp [hl]⟩


/-! ## C1, C2: the two kinds of return -/

/-- C1: whenever `TryUnpackOne` returns `unpackedFlag = false`, the returned sequence number
is 0, `list.head.next` and `list.size` are what they were before the call, `onAVPacket` was
not invoked, and a second call on the same list returns `(false, 0)` again. -/
theorem TryUnpackOne_false_untouched (u : RTPUnpackerAAC) (l : RTPPacketList) (r : Result)
    (h : TryUnpackOne u l = some r) (hf : r.unpackedFlag = false) :
    r.unpackedSeq = 0 ∧ r.list.packets = l.packets ∧ r.list.size = l.size ∧ r.emitted = [] ∧
    ∃ r2, TryUnpackOne u r.list = some r2 ∧ r2.unpackedFlag = false ∧ r2.unpackedSeq = 0 := by
  rcases TryUnpackOne_exit u l r h with h1 | ⟨ht, _⟩
  · subst h1
    exact ⟨rfl, rfl, rfl, rfl, Result.reject l, h, rfl, rfl⟩
  · rw [hf] at ht
    exact absurd ht (by decide)

/-- C1 at a list holding only the first fragment of an access unit. -/
theorem TryUnpackOne_false_untouched_witness :
    TryUnpackOne unpacker48k loneFragment = some (Result.reject loneFragment) ∧
    (Result.reject loneFragment).unpackedFlag = false ∧
    ((Result.reject loneFragment).unpackedSeq = 0 ∧
      (Result.reject loneFragment).list.packets = loneFragment.packets ∧
      (Result.reject loneFragment).list.size = loneFragment.size ∧
      (Result.reject loneFragment).emitted = [] ∧
      ∃ r2, TryUnpackOne unpacker48k (Result.reject loneFragment).list = some r2 ∧
        r2.unpackedFlag = false ∧ r2.unpackedSeq = 0) :=
  ⟨by decide, rfl,
    TryUnpackOne_false_untouched unpacker48k loneFragment (Result.reject loneFragment)
      (by decide) rfl⟩

/-- C2: if `TryUnpackOne` returns `(true, s)`, then a non-empty prefix of `k` packets was
detached (`head.next` advanced, the chain is strictly shorter), `list.size` decreased by at
least 1, and `s` is the sequence number of the last detached packet. -/
theorem TryUnpackOne_true_consumes (u : RTPUnpackerAAC) (l : RTPPacketList) (r : Result)
    (h : TryUnpackOne u l = some r) (ht : r.unpackedFlag = true) :
    ∃ k, 1 ≤ k ∧ k ≤ l.packets.length ∧ r.list.packets = l.packets.drop k ∧
      r.list.packets.length < l.packets.length ∧ r.list.size ≤ l.size - 1 ∧
      (l.packets[k - 1]?).map (fun p => p.Header.Seq) = some r.unpackedSeq := by
  rcases TryUnpackOne_exit u l r h with h1 | ⟨_, k, hk1, hk2, hp, hs, hq⟩
  · subst h1
    exact absurd ht (by simp [Result.reject])
  · refine ⟨k, hk1, hk2, hp, ?_, hs, hq⟩
    rw [hp, List.length_drop]
    omega

/-- C2 at the three-fragment list: the call returns `(true, 1)` and detaches all three. -/
theorem TryUnpackOne_true_consumes_witness :
    ∃ r, TryUnpackOne unpacker48k threeFragments = some r ∧ r.unpackedFlag = true ∧
      ∃ k, 1 ≤ k ∧ k ≤ threeFragments.packets.length ∧
        r.list.packets = threeFragments.packets.drop k ∧
        r.list.packets.length < threeFragments.packets.length ∧
        r.list.size ≤ threeFragments.size - 1 ∧
        (threeFragments.packets[k - 1]?).map (fun p => p.Header.Seq) = some r.unpackedSeq :=
  ⟨⟨true, 1, ⟨[], 1⟩, [⟨1, 2000, [1, 2, 3, 4, 5, 6]⟩]⟩, by decide, rfl,
    TryUnpackOne_true_consumes unpacker48k threeFragments
      ⟨true, 1, ⟨[], 1⟩, [⟨1, 2000, [1, 2, 3, 4, 5, 6]⟩]⟩ (by decide) rfl⟩

/-! ## Lemmas on `parseAU` -/

set_option maxRecDepth 20000 in
/-- Masking a byte with `0xF8` clears its three low bits. -/
theorem and_F8_fin : ∀ n : Fin 256, n.val &&& 248 = n.val - n.val % 8 := by decide

/-- The 13-bit AU-size read from the two header bytes `x`, `y`. -/
theorem auSize_eq (x y : UInt8) :
    ((x.toNat <<< 8) % 2 ^ 32 ||| (y &&& 0xF8).toNat) / 8 = x.toNat * 32 + y.toNat / 8 := by
  have hx := UInt8.toNat_lt x
  have hy := UInt8.toNat_lt y
  have h1 : (y &&& 0xF8).toNat = y.toNat - y.toNat % 8 := by
    have : (y &&& 0xF8).toNat = y.toNat &&& 248 := by
      show (y.toBitVec &&& (0xF8 : UInt8).toBitVec).toNat = _
      rw [BitVec.toNat_and]; rfl
    rw [this]
    exact and_F8_fin ⟨y.toNat, by omega⟩
  have h2 : (x.toNat <<< 8) % 2 ^ 32 = 2 ^ 8 * x.toNat := by
    rw [Nat.shiftLeft_eq, Nat.mod_eq_of_lt (by omega)]; ring
  rw [h1, h2, ← Nat.mul_add_lt_is_or (by omega)]
  omega

/-- The length computation at the head of `parseAU`, without the `uint32` reductions. -/
theorem headersLength_eq (b0 b1 : UInt8) :
    (((b0.toNat <<< 8) % 2 ^ 32 + b1.toNat) % 2 ^ 32 + 7) % 2 ^ 32 / 8
      = (b0.toNat * 256 + b1.toNat + 7) / 8 := by
  have hx := UInt8.toNat_lt b0
  have hy := UInt8.toNat_lt b1
  rw [Nat.shiftLeft_eq]
  omega

/-- One iteration of the header loop when both header bytes are present. -/
theorem parseAULoop_succ (b : List UInt8) (n pauh pau : Nat) (ret : List au) (x y : UInt8)
    (h32 : pauh + 2 < 2 ^ 32) (hx : b[pauh]? = some x) (hy : b[pauh + 1]? = some y) :
    parseAULoop b (n + 1) pauh pau ret =
      parseAULoop b n (pauh + 2) ((pau + (x.toNat * 32 + y.toNat / 8)) % 2 ^ 32)
        (ret ++ [⟨x.toNat * 32 + y.toNat / 8, pau⟩]) := by
  rw [parseAULoop, Nat.mod_eq_of_lt (by omega : pauh + 1 < 2 ^ 32), hx, hy]
  simp only [auSize_eq]
  rw [Nat.mod_eq_of_lt h32]

/-- When the `n` announced headers lie within `b`, the loop returns `n` contiguous
descriptors appended to `ret`. -/
theorem parseAULoop_ok (b : List UInt8) :
    ∀ (n pauh pau : Nat) (ret : List au),
      pauh + 2 * n ≤ b.length → pauh + 2 * n < 2 ^ 32 → pau + 8191 * n < 2 ^ 32 →
      ∃ out, parseAULoop b n pauh pau ret = some (ret ++ out) ∧ out.length = n ∧
        Contiguous pau out := by
  intro n
  induction n with
  | zero =>
    intro pauh pau ret _ _ _
    exact ⟨[], by simp [parseAULoop], rfl, trivial⟩
  | succ n ih =>
    intro pauh pau ret h1 h2 h3
    obtain ⟨x, hx⟩ : ∃ x, b[pauh]? = some x :=
      ⟨b.get ⟨pauh, by omega⟩, List.getElem?_eq_getElem _⟩
    obtain ⟨y, hy⟩ : ∃ y, b[pauh + 1]? = some y :=
      ⟨b.get ⟨pauh + 1, by omega⟩, List.getElem?_eq_getElem _⟩
    have hX := UInt8.toNat_lt x
    have hY := UInt8.toNat_lt y
    rw [parseAULoop_succ b n pauh pau ret x y (by omega) hx hy,
      Nat.mod_eq_of_lt (by omega)]
    obtain ⟨out, ho, hlen, hc⟩ := ih (pauh + 2)
      (pau + (x.toNat * 32 + y.toNat / 8))
      (ret ++ [⟨x.toNat * 32 + y.toNat / 8, pau⟩])
      (by omega) (by omega) (by omega)
    refine ⟨⟨x.toNat * 32 + y.toNat / 8, pau⟩ :: out, ?_, by simp [hlen], ?_⟩
    · rw [ho]; simp
    · exact ⟨rfl, by show x.toNat * 32 + y.toNat / 8 < 8192; omega, hc⟩

/-- When the announced headers run past the end of `b`, the loop indexes out of range. -/
theorem parseAULoop_fail (b : List UInt8) :
    ∀ (n pauh pau : Nat) (ret : List au),
      b.length < pauh + 2 * (n + 1) → pauh + 2 * (n + 1) < 2 ^ 32 →
      parseAULoop b (n + 1) pauh pau ret = none := by
  intro n
  induction n with
  | zero =>
    intro pauh pau ret h1 h2
    rw [parseAULoop, Nat.mod_eq_of_lt (by omega : pauh + 1 < 2 ^ 32)]
    have hy : b[pauh + 1]? = none := List.getElem?_eq_none (by omega)
    rw [hy]
    split <;> simp_all
  | succ n ih =>
    intro pauh pau ret h1 h2
    by_cases hlen : pauh + 2 ≤ b.length
    · obtain ⟨x, hx⟩ : ∃ x, b[pauh]? = some x :=
        ⟨b.get ⟨pauh, by omega⟩, List.getElem?_eq_getElem _⟩
      obtain ⟨y, hy⟩ : ∃ y, b[pauh + 1]? = some y :=
        ⟨b.get ⟨pauh + 1, by omega⟩, List.getElem?_eq_getElem _⟩
      rw [parseAULoop_succ b (n + 1) pauh pau ret x y (by omega) hx hy]
      exact ih _ _ _ (by omega) (by omega)
    · rw [parseAULoop, Nat.mod_eq_of_lt (by omega : pauh + 1 < 2 ^ 32)]
      have hy : b[pauh + 1]? = none := List.getElem?_eq_none (by omega)
      rw [hy]
      split <;> simp_all

/-- Contiguous descriptors do not overlap, and none starts before `pau`. -/
theorem Contiguous.pairwise :
    ∀ (aus : List au) (pau : Nat), Contiguous pau aus →
      (∀ a ∈ aus, pau ≤ a.pos) ∧ aus.Pairwise (fun a c => a.pos + a.size ≤ c.pos) := by
  intro aus
  induction aus with
  | nil => intro pau _; simp
  | cons a rest ih =>
    intro pau h
    obtain ⟨hp, _, hc⟩ := h
    obtain ⟨h1, h2⟩ := ih _ hc
    refine ⟨?_, ?_⟩
    · intro c hcm
      rcases List.mem_cons.mp hcm with rfl | hm
      · omega
      · have := h1 c hm; omega
    · refine List.pairwise_cons.mpr ⟨?_, h2⟩
      intro c hm
      have := h1 c hm
      omega

/-- The head of `parseAU` on a slice of at least two bytes. -/
theorem parseAU_eq_loop (b : List UInt8) (hlen : 2 ≤ b.length) :
    parseAU b = parseAULoop b (nbAUHeaders b) 2 (2 + auHeadersLengthBytes b) [] := by
  obtain ⟨x, h0⟩ : ∃ x, b[0]? = some x :=
    ⟨b.get ⟨0, by omega⟩, List.getElem?_eq_getElem _⟩
  obtain ⟨y, h1⟩ : ∃ y, b[1]? = some y :=
    ⟨b.get ⟨1, by omega⟩, List.getElem?_eq_getElem _⟩
  have hd0 : b.getD 0 0 = x := by simp [List.getD, h0]
  have hd1 : b.getD 1 0 = y := by simp [List.getD, h1]
  have hX := UInt8.toNat_lt x
  have hY := UInt8.toNat_lt y
  unfold parseAU
  rw [h0, h1]
  simp only [headersLength_eq]
  unfold nbAUHeaders auHeadersLengthBytes auHeadersLengthBits
  rw [hd0, hd1, Nat.mod_eq_of_lt (by omega)]

/-- The length field announces at most 4096 headers in at most 8192 bytes. -/
theorem auHeadersLength_le (b : List UInt8) :
    auHeadersLengthBytes b ≤ 8192 ∧ nbAUHeaders b ≤ 4096 ∧
      2 * nbAUHeaders b ≤ auHeadersLengthBytes b := by
  have hX := UInt8.toNat_lt (b.getD 0 0)
  have hY := UInt8.toNat_lt (b.getD 1 0)
  unfold nbAUHeaders auHeadersLengthBytes auHeadersLengthBits
  omega

/-- Whenever the announced AU-headers lie within `b`, `parseAU` returns that many contiguous
descriptors, the first one right after the AU-header section. -/
theorem parseAU_ok (b : List UInt8) (hlen : 2 ≤ b.length)
    (hfit : 2 + 2 * nbAUHeaders b ≤ b.length) :
    ∃ aus, parseAU b = some aus ∧ aus.length = nbAUHeaders b ∧
      Contiguous (2 + auHeadersLengthBytes b) aus := by
  obtain ⟨h1, h2, _⟩ := auHeadersLength_le b
  obtain ⟨out, ho, hl, hc⟩ := parseAULoop_ok b (nbAUHeaders b) 2 (2 + auHeadersLengthBytes b) []
    hfit (by omega) (by omega)
  exact ⟨out, by rw [parseAU_eq_loop b hlen, ho]; simp, hl, hc⟩

/-- Outside the slices of `parseAU_ok`, `parseAU` indexes out of range. -/
theorem parseAU_none (b : List UInt8)
    (h : ¬ (2 ≤ b.length ∧ 2 + 2 * nbAUHeaders b ≤ b.length)) : parseAU b = none := by
  by_cases hlen : 2 ≤ b.length
  · have hfit : ¬ 2 + 2 * nbAUHeaders b ≤ b.length := fun hf => h ⟨hlen, hf⟩
    obtain ⟨_, h2, _⟩ := auHeadersLength_le b
    have hpos : 0 < nbAUHeaders b := by omega
    obtain ⟨m, hm⟩ := Nat.exists_eq_succ_of_ne_zero (Nat.pos_iff_ne_zero.mp hpos)
    rw [parseAU_eq_loop b hlen, hm]
    exact parseAULoop_fail b m 2 _ [] (by omega) (by omega)
  · have h1 : b[1]? = none := List.getElem?_eq_none (by omega)
    unfold parseAU
    rw [h1]
    split <;> simp_all

/-- Every descriptor sequence returned by `parseAU` is contiguous from the end of the
AU-header section, which lies within `b`. -/
theorem parseAU_some (b : List UInt8) (aus : List au) (h : parseAU b = some aus) :
    2 ≤ b.length ∧ 2 + 2 * nbAUHeaders b ≤ b.length ∧ aus.length = nbAUHeaders b ∧
      Contiguous (2 + auHeadersLengthBytes b) aus := by
  by_cases hc : 2 ≤ b.length ∧ 2 + 2 * nbAUHeaders b ≤ b.length
  · obtain ⟨out, ho, hl, hcont⟩ := parseAU_ok b hc.1 hc.2
    rw [ho] at h
    have h := Option.some.inj h
    subst h
    exact ⟨hc.1, hc.2, hl, hcont⟩
  · rw [parseAU_none b hc] at h
    exact absurd h (by simp)

/-- Every descriptor returned by `parseAU` declares a 13-bit size. -/
theorem parseAU_size_lt (b : List UInt8) (aus : List au) (h : parseAU b = some aus) :
    ∀ a ∈ aus, a.size < 8192 := by
  obtain ⟨_, _, _, hc⟩ := parseAU_some b aus h
  have key : ∀ (l : List au) (pau : Nat), Contiguous pau l → ∀ a ∈ l, a.size < 8192 := by
    intro l
    induction l with
    | nil => intro _ _ a ha; simp at ha
    | cons x rest ih =>
      intro pau hc a ha
      rcases List.mem_cons.mp ha with rfl | hm
      · exact hc.2.1
      · exact ih _ hc.2.2 a hm
  exact key _ _ hc

/-! ## C3, C4: fragment reassembly -/

/-- A packet that directly follows another one is at sequence distance 1 from it. -/
theorem SubSeq_follows (p q : RTPPacket) (h : RTPPacket.follows p q) :
    SubSeq q.Header.Seq p.Header.Seq = 1 := by
  have hp := UInt16.toNat_lt p.Header.Seq
  have hq := UInt16.toNat_lt q.Header.Seq
  unfold RTPPacket.follows at h
  unfold SubSeq
  simp only
  have hd : (q.Header.Seq.toNat + 65536 - p.Header.Seq.toNat) % 65536 = 1 := by omega
  rw [hd]
  simp

/-- What `RTPPacket.fragment` reads off a packet. -/
theorem fragment_some (p : RTPPacket) (s : Nat) (d : List UInt8)
    (h : p.fragment = some (s, d)) :
    ∃ b a0 frag, p.payload = some b ∧ parseAU b.data = some [a0] ∧
      b.sliceFrom a0.pos = some frag ∧ a0.size = s ∧ frag.data = d := by
  unfold RTPPacket.fragment at h
  split at h
  · exact absurd h (by simp)
  · rename_i b hb
    split at h
    · rename_i a0 ha
      split at h
      · exact absurd h (by simp)
      · rename_i frag hf
        simp only [Option.some.injEq, Prod.mk.injEq] at h
        exact ⟨b, a0, frag, hb, ha, hf, h.1, h.2⟩
    · exact absurd h (by simp)

/-- One iteration of the fragment loop on a packet that continues the access unit. -/
theorem fragmentLoop_step (u : RTPUnpackerAAC) (l : RTPPacketList) (totalSize : Nat)
    (T : UInt32) (p : RTPPacket) (next : List RTPPacket) (seq : UInt16) (cacheSize : Nat)
    (as : List (List UInt8)) (packetCount : Int) (d : List UInt8)
    (hseq : SubSeq p.Header.Seq seq = 1) (hT : p.Header.Timestamp = T)
    (hf : p.fragment = some (totalSize, d)) :
    fragmentLoop u l totalSize T (p :: next) seq cacheSize as packetCount =
      if (cacheSize + d.length % 2 ^ 32) % 2 ^ 32 < totalSize then
        fragmentLoop u l totalSize T next p.Header.Seq
          ((cacheSize + d.length % 2 ^ 32) % 2 ^ 32) (as ++ [d]) (packetCount + 1)
      else if (cacheSize + d.length % 2 ^ 32) % 2 ^ 32 = totalSize then
        if u.clockDiv = 0 then none
        else some ⟨true, p.Header.Seq, ⟨next, l.size - (packetCount + 1)⟩,
          [⟨u.payloadType, T.toNat / u.clockDiv, (as ++ [d]).flatten⟩]⟩
      else some (Result.reject l) := by
  obtain ⟨b, a0, frag, hb, ha, hfr, hs, hd⟩ := fragment_some p totalSize d hf
  rw [fragmentLoop]
  simp only [hseq, hT, hb, ha, hfr, hs, ByteSlice.len, hd, ne_eq, not_true_eq_false,
    if_false]

/-- The fragment loop run over the remaining fragments of an access unit that they
complete: it emits the concatenation and detaches up to the last fragment. -/
theorem fragmentLoop_complete (u : RTPUnpackerAAC) (l : RTPPacketList) (totalSize : Nat)
    (T : UInt32) (rest : List RTPPacket) (hclk : u.clockDiv ≠ 0)
    (htot : totalSize < 2 ^ 32) :
    ∀ (ps : List RTPPacket) (p : RTPPacket) (ds : List (List UInt8)) (d : List UInt8)
      (prev : RTPPacket) (cs : Nat) (as : List (List UInt8)) (pc : Int),
      ConsecutiveFrom prev (p :: ps) →
      (∀ q ∈ p :: ps, q.Header.Timestamp = T) →
      (p :: ps).map RTPPacket.fragment = (d :: ds).map (fun x => some (totalSize, x)) →
      (∀ k, 1 ≤ k → k ≤ ps.length →
        cs + (((d :: ds).take k).map List.length).sum < totalSize) →
      cs + ((d :: ds).map List.length).sum = totalSize →
      fragmentLoop u l totalSize T (p :: ps ++ rest) prev.Header.Seq cs as pc =
        some ⟨true, ((p :: ps).getLast (List.cons_ne_nil _ _)).Header.Seq,
          ⟨rest, l.size - (pc + (ps.length + 1))⟩,
          [⟨u.payloadType, T.toNat / u.clockDiv, (as ++ d :: ds).flatten⟩]⟩ := by
  intro ps
  induction ps with
  | nil =>
    intro p ds d prev cs as pc hch hts hau _ hsum
    have hds : ds = [] := by
      have := congrArg List.length hau
      simpa using this.symm
    subst hds
    have hfp : p.fragment = some (totalSize, d) := by simpa using hau
    have hfo : RTPPacket.follows prev p := hch.1
    simp only [List.map_cons, List.map_nil, List.sum_cons, List.sum_nil, Nat.add_zero]
      at hsum
    have hcs : (cs + d.length % 2 ^ 32) % 2 ^ 32 = totalSize := by omega
    rw [List.cons_append, List.nil_append,
      fragmentLoop_step u l totalSize T p rest _ cs as pc d (SubSeq_follows _ _ hfo)
        (hts p (List.mem_cons_self _ _)) hfp, hcs]
    simp [hclk]
  | cons q ps ih =>
    intro p ds d prev cs as pc hch hts hau hlt hsum
    obtain ⟨hfo, hch2⟩ := hch
    cases ds with
    | nil =>
      have := congrArg List.length hau
      simp at this
    | cons d2 ds =>
      simp only [List.map_cons, List.cons.injEq] at hau
      obtain ⟨hfp, hfq, hrest⟩ := hau
      have h1 := hlt 1 (le_refl _) (by simp)
      simp only [List.take_succ_cons, List.take_zero, List.map_cons, List.map_nil,
        List.sum_cons, List.sum_nil, Nat.add_zero] at h1
      have hcs : (cs + d.length % 2 ^ 32) % 2 ^ 32 = cs + d.length := by omega
      rw [List.cons_append,
        fragmentLoop_step u l totalSize T p (q :: ps ++ rest) _ cs as pc d
          (SubSeq_follows _ _ hfo) (hts p (List.mem_cons_self _ _)) hfp, hcs, if_pos h1]
      have := ih q ds d2 p (cs + d.length) (as ++ [d]) (pc + 1) hch2
        (fun x hx => hts x (List.mem_cons_of_mem _ hx))
        (by simp [hfq, hrest])
        (by
          intro k hk1 hk2
          have := hlt (k + 1) (by omega) (by simpa using hk2)
          simp only [List.take_succ_cons, List.map_cons, List.sum_cons] at this
          omega)
        (by
          simp only [List.map_cons, List.sum_cons] at hsum ⊢
          omega)
      rw [this, List.getLast_cons_cons]
      simp only [List.length_cons, List.append_assoc, List.singleton_append]
      congr 3
      push_cast
      ring

/-- On a list that starts with a fragment run, `TryUnpackOne` emits the reassembled access
unit once, returns the sequence number of the last fragment, detaches the run and lowers
the counter by the number of iterations of the fragment loop, one less than the number
of fragments. -/
theorem TryUnpackOne_fragments (u : RTPUnpackerAAC) (l : RTPPacketList)
    (frags rest : List RTPPacket) (ds : List (List UInt8)) (T : UInt32) (totalSize : Nat)
    (hl : l.packets = frags ++ rest) (hrun : IsFragmentRun frags ds T totalSize)
    (hclk : u.clockDiv ≠ 0) :
    ∃ last, frags.getLast? = some last ∧
      TryUnpackOne u l = some ⟨true, last.Header.Seq,
        ⟨rest, l.size - ((frags.length : Int) - 1)⟩,
        [⟨u.payloadType, T.toNat / u.clockDiv, ds.flatten⟩]⟩ := by
  obtain ⟨hN, hch, hts, hau, hlt, hsum⟩ := hrun
  match frags, ds with
  | [], _ => simp at hN
  | [_], _ => simp at hN
  | _ :: _ :: _, [] => simp at hau
  | _ :: _ :: _, [_] => simp at hau
  | p :: q :: ps, d :: d2 :: ds =>
    have hfp : p.fragment = some (totalSize, d) := by
      simp only [List.map_cons, List.cons.injEq] at hau
      exact hau.1
    have hau2 : (q :: ps).map RTPPacket.fragment =
        (d2 :: ds).map (fun x => some (totalSize, x)) := by
      simp only [List.map_cons, List.cons.injEq] at hau ⊢
      exact hau.2
    obtain ⟨b, a0, frag, hb, ha, hfr, hs, hd⟩ := fragment_some p totalSize d hfp
    have htot : totalSize < 2 ^ 32 := by
      have := parseAU_size_lt b.data [a0] ha a0 (List.mem_singleton.mpr rfl)
      omega
    have h1 := hlt 1 (le_refl _) (by simp)
    simp only [List.take_succ_cons, List.take_zero, List.map_cons, List.map_nil,
      List.sum_cons, List.sum_nil, Nat.add_zero] at h1
    have hfl : frag.len = d.length := by rw [ByteSlice.len, hd]
    have hmod : frag.len % 2 ^ 32 = d.length := by rw [hfl]; omega
    have hloop := fragmentLoop_complete u l totalSize T rest hclk htot ps q ds d2 p
      d.length [d] 0 (show ConsecutiveFrom p (q :: ps) from hch)
      (fun x hx => hts x (List.mem_cons_of_mem _ hx)) hau2
      (by
        intro k hk1 hk2
        have := hlt (k + 1) (by omega) (by simp only [List.length_cons]; omega)
        simp only [List.take_succ_cons, List.map_cons, List.sum_cons] at this
        exact this)
      (by
        simp only [List.map_cons, List.sum_cons] at hsum ⊢
        exact hsum)
    refine ⟨(q :: ps).getLast (List.cons_ne_nil _ _), ?_, ?_⟩
    · rw [List.getLast?_cons_cons, List.getLast?_eq_getLast]
    · unfold TryUnpackOne
      rw [hl]
      simp only [List.cons_append, hb, ha, hfr, hmod, hs, hd,
        if_neg (Nat.not_le.mpr h1), hts p (List.mem_cons_self _ _)]
      rw [← List.cons_append, hloop]
      simp only [List.length_cons, List.singleton_append]
      congr 3
      push_cast
      ring

/-- C3, as stated, fails for an unpacker whose `uint32(clockRate/1000)` is 0: on the
three-fragment run of `threeFragments` with clock rate 0 the division
`Timestamp / uint32(clockRate/1000)` panics and nothing is returned. -/
theorem TryUnpackOne_reassembles_counterexample :
    threeFragments.packets = threeFragments.packets ++ [] ∧
    IsFragmentRun threeFragments.packets [[1, 2], [3, 4], [5, 6]] 96000 6 ∧
    TryUnpackOne unpackerClock0 threeFragments = none := by
  decide

/-- C3, amended by the condition `uint32(clockRate/1000) ≠ 0` (true of every clock rate
from 1000 up to `1000 * 2^32 - 1`): on a list whose first `N ≥ 2` packets are a fragment run
with timestamp `T` and AU data `ds`, `TryUnpackOne` invokes `onAVPacket` exactly once, with
payload the concatenation of the `N` AU data in list order and timestamp
`T / uint32(clockRate/1000)`, returns `(true, seq of the N-th packet)` and leaves `head.next`
at the successor of the `N`-th packet. -/
theorem TryUnpackOne_reassembles (u : RTPUnpackerAAC) (l : RTPPacketList)
    (frags rest : List RTPPacket) (ds : List (List UInt8)) (T : UInt32) (totalSize : Nat)
    (hl : l.packets = frags ++ rest) (hrun : IsFragmentRun frags ds T totalSize)
    (hclk : u.clockDiv ≠ 0) :
    ∃ r last, TryUnpackOne u l = some r ∧ frags.getLast? = some last ∧
      r.unpackedFlag = true ∧ r.unpackedSeq = last.Header.Seq ∧
      r.emitted = [⟨u.payloadType, T.toNat / u.clockDiv, ds.flatten⟩] ∧
      r.list.packets = rest := by
  obtain ⟨last, h1, h2⟩ := TryUnpackOne_fragments u l frags rest ds T totalSize hl hrun hclk
  exact ⟨_, last, h2, h1, rfl, rfl, rfl, rfl⟩

/-- C3 amended, at `threeFragments` (sequence numbers 65535, 0, 1) and a 48 kHz clock: one
packet of the 6 bytes with timestamp `96000 / 48 = 2000`, and `(true, 1)`. -/
theorem TryUnpackOne_reassembles_witness :
    (threeFragments.packets = threeFragments.packets ++ [] ∧
      IsFragmentRun threeFragments.packets [[1, 2], [3, 4], [5, 6]] 96000 6 ∧
      unpacker48k.clockDiv ≠ 0) ∧
    ∃ r last, TryUnpackOne unpacker48k threeFragments = some r ∧
      threeFragments.packets.getLast? = some last ∧
      r.unpackedFlag = true ∧ r.unpackedSeq = last.Header.Seq ∧
      r.emitted = [⟨unpacker48k.payloadType, (96000 : UInt32).toNat / unpacker48k.clockDiv,
        [[1, 2], [3, 4], [5, 6]].flatten⟩] ∧
      r.list.packets = [] :=
  ⟨⟨by decide, by decide, by decide⟩,
    TryUnpackOne_reassembles unpacker48k threeFragments threeFragments.packets []
      [[1, 2], [3, 4], [5, 6]] 96000 6 (by decide) (by decide) (by decide)⟩

/-- C4 at its failing input: on the three-fragment list with `size = 3` the call detaches
all three packets (`head.next` is nil afterwards) and leaves `size = 1`, not 0. -/
theorem TryUnpackOne_three_fragments_size :
    threeFragments.size = 3 ∧ threeFragments.packets.length = 3 ∧
    TryUnpackOne unpacker48k threeFragments =
      some ⟨true, 1, ⟨[], 1⟩, [⟨1, 2000, [1, 2, 3, 4, 5, 6]⟩]⟩ := by
  decide

/-! ## C5, C6: packets without, or with out-of-range, access units -/

/-- C5 at its failing input: for the payload `00 00`, `parseAU` returns no descriptor and
`TryUnpackOne` returns `(true, 7)` and detaches the packet without having emitted any AV
packet. -/
theorem TryUnpackOne_empty_section :
    (mkPacket 7 96000 [0x00, 0x00]).payload = some ⟨[0x00, 0x00], []⟩ ∧
    parseAU [0x00, 0x00] = some [] ∧
    TryUnpackOne unpacker48k emptyAUSection = some ⟨true, 7, ⟨[], 0⟩, []⟩ := by
  decide

/-- The multi-AU branch slices without a range check: with two announced access units of
16 bytes and only 24 data bytes, the second slice `b[22:38]` of the 30-byte payload is out
of range and the call panics. -/
theorem TryUnpackOne_truncated_multiAU :
    parseAU ([0x00, 0x20, 0x00, 0x80, 0x00, 0x80] ++ List.replicate 24 0) =
      some [⟨16, 6⟩, ⟨16, 22⟩] ∧
    TryUnpackOne unpacker48k truncatedTwoAUs = none := by
  decide

/-- C6, as stated, fails: the head packet of `threeFragments` has a 6-byte payload whose only
descriptor `{size = 6, pos = 4}` is out of range, and the call returns `(true, 1)`, not
`(false, 0)`: an out-of-range single descriptor is the first fragment of an access unit. -/
theorem TryUnpackOne_out_of_range_counterexample :
    ¬ (∀ (u : RTPUnpackerAAC) (l : RTPPacketList) (p : RTPPacket) (next : List RTPPacket)
        (b : ByteSlice) (aus : List au),
        l.packets = p :: next → p.payload = some b → 2 ≤ b.len →
        auHeadersLengthBits b.data ≤ 8 * (b.len - 2) → 1000 ≤ u.clockRate →
        parseAU b.data = some aus →
        (∃ a ∈ aus, b.len < a.pos + a.size ∨ b.len < a.pos) →
        TryUnpackOne u l = some (Result.reject l)) := by
  intro h
  have := h unpacker48k threeFragments
    (mkPacket 65535 96000 [0x00, 0x10, 0x00, 0x30, 1, 2])
    [mkPacket 0 96000 [0x00, 0x10, 0x00, 0x30, 3, 4],
      mkPacket 1 96000 [0x00, 0x10, 0x00, 0x30, 5, 6]]
    ⟨[0x00, 0x10, 0x00, 0x30, 1, 2], []⟩ [⟨6, 4⟩]
    (by decide) (by decide) (by decide) (by decide) (by decide) (by decide)
    ⟨⟨6, 4⟩, List.mem_singleton.mpr rfl, Or.inl (by decide)⟩
  revert this
  decide

/-- C6, amended to the single-descriptor case: when the payload `b` of the head packet has
`len(b) ≥ 2` and `auHeadersLengthBits ≤ 8 * (len(b) - 2)`, and `parseAU` returns exactly one
descriptor that is out of range (`pos + size > len(b)`), `TryUnpackOne` does not fail on the
head packet: it takes `b[pos:]` as the first fragment and continues with the fragment loop
over the following packets; it returns `(false, 0)` with the list untouched when no packet
follows, or the following packet is not the next in sequence or has another timestamp. -/
theorem TryUnpackOne_single_out_of_range (u : RTPUnpackerAAC) (l : RTPPacketList)
    (p : RTPPacket) (next : List RTPPacket) (b : ByteSlice) (a0 : au)
    (hl : l.packets = p :: next) (hb : p.payload = some b) (hlen : 2 ≤ b.len)
    (hbits : auHeadersLengthBits b.data ≤ 8 * (b.len - 2))
    (hau : parseAU b.data = some [a0]) (hout : b.len < a0.pos + a0.size) :
    TryUnpackOne u l =
      fragmentLoop u l a0.size p.Header.Timestamp next p.Header.Seq
        ((b.len - a0.pos) % 2 ^ 32) [b.data.drop a0.pos] 0 ∧
    ((next = [] ∨ ∃ q rest, next = q :: rest ∧
        (SubSeq q.Header.Seq p.Header.Seq ≠ 1 ∨ q.Header.Timestamp ≠ p.Header.Timestamp)) →
      TryUnpackOne u l = some (Result.reject l)) := by
  unfold ByteSlice.len at hlen hbits hout ⊢
  obtain ⟨_, _, _, hc⟩ := parseAU_some b.data [a0] hau
  obtain ⟨hpos, _, _⟩ := hc
  have hbytes : 2 + auHeadersLengthBytes b.data ≤ b.data.length := by
    unfold auHeadersLengthBytes
    omega
  have hfr : b.sliceFrom a0.pos = some ⟨b.data.drop a0.pos, b.spare⟩ := by
    unfold ByteSlice.sliceFrom
    rw [if_pos (by omega)]
  have hnot : ¬ a0.size ≤ (b.data.length - a0.pos) % 2 ^ 32 := by
    have := Nat.mod_le (b.data.length - a0.pos) (2 ^ 32)
    omega
  have hmain : TryUnpackOne u l =
      fragmentLoop u l a0.size p.Header.Timestamp next p.Header.Seq
        ((b.data.length - a0.pos) % 2 ^ 32) [b.data.drop a0.pos] 0 := by
    unfold TryUnpackOne
    rw [hl]
    simp only [hb, hau, hfr, ByteSlice.len, List.length_drop, if_neg hnot]
  refine ⟨hmain, ?_⟩
  rintro (hn | ⟨q, rest, hn, hq⟩)
  · rw [hmain, hn]; rfl
  · rw [hmain, hn, fragmentLoop]
    rcases hq with hq | hq
    · simp [hq]
    · simp [hq]

/-- C6 amended, at a list holding only the first fragment of an access unit. -/
theorem TryUnpackOne_single_out_of_range_witness :
    (loneFragment.packets = [mkPacket 65535 96000 [0x00, 0x10, 0x00, 0x30, 1, 2]] ∧
      (mkPacket 65535 96000 [0x00, 0x10, 0x00, 0x30, 1, 2]).payload =
        some ⟨[0x00, 0x10, 0x00, 0x30, 1, 2], []⟩ ∧
      parseAU [0x00, 0x10, 0x00, 0x30, 1, 2] = some [⟨6, 4⟩]) ∧
    TryUnpackOne unpacker48k loneFragment = some (Result.reject loneFragment) :=
  ⟨⟨by decide, by decide, by decide⟩,
    (TryUnpackOne_single_out_of_range unpacker48k loneFragment
      (mkPacket 65535 96000 [0x00, 0x10, 0x00, 0x30, 1, 2]) []
      ⟨[0x00, 0x10, 0x00, 0x30, 1, 2], []⟩ ⟨6, 4⟩
      (by decide) (by decide) (by decide) (by decide) (by decide) (by decide)).2
      (Or.inl rfl)⟩

/-! ## C7, C8, C9: `parseAU` -/

/-- The size field of an encoded AU-header is read back. -/
theorem encodeAUHeader_size (s idx : Nat) (hs : s < 8192) (hi : idx < 8) :
    (UInt8.ofNat (((s <<< 3) ||| idx) / 256)).toNat * 32 +
      (UInt8.ofNat (((s <<< 3) ||| idx) % 256)).toNat / 8 = s := by
  have h1 : (s <<< 3) ||| idx = 2 ^ 3 * s + idx := by
    rw [Nat.shiftLeft_eq, Nat.mul_comm, Nat.mul_add_lt_is_or (by omega)]
  rw [h1]
  show (((2 ^ 3 * s + idx) / 256) % 256) * 32 + (((2 ^ 3 * s + idx) % 256) % 256) / 8 = s
  omega

/-- The header loop run over encoded AU-headers returns their sizes, contiguously placed. -/
theorem parseAULoop_encoded :
    ∀ (hs : List (Nat × Nat)) (pre data : List UInt8) (pau : Nat) (ret : List au),
      (∀ h ∈ hs, h.1 < 8192 ∧ h.2 < 8) →
      pre.length + 2 * hs.length < 2 ^ 32 → pau + 8191 * hs.length < 2 ^ 32 →
      ∃ out, parseAULoop (pre ++ (hs.map encodeAUHeader).flatten ++ data) hs.length
          pre.length pau ret = some (ret ++ out) ∧
        out.map au.size = hs.map Prod.fst ∧ Contiguous pau out := by
  intro hs
  induction hs with
  | nil =>
    intro pre data pau ret _ _ _
    exact ⟨[], by simp [parseAULoop], rfl, trivial⟩
  | cons h t ih =>
    intro pre data pau ret hall h1 h2
    obtain ⟨hs, hi⟩ := hall h (List.mem_cons_self _ _)
    have hsz := encodeAUHeader_size h.1 h.2 hs hi
    simp only [List.length_cons] at h1 h2 ⊢
    have hb : pre ++ ((h :: t).map encodeAUHeader).flatten ++ data =
        (pre ++ encodeAUHeader h) ++ (t.map encodeAUHeader).flatten ++ data := by
      simp [List.append_assoc]
    have hx : (pre ++ ((h :: t).map encodeAUHeader).flatten ++ data)[pre.length]? =
        some (UInt8.ofNat (((h.1 <<< 3) ||| h.2) / 256)) := by
      rw [List.map_cons, List.flatten_cons, List.append_assoc,
        List.getElem?_append_right (le_refl _), Nat.sub_self]
      simp [encodeAUHeader]
    have hy : (pre ++ ((h :: t).map encodeAUHeader).flatten ++ data)[pre.length + 1]? =
        some (UInt8.ofNat (((h.1 <<< 3) ||| h.2) % 256)) := by
      rw [List.map_cons, List.flatten_cons, List.append_assoc,
        List.getElem?_append_right (Nat.le_add_right _ _), Nat.add_sub_cancel_left]
      simp [encodeAUHeader]
    rw [parseAULoop_succ _ t.length pre.length pau ret _ _ (by omega) hx hy, hsz,
      Nat.mod_eq_of_lt (by omega), hb]
    have hpl : (pre ++ encodeAUHeader h).length = pre.length + 2 := by
      simp [encodeAUHeader]
    obtain ⟨out, ho, hm, hc⟩ := ih (pre ++ encodeAUHeader h) data (pau + h.1)
      (ret ++ [⟨h.1, pau⟩]) (fun x hx => hall x (List.mem_cons_of_mem _ hx))
      (by omega) (by omega)
    rw [hpl] at ho
    refine ⟨⟨h.1, pau⟩ :: out, ?_, by simp [hm], ⟨rfl, hs, hc⟩⟩
    rw [ho]; simp

/-- C7: `parseAU` round trip.  For `1 ≤ K ≤ 4095` AU-headers with sizes below 8192 (and any
3-bit indices), on the payload made of the big-endian 16-bit value `16 * K`, the `K`
two-byte AU-headers and the data bytes, `parseAU` returns exactly `K` descriptors, the
`i`-th with size `s_i`; they are laid out contiguously from offset `2 + 2 * K`.  The data
bytes are arbitrary, in particular `s_1 + ... + s_K` of them. -/
theorem parseAU_roundtrip (hs : List (Nat × Nat)) (data : List UInt8)
    (hK1 : 1 ≤ hs.length) (hK : hs.length ≤ 4095)
    (hall : ∀ h ∈ hs, h.1 < 8192 ∧ h.2 < 8) :
    ∃ aus, parseAU (buildPayload hs data) = some aus ∧ aus.length = hs.length ∧
      aus.map au.size = hs.map Prod.fst ∧ Contiguous (2 + 2 * hs.length) aus := by
  obtain ⟨out, ho, hm, hc⟩ := parseAULoop_encoded hs
    [UInt8.ofNat ((16 * hs.length) / 256), UInt8.ofNat ((16 * hs.length) % 256)] data
    (2 + 2 * hs.length) [] hall (by simp; omega) (by omega)
  have hb0 : (UInt8.ofNat ((16 * hs.length) / 256)).toNat = (16 * hs.length) / 256 := by
    show ((16 * hs.length) / 256) % 256 = _
    omega
  have hb1 : (UInt8.ofNat ((16 * hs.length) % 256)).toNat = (16 * hs.length) % 256 := by
    show ((16 * hs.length) % 256) % 256 = _
    omega
  have hbytes : auHeadersLengthBytes (buildPayload hs data) = 2 * hs.length := by
    unfold auHeadersLengthBytes auHeadersLengthBits buildPayload
    simp only [List.cons_append, List.nil_append, List.getD_cons_zero, List.getD_cons_succ]
    rw [hb0, hb1]
    omega
  have hnb : nbAUHeaders (buildPayload hs data) = hs.length := by
    unfold nbAUHeaders
    rw [hbytes]
    omega
  have hlen : 2 ≤ (buildPayload hs data).length := by
    simp [buildPayload]
  refine ⟨out, ?_, ?_, hm, hc⟩
  · rw [parseAU_eq_loop _ hlen, hnb, hbytes]
    simpa [buildPayload] using ho
  · have := congrArg List.length hm
    simpa using this

/-- C7 at the payload `00 10 00 40` followed by 64 data bytes: the single descriptor
`{size = 8, pos = 4}`. -/
theorem parseAU_roundtrip_witness :
    (1 ≤ [((8 : Nat), (0 : Nat))].length ∧ [((8 : Nat), (0 : Nat))].length ≤ 4095 ∧
      ∀ h ∈ [((8 : Nat), (0 : Nat))], h.1 < 8192 ∧ h.2 < 8) ∧
    buildPayload [(8, 0)] (List.replicate 64 0) =
      [0x00, 0x10, 0x00, 0x40] ++ List.replicate 64 0 ∧
    parseAU ([0x00, 0x10, 0x00, 0x40] ++ List.replicate 64 0) = some [⟨8, 4⟩] ∧
    ∃ aus, parseAU (buildPayload [(8, 0)] (List.replicate 64 0)) = some aus ∧
      aus.length = [((8 : Nat), (0 : Nat))].length ∧
      aus.map au.size = [((8 : Nat), (0 : Nat))].map Prod.fst ∧
      Contiguous (2 + 2 * [((8 : Nat), (0 : Nat))].length) aus :=
  ⟨⟨by decide, by decide, by decide⟩, by decide, by decide,
    parseAU_roundtrip [(8, 0)] (List.replicate 64 0) (by decide) (by decide) (by decide)⟩

/-- C8, as stated, fails: on `00 10 FF F8` (length 4, 16 header bits) the only descriptor
is `{size = 8191, pos = 4}`, which does not lie within the four bytes. -/
theorem parseAU_within_counterexample :
    ¬ (∀ b : List UInt8, 2 ≤ b.length → auHeadersLengthBits b ≤ 8 * (b.length - 2) →
        ∃ aus, parseAU b = some aus ∧
          aus.Pairwise (fun a c => a.pos + a.size ≤ c.pos) ∧
          ∀ a ∈ aus, a.pos + a.size ≤ b.length) := by
  intro h
  obtain ⟨aus, h1, _, h3⟩ := h oversizedAU (by decide) (by decide)
  have h2 : parseAU oversizedAU = some [⟨8191, 4⟩] := by decide
  rw [h2] at h1
  have h1 := Option.some.inj h1
  subst h1
  have := h3 ⟨8191, 4⟩ (List.mem_singleton.mpr rfl)
  revert this
  decide

/-- C8, amended: for every `b` with `len(b) ≥ 2` and
`auHeadersLengthBits ≤ 8 * (len(b) - 2)`, `parseAU` returns descriptors that are pairwise
non-overlapping (`pos_i + size_i ≤ pos_j` for `i < j`), none of which starts before the end
of the AU-header section, and that section lies within `b`.  Where a descriptor ends is not
bounded by `len(b)`. -/
theorem parseAU_nonoverlapping (b : List UInt8) (hlen : 2 ≤ b.length)
    (hbits : auHeadersLengthBits b ≤ 8 * (b.length - 2)) :
    ∃ aus, parseAU b = some aus ∧
      aus.Pairwise (fun a c => a.pos + a.size ≤ c.pos) ∧
      (∀ a ∈ aus, 2 + auHeadersLengthBytes b ≤ a.pos) ∧
      2 + auHeadersLengthBytes b ≤ b.length := by
  obtain ⟨_, _, h3⟩ := auHeadersLength_le b
  have hbytes : 2 + auHeadersLengthBytes b ≤ b.length := by
    unfold auHeadersLengthBytes
    omega
  obtain ⟨aus, ha, _, hc⟩ := parseAU_ok b hlen (by omega)
  obtain ⟨hp1, hp2⟩ := Contiguous.pairwise aus _ hc
  exact ⟨aus, ha, hp2, hp1, hbytes⟩

/-- C8 amended, at the payload `00 10 FF F8`. -/
theorem parseAU_nonoverlapping_witness :
    (2 ≤ oversizedAU.length ∧ auHeadersLengthBits oversizedAU ≤ 8 * (oversizedAU.length - 2)) ∧
    ∃ aus, parseAU oversizedAU = some aus ∧
      aus.Pairwise (fun a c => a.pos + a.size ≤ c.pos) ∧
      (∀ a ∈ aus, 2 + auHeadersLengthBytes oversizedAU ≤ a.pos) ∧
      2 + auHeadersLengthBytes oversizedAU ≤ oversizedAU.length :=
  ⟨⟨by decide, by decide⟩, parseAU_nonoverlapping oversizedAU (by decide) (by decide)⟩

/-- C9, as stated, fails: `parseAU` indexes out of range on the empty slice (at `b[0]`),
on a one-byte slice (at `b[1]`), and on `00 10`, which announces one AU-header and holds
none (at `b[2]`). -/
theorem parseAU_fails_counterexample :
    parseAU [] = none ∧ parseAU [0x00] = none ∧ parseAU [0x00, 0x10] = none := by
  decide

/-- C9, amended: `parseAU` returns a descriptor sequence, without any out-of-range access,
exactly for the slices `b` with `len(b) ≥ 2` in which the announced AU-headers lie within
`b` (`2 + 2 * nbAUHeaders ≤ len(b)`); it then returns `nbAUHeaders` descriptors.  On every
other slice it fails with an index out of range. -/
theorem parseAU_returns_iff (b : List UInt8) :
    ((∃ aus, parseAU b = some aus ∧ aus.length = nbAUHeaders b) ↔
      (2 ≤ b.length ∧ 2 + 2 * nbAUHeaders b ≤ b.length)) ∧
    (parseAU b = none ↔ ¬ (2 ≤ b.length ∧ 2 + 2 * nbAUHeaders b ≤ b.length)) := by
  refine ⟨⟨?_, ?_⟩, ⟨?_, parseAU_none b⟩⟩
  · rintro ⟨aus, h, _⟩
    obtain ⟨h1, h2, _, _⟩ := parseAU_some b aus h
    exact ⟨h1, h2⟩
  · rintro ⟨h1, h2⟩
    obtain ⟨aus, ha, hl, _⟩ := parseAU_ok b h1 h2
    exact ⟨aus, ha, hl⟩
  · intro hn hc
    obtain ⟨aus, ha, _, _⟩ := parseAU_ok b hc.1 hc.2
    rw [hn] at ha
    exact absurd ha (by simp)

/-! ## C18: several access units in one packet -/

/-- For a clock rate from 1000 up to `1000 * 2^32 - 1`, `uint32(clockRate/1000)` is
`clockRate / 1000` and is not 0. -/
theorem clockDiv_eq (u : RTPUnpackerAAC) (h1 : 1000 ≤ u.clockRate)
    (h2 : u.clockRate < 1000 * 2 ^ 32) :
    u.clockDiv = u.clockRate.toNat / 1000 ∧ u.clockDiv ≠ 0 := by
  obtain ⟨cr, hcr⟩ : ∃ cr : Nat, u.clockRate = (cr : Int) :=
    ⟨u.clockRate.toNat, (Int.toNat_of_nonneg (by omega)).symm⟩
  have hc1 : 1000 ≤ cr := by omega
  have hc2 : cr < 1000 * 2 ^ 32 := by omega
  have hd : cr / 1000 < 2 ^ 32 := by omega
  have hd1 : 1 ≤ cr / 1000 := by omega
  unfold RTPUnpackerAAC.clockDiv
  rw [hcr, Int.toNat_ofNat]
  have : Int.tdiv (cr : Int) 1000 = ((cr / 1000 : Nat) : Int) := (Int.ofNat_tdiv cr 1000).symm
  rw [this]
  have h3 : (((cr / 1000 : Nat) : Int) % 2 ^ 32).toNat = cr / 1000 := by
    have : (((cr / 1000 : Nat) : Int) % 2 ^ 32) = ((cr / 1000 : Nat) : Int) := by
      omega
    rw [this, Int.toNat_ofNat]
  rw [h3]
  exact ⟨rfl, by omega⟩

/-- The `uint32` conversion of the timestamp offset of the `i`-th access unit. -/
theorem auOffset_eq (u : RTPUnpackerAAC) (h1 : 1000 ≤ u.clockRate) (i : Nat) :
    ((Int.tdiv ((i : Int) * (1024 * 1000)) u.clockRate) % 2 ^ 32).toNat =
      (i * 1024 * 1000 / u.clockRate.toNat) % 2 ^ 32 := by
  obtain ⟨cr, hcr⟩ : ∃ cr : Nat, u.clockRate = (cr : Int) :=
    ⟨u.clockRate.toNat, (Int.toNat_of_nonneg (by omega)).symm⟩
  rw [hcr, Int.toNat_ofNat]
  have h : (i : Int) * (1024 * 1000) = ((i * 1024 * 1000 : Nat) : Int) := by
    push_cast; ring
  rw [h, ← Int.ofNat_tdiv]
  have h2 : (((i * 1024 * 1000 / cr : Nat) : Int) % 2 ^ 32) =
      (((i * 1024 * 1000 / cr) % 2 ^ 32 : Nat) : Int) := by
    push_cast; rfl
  rw [h2, Int.toNat_ofNat]

/-- A two-index slice within the length of `b` is the plain sub-list. -/
theorem slice_in_range (b : ByteSlice) (lo hi : Nat) (h1 : lo ≤ hi) (h2 : hi ≤ b.len) :
    b.slice lo hi = some ((b.data.drop lo).take (hi - lo)) := by
  unfold ByteSlice.len at h2
  unfold ByteSlice.slice
  rw [if_pos ⟨h1, by omega⟩, List.drop_append_of_le_length (by omega),
    List.take_append_of_le_length (by rw [List.length_drop]; omega)]

/-- Contiguous descriptors end below `pau + 8191 * length`. -/
theorem Contiguous.end_le :
    ∀ (aus : List au) (pau : Nat), Contiguous pau aus →
      ∀ a ∈ aus, a.pos + a.size ≤ pau + 8191 * aus.length := by
  intro aus
  induction aus with
  | nil => intro pau _ a ha; simp at ha
  | cons x rest ih =>
    intro pau h a ha
    obtain ⟨hp, hs, hc⟩ := h
    simp only [List.length_cons]
    rcases List.mem_cons.mp ha with rfl | hm
    · omega
    · have := ih _ hc a hm
      omega

/-- No descriptor returned by `parseAU` ends at or beyond `2^32`. -/
theorem parseAU_end_lt (b : List UInt8) (aus : List au) (h : parseAU b = some aus) :
    ∀ a ∈ aus, a.pos + a.size < 2 ^ 32 := by
  obtain ⟨_, _, hl, hc⟩ := parseAU_some b aus h
  obtain ⟨h1, h2, _⟩ := auHeadersLength_le b
  intro a ha
  have := Contiguous.end_le aus _ hc a ha
  omega

/-- The emission loop over in-range descriptors hands the expected packets to the callback,
in order. -/
theorem emitEach_in_range (u : RTPUnpackerAAC) (p : RTPPacket) (b : ByteSlice)
    (h1 : 1000 ≤ u.clockRate) (h2 : u.clockRate < 1000 * 2 ^ 32) :
    ∀ (aus : List au) (i : Nat),
      (∀ a ∈ aus, a.pos + a.size ≤ b.len ∧ a.pos + a.size < 2 ^ 32) →
      emitEach u p b aus i =
        some ((aus.enumFrom i).map (fun ia => expectedAV u p b ia.1 ia.2)) := by
  obtain ⟨hd, hd0⟩ := clockDiv_eq u h1 h2
  have hc0 : u.clockRate ≠ 0 := by omega
  intro aus
  induction aus with
  | nil => intro i _; rfl
  | cons a rest ih =>
    intro i hin
    obtain ⟨ha1, ha2⟩ := hin a (List.mem_cons_self _ _)
    rw [emitEach, if_neg hd0, if_neg hc0]
    simp only
    rw [Nat.mod_eq_of_lt ha2, slice_in_range b a.pos (a.pos + a.size) (by omega) ha1,
      ih (i + 1) (fun x hx => hin x (List.mem_cons_of_mem _ hx))]
    simp only [List.enumFrom_cons, List.map_cons, Option.some.injEq, List.cons.injEq,
      and_true]
    unfold expectedAV
    rw [auOffset_eq u h1 i, hd, Nat.add_mod_mod, Nat.add_sub_cancel_left]

/-- C18, as stated, fails for the clock rate `1000 * 2^32 >= 1000`: `uint32(clockRate/1000)`
is 0 and the division of the first iteration panics, on the two-AU packet of the claim. -/
theorem TryUnpackOne_multiAU_counterexample :
    1000 ≤ unpackerClockWrap.clockRate ∧
    parseAU ([0x00, 0x20, 0x00, 0x80, 0x00, 0x80] ++ List.replicate 16 0x11 ++
      List.replicate 16 0x22) = some [⟨16, 6⟩, ⟨16, 22⟩] ∧
    unpackerClockWrap.clockDiv = 0 ∧
    TryUnpackOne unpackerClockWrap twoAUs = none := by
  decide

/-- C18, amended by the upper bound `clockRate < 1000 * 2^32` (every clock rate that fits
in 32 bits satisfies it): for a head packet `p` whose payload `b` parses to `K > 1`
descriptors, all in range of `b`, and `1000 ≤ clockRate`, `TryUnpackOne` invokes
`onAVPacket` exactly `K` times in order, the `i`-th (from 0) with payload
`b[aus[i].pos : aus[i].pos + aus[i].size]` and timestamp
`p.timestamp / (clockRate / 1000) + i * 1024 * 1000 / clockRate` modulo `2^32`, detaches
only `p` (`size` decreases by 1) and returns `(true, p.seq)`. -/
theorem TryUnpackOne_multiAU (u : RTPUnpackerAAC) (l : RTPPacketList) (p : RTPPacket)
    (next : List RTPPacket) (b : ByteSlice) (aus : List au)
    (hl : l.packets = p :: next) (hb : p.payload = some b)
    (hau : parseAU b.data = some aus) (hK : 1 < aus.length)
    (hin : ∀ a ∈ aus, a.pos + a.size ≤ b.len)
    (h1 : 1000 ≤ u.clockRate) (h2 : u.clockRate < 1000 * 2 ^ 32) :
    TryUnpackOne u l =
      some ⟨true, p.Header.Seq, ⟨next, l.size - 1⟩,
        aus.enum.map (fun ia => expectedAV u p b ia.1 ia.2)⟩ := by
  have hend := parseAU_end_lt b.data aus hau
  have hemit := emitEach_in_range u p b h1 h2 aus 0
    (fun a ha => ⟨hin a ha, hend a ha⟩)
  match aus, hK with
  | a1 :: a2 :: rest, _ =>
    unfold TryUnpackOne
    rw [hl]
    simp only [hb, hau, hemit, List.enum]

set_option maxRecDepth 100000 in
/-- C18 amended, at the packet `00 20 00 80 00 80` + 16 + 16 bytes with clock rate 48000 and
RTP timestamp 96000: two AV packets with timestamps 2000 and 2021. -/
theorem TryUnpackOne_multiAU_witness :
    (twoAUs.packets = [mkPacket 7 96000 ([0x00, 0x20, 0x00, 0x80, 0x00, 0x80] ++
        List.replicate 16 0x11 ++ List.replicate 16 0x22)] ∧
      (1000 : Int) ≤ unpacker48k.clockRate ∧ unpacker48k.clockRate < 1000 * 2 ^ 32) ∧
    [((0 : Nat), (⟨16, 6⟩ : au)), (1, ⟨16, 22⟩)].map
        (fun ia => expectedAV unpacker48k (mkPacket 7 96000 [])
          ⟨[0x00, 0x20, 0x00, 0x80, 0x00, 0x80] ++ List.replicate 16 0x11 ++
            List.replicate 16 0x22, []⟩ ia.1 ia.2) =
      [⟨1, 2000, List.replicate 16 0x11⟩, ⟨1, 2021, List.replicate 16 0x22⟩] ∧
    TryUnpackOne unpacker48k twoAUs =
      some ⟨true, 7, ⟨[], twoAUs.size - 1⟩,
        [⟨16, 6⟩, ⟨16, 22⟩].enum.map (fun ia => expectedAV unpacker48k
          (mkPacket 7 96000 ([0x00, 0x20, 0x00, 0x80, 0x00, 0x80] ++
            List.replicate 16 0x11 ++ List.replicate 16 0x22))
          ⟨[0x00, 0x20, 0x00, 0x80, 0x00, 0x80] ++ List.replicate 16 0x11 ++
            List.replicate 16 0x22, []⟩ ia.1 ia.2)⟩ :=
  ⟨⟨by decide, by decide, by decide⟩, by decide,
    TryUnpackOne_multiAU unpacker48k twoAUs
      (mkPacket 7 96000 ([0x00, 0x20, 0x00, 0x80, 0x00, 0x80] ++
        List.replicate 16 0x11 ++ List.replicate 16 0x22)) []
      ⟨[0x00, 0x20, 0x00, 0x80, 0x00, 0x80] ++ List.replicate 16 0x11 ++
        List.replicate 16 0x22, []⟩ [⟨16, 6⟩, ⟨16, 22⟩]
      (by decide) (by decide) (by decide) (by decide) (by decide) (by decide) (by decide)⟩

/-! ## C10: the composer invariant -/

/-- A successful read takes exactly the bytes asked for. -/
theorem readAtLeast_length (reader : List UInt8) (n : Nat) (bytes rest : List UInt8)
    (h : readAtLeast reader n = some (bytes, rest)) :
    bytes.length = n ∧ rest.length + n = reader.length := by
  unfold readAtLeast at h
  split at h
  · simp only [Option.some.injEq, Prod.mk.injEq] at h
    obtain ⟨h1, h2⟩ := h
    subst h1 h2
    simp only [List.length_take, List.length_drop]
    omega
  · exact absurd h (by simp)

/-- The basic header takes at least one byte. -/
theorem readBasicHeader_length (reader : List UInt8) (fmt csid : Nat) (rest : List UInt8)
    (h : readBasicHeader reader = some (fmt, csid, rest)) : rest.length < reader.length := by
  unfold readBasicHeader at h
  split at h
  · exact absurd h (by simp)
  · rename_i bs r1 h1
    have := (readAtLeast_length _ _ _ _ h1).2
    simp only at h
    split at h
    · split at h
      · exact absurd h (by simp)
      · rename_i bs2 r2 h2
        have := (readAtLeast_length _ _ _ _ h2).2
        simp only [Option.some.injEq, Prod.mk.injEq] at h
        obtain ⟨_, _, h3⟩ := h
        subst h3
        omega
    · split at h
      · exact absurd h (by simp)
      · rename_i bs2 r2 h2
        have := (readAtLeast_length _ _ _ _ h2).2
        simp only [Option.some.injEq, Prod.mk.injEq] at h
        obtain ⟨_, _, h3⟩ := h
        subst h3
        omega
    · simp only [Option.some.injEq, Prod.mk.injEq] at h
      obtain ⟨_, _, h3⟩ := h
      subst h3
      omega

/-- The message header does not give bytes back. -/
theorem readMessageHeader_length (fmt : Nat) (stream s2 : Stream) (reader rest : List UInt8)
    (h : readMessageHeader fmt stream reader = some (s2, rest)) :
    rest.length ≤ reader.length := by
  unfold readMessageHeader at h
  split at h
  all_goals first
    | (split at h
       · exact absurd h (by simp)
       · rename_i bs r1 h1
         have := (readAtLeast_length _ _ _ _ h1).2
         simp only [Option.some.injEq, Prod.mk.injEq] at h
         obtain ⟨_, h3⟩ := h
         subst h3
         omega)
    | (simp only [Option.some.injEq, Prod.mk.injEq] at h
       obtain ⟨_, h3⟩ := h
       subst h3
       exact le_refl _)

/-- The extended timestamp does not give bytes back. -/
theorem readExtendedTimestamp_length (fmt : Nat) (stream s2 : Stream)
    (reader rest : List UInt8)
    (h : readExtendedTimestamp fmt stream reader = some (s2, rest)) :
    rest.length ≤ reader.length := by
  unfold readExtendedTimestamp at h
  split at h
  · split at h
    · exact absurd h (by simp)
    · rename_i bs r1 h1
      have := (readAtLeast_length _ _ _ _ h1).2
      simp only at h
      split at h <;>
      · simp only [Option.some.injEq, Prod.mk.injEq] at h
        obtain ⟨_, h3⟩ := h
        subst h3
        omega
  · simp only [Option.some.injEq, Prod.mk.injEq] at h
    obtain ⟨_, h3⟩ := h
    subst h3
    exact le_refl _

/-- An iteration that goes on has read at least one byte. -/
theorem chunkStep_next_length (c c2 : Composer) (reader rest : List UInt8)
    (cb : Stream → Bool) (csid : Nat) (d : Option Stream)
    (h : chunkStep c reader cb = .next c2 rest csid d) : rest.length < reader.length := by
  unfold chunkStep at h
  split at h
  · exact absurd h (by simp)
  · rename_i fmt cs r1 h1
    have := readBasicHeader_length _ _ _ _ h1
    simp only at h
    split at h
    · exact absurd h (by simp)
    · rename_i s2 r2 h2
      have := readMessageHeader_length _ _ _ _ _ h2
      split at h
      · exact absurd h (by simp)
      · rename_i s3 r3 h3
        have := readExtendedTimestamp_length _ _ _ _ _ h3
        split at h
        · exact absurd h (by simp)
        · split at h
          · exact absurd h (by simp)
          · rename_i bs r4 h4
            have := (readAtLeast_length _ _ _ _ h4).2
            split at h
            · split at h
              · exact absurd h (by simp)
              · split at h
                · exact absurd h (by simp)
                · simp only [Step.next.injEq] at h
                  obtain ⟨_, hr, _, _⟩ := h
                  subst hr
                  omega
            · split at h
              · exact absurd h (by simp)
              · simp only [Step.next.injEq] at h
                obtain ⟨_, hr, _, _⟩ := h
                subst hr
                omega

/-- An iteration never ends for lack of fuel. -/
theorem chunkStep_exit (c : Composer) (reader : List UInt8) (cb : Stream → Bool)
    (e : Exit) (d : Option Stream) (h : chunkStep c reader cb = .exit e d) :
    e ≠ .outOfFuel := by
  intro he
  subst he
  unfold chunkStep at h
  split at h
  · simp at h
  · simp only at h
    split at h
    · simp at h
    · split at h
      · simp at h
      · split at h
        · simp at h
        · split at h
          · simp at h
          · split at h
            · split at h
              · simp at h
              · split at h <;> simp at h
            · split at h <;> simp at h

/-- With more fuel than bytes left, the loop does not run out of fuel. -/
theorem runLoopFuel_exit (cb : Stream → Bool) :
    ∀ (fuel : Nat) (c : Composer) (reader : List UInt8) (delivered : List Stream),
      reader.length < fuel → (runLoopFuel cb fuel c reader delivered).exit ≠ .outOfFuel := by
  intro fuel
  induction fuel with
  | zero => intro c reader delivered h; omega
  | succ fuel ih =>
    intro c reader delivered h
    rw [runLoopFuel]
    split
    · rename_i e d hs
      exact chunkStep_exit _ _ _ _ _ hs
    · rename_i c2 r2 cs d hs
      have := chunkStep_next_length _ _ _ _ _ _ _ hs
      exact ih _ _ _ (by omega)

/-- The loop `RunLoop` always ends, by an error return or a panic: the fuel of the model is
never used up. -/
theorem RunLoop_exit (c : Composer) (reader : List UInt8) (cb : Stream → Bool) :
    (RunLoop c reader cb).exit ≠ .outOfFuel :=
  runLoopFuel_exit cb _ c reader [] (Nat.lt_succ_self _)

set_option maxRecDepth 100000 in
/-- C10 at its failing inputs, from a new composer (chunk size 128, empty map).
(1) After the first chunk of a 300-byte message on chunk stream 3 the buffer holds 128
bytes; a new `fmt == 0` header announcing 100 bytes makes the loop read 100 more bytes, so
that `msg.len() = 228 > msgLen = 100`: the `panic(0)` is reached.
(2) After two chunks (256 bytes), a new header announcing 200 bytes makes
`neededSize = 200 - 256 < 0`: the slice expression panics.
(3) After the first chunk, a Set-Chunk-Size to 4096 on chunk stream 2 makes the next
`fmt == 3` chunk of stream 3 read `msgLen = 300` bytes instead of the remaining 172:
`msg.len() = 428 > 300`. -/
theorem RunLoop_invariant_broken :
    (∃ c, chunkStep NewComposer restartedMessage cbOk =
        .next c (chunk0 3 100 8 (List.replicate 100 0xBB)) 3 none ∧
      (c.lookup 3).map (fun s => (s.msg.length, s.msgLen)) = some (128, 300) ∧
      chunkStep c (chunk0 3 100 8 (List.replicate 100 0xBB)) cbOk = .exit .panic0 none) ∧
    RunLoop NewComposer restartedMessage cbOk = ⟨.panic0, []⟩ ∧
    RunLoop NewComposer restartedLate cbOk = ⟨.slicePanic, []⟩ ∧
    (RunLoop NewComposer chunkSizeRaised cbOk).exit = .panic0 := by
  refine ⟨⟨(NewComposer.store 3 ⟨⟨0, 8, 0⟩, 0, 300, List.replicate 128 0xAA⟩), ?_, ?_, ?_⟩,
    ?_, ?_, ?_⟩ <;> decide

/-! ## Lemmas on the iterations of `RunLoop` -/

/-- The iteration with a callback that ignores the composer. -/
theorem chunkStep_eq_with (c : Composer) (reader : List UInt8) (cb : Stream → Bool) :
    chunkStep c reader cb = chunkStepWith c reader (fun _ s => cb s) := rfl

/-- An iteration is the headers followed by the payload. -/
theorem chunkStepWith_eq (c : Composer) (reader : List UInt8)
    (cb : Composer → Stream → Bool) :
    chunkStepWith c reader cb =
      match readHeaders c reader with
      | none => .exit .readErr none
      | some (_, csid, stream, reader) => readPayload c csid stream reader cb := by
  unfold chunkStepWith readHeaders
  cases readBasicHeader reader with
  | none => rfl
  | some x =>
    obtain ⟨fmt, csid, r0⟩ := x
    simp only
    cases readMessageHeader fmt (c.getOrCreateStream csid) r0 with
    | none => rfl
    | some y =>
      obtain ⟨s1, r1⟩ := y
      simp only
      cases readExtendedTimestamp fmt s1 r1 with
      | none => rfl
      | some z => rfl

/-- The stream stored for a chunk stream id is the one found for it. -/
theorem lookup_store_self (c : Composer) (k : Nat) (s : Stream) :
    (c.store k s).lookup k = some s := by
  simp [Composer.store, Composer.lookup]

/-- Storing the stream of one chunk stream id leaves the others as they are. -/
theorem lookup_store_other (c : Composer) (k k2 : Nat) (s : Stream) (h : k2 ≠ k) :
    (c.store k s).lookup k2 = c.lookup k2 := by
  have key : ∀ l : List (Nat × Stream),
      (l.filter (fun e => e.1 != k)).find? (fun e => e.1 == k2) =
        l.find? (fun e => e.1 == k2) := by
    intro l
    induction l with
    | nil => rfl
    | cons x rest ih =>
      by_cases hx : x.1 = k
      · have h1 : (x.1 != k) = false := by simp [hx]
        have h2 : (x.1 == k2) = false := by
          simp only [beq_eq_false_iff_ne, ne_eq]
          intro h3; exact h (by rw [← h3, hx])
        rw [List.filter_cons, h1, List.find?_cons, h2]
        simpa using ih
      · have h1 : (x.1 != k) = true := by simp [hx]
        rw [List.filter_cons, h1]
        simp only [if_true, List.find?_cons]
        rw [ih]
  unfold Composer.store Composer.lookup
  simp only [List.find?_cons]
  have hk : (k == k2) = false := by
    simp only [beq_eq_false_iff_ne, ne_eq]
    exact fun h3 => h h3.symm
  rw [hk, key]

/-- Storing a stream does not change the chunk size. -/
theorem peerChunkSize_store (c : Composer) (k : Nat) (s : Stream) :
    (c.store k s).peerChunkSize = c.peerChunkSize := rfl

/-- The stream worked on when one is stored. -/
theorem getOrCreateStream_of_lookup (c : Composer) (k : Nat) (s : Stream)
    (h : c.lookup k = some s) : c.getOrCreateStream k = s := by
  unfold Composer.getOrCreateStream
  rw [h]

/-- The value of a byte made from a number. -/
theorem toNat_ofNat_byte (n : Nat) : (UInt8.ofNat n).toNat = n % 256 := rfl

/-- The two fields of the first byte of a basic header. -/
theorem basicByte_fields (B0 : UInt8) :
    ((B0 >>> 6) &&& 0x03).toNat = B0.toNat / 64 ∧ (B0 &&& 0x3f).toNat = B0.toNat % 64 := by
  have hB := UInt8.toNat_lt B0
  constructor
  · have h1 : ((B0 >>> 6) &&& 0x03).toNat = (B0.toNat >>> 6) &&& 3 := by
      show ((B0.toBitVec >>> ((6 : UInt8).toBitVec.toNat % 8)) &&& (0x03 : UInt8).toBitVec).toNat = _
      rw [BitVec.toNat_and, BitVec.toNat_ushiftRight]
      rfl
    rw [h1, Nat.shiftRight_eq_div_pow]
    have h2 : B0.toNat / 2 ^ 6 < 4 := by omega
    have h3 : ∀ k : Fin 4, k.val &&& 3 = k.val := by decide
    have := h3 ⟨B0.toNat / 2 ^ 6, h2⟩
    simpa using this
  · have h1 : (B0 &&& 0x3f).toNat = B0.toNat &&& 63 := by
      show (B0.toBitVec &&& (0x3f : UInt8).toBitVec).toNat = _
      rw [BitVec.toNat_and]; rfl
    rw [h1]
    exact Nat.and_pow_two_sub_one_eq_mod B0.toNat 6

/-- The basic header read off a reader that starts with the byte `B0`. -/
theorem readBasicHeader_cons (B0 : UInt8) (rest : List UInt8) :
    readBasicHeader (B0 :: rest) =
      if B0.toNat % 64 = 0 then
        match rest with
        | x :: r => some (B0.toNat / 64, 64 + x.toNat, r)
        | [] => none
      else if B0.toNat % 64 = 1 then
        match rest with
        | x :: y :: r => some (B0.toNat / 64, 64 + x.toNat + y.toNat * 256, r)
        | _ => none
      else some (B0.toNat / 64, B0.toNat % 64, rest) := by
  obtain ⟨hf, hc⟩ := basicByte_fields B0
  unfold readBasicHeader
  simp only [readAtLeast, List.length_cons, Nat.le_add_left, if_true, List.take_succ_cons,
    List.take_zero, List.drop_succ_cons, List.drop_zero, List.getD_cons_zero, hf, hc]
  by_cases h0 : B0.toNat % 64 = 0
  · rw [h0]
    simp only [if_true]
    cases rest with
    | nil => rfl
    | cons x r => simp
  · by_cases h1 : B0.toNat % 64 = 1
    · rw [h1]
      simp only [if_false, if_true, Nat.one_ne_zero]
      cases rest with
      | nil => rfl
      | cons x r =>
        cases r with
        | nil => rfl
        | cons y r2 => simp
    · rw [if_neg h0, if_neg h1]
      obtain ⟨k, hk⟩ : ∃ k, B0.toNat % 64 = k + 2 := ⟨B0.toNat % 64 - 2, by omega⟩
      rw [hk]
      rfl

/-- Reading exactly the first part of a reader. -/
theorem readAtLeast_append (a b : List UInt8) (n : Nat) (h : a.length = n) :
    readAtLeast (a ++ b) n = some (a, b) := by
  subst h
  unfold readAtLeast
  simp

/-- Reading a prefix of the reader. -/
theorem readAtLeast_le (reader : List UInt8) (n : Nat) (h : n ≤ reader.length) :
    readAtLeast reader n = some (reader.take n, reader.drop n) := by
  unfold readAtLeast
  rw [if_pos h]

/-- The basic header written by `basicHeader` is read back. -/
theorem readBasicHeader_basicHeader (fmt csid : Nat) (rest : List UInt8) (hf : fmt < 4)
    (h2 : 2 ≤ csid) (h3 : csid ≤ 65599) :
    readBasicHeader (basicHeader fmt csid ++ rest) = some (fmt, csid, rest) := by
  unfold basicHeader
  by_cases hc1 : csid < 64
  · rw [if_pos hc1, List.singleton_append, readBasicHeader_cons, toNat_ofNat_byte]
    have e1 : (fmt * 64 + csid) % 256 % 64 = csid := by omega
    have e2 : (fmt * 64 + csid) % 256 / 64 = fmt := by omega
    rw [e1, e2, if_neg (by omega), if_neg (by omega)]
  · by_cases hc2 : csid < 320
    · rw [if_neg hc1, if_pos hc2]
      simp only [List.cons_append, List.nil_append]
      rw [readBasicHeader_cons, toNat_ofNat_byte]
      have e1 : (fmt * 64) % 256 % 64 = 0 := by omega
      have e2 : (fmt * 64) % 256 / 64 = fmt := by omega
      rw [e1, e2, if_pos rfl]
      simp only [toNat_ofNat_byte]
      have e3 : 64 + (csid - 64) % 256 = csid := by omega
      rw [e3]
    · rw [if_neg hc1, if_neg hc2]
      simp only [List.cons_append, List.nil_append]
      rw [readBasicHeader_cons, toNat_ofNat_byte]
      have e1 : (fmt * 64 + 1) % 256 % 64 = 1 := by omega
      have e2 : (fmt * 64 + 1) % 256 / 64 = fmt := by omega
      rw [e1, e2, if_neg (by omega), if_pos rfl]
      simp only [toNat_ofNat_byte]
      have e3 : 64 + (csid - 64) % 256 % 256 + (csid - 64) / 256 % 256 * 256 = csid := by
        omega
      rw [e3]

/-- The `fmt == 0` message header written by `messageHeader0` is read back. -/
theorem readMessageHeader_messageHeader0 (stream : Stream) (rest : List UInt8)
    (timestamp msgLen msgTypeID msgStreamID : Nat) (h1 : timestamp < 2 ^ 24)
    (h2 : msgLen < 2 ^ 24) (h3 : msgTypeID < 256) (h4 : msgStreamID < 2 ^ 32) :
    readMessageHeader 0 stream
        (messageHeader0 timestamp msgLen msgTypeID msgStreamID ++ rest) =
      some (⟨⟨timestamp, msgTypeID, msgStreamID⟩, timestamp, msgLen, stream.msg⟩, rest) := by
  have e1 : BEUint24 (messageHeader0 timestamp msgLen msgTypeID msgStreamID) = timestamp := by
    simp only [BEUint24, messageHeader0, List.getD_cons_zero, List.getD_cons_succ,
      toNat_ofNat_byte]
    omega
  have e2 : BEUint24 ((messageHeader0 timestamp msgLen msgTypeID msgStreamID).drop 3) =
      msgLen := by
    simp only [BEUint24, messageHeader0, List.drop_succ_cons, List.drop_zero,
      List.getD_cons_zero, List.getD_cons_succ, toNat_ofNat_byte]
    omega
  have e3 : ((messageHeader0 timestamp msgLen msgTypeID msgStreamID).getD 6 0).toNat =
      msgTypeID := by
    simp only [messageHeader0, List.getD_cons_zero, List.getD_cons_succ, toNat_ofNat_byte]
    omega
  have e4 : LEUint32 ((messageHeader0 timestamp msgLen msgTypeID msgStreamID).drop 7) =
      msgStreamID := by
    simp only [LEUint32, messageHeader0, List.drop_succ_cons, List.drop_zero,
      List.getD_cons_zero, List.getD_cons_succ, toNat_ofNat_byte]
    omega
  unfold readMessageHeader
  simp only
  rw [readAtLeast_append (messageHeader0 timestamp msgLen msgTypeID msgStreamID) rest 11 rfl]
  simp only [e1, e2, e3, e4]

/-- No extended timestamp is read when the stored timestamp is not the sentinel. -/
theorem readExtendedTimestamp_none (fmt : Nat) (stream : Stream) (reader : List UInt8)
    (h : stream.header.timestamp ≠ maxTimestampInMessageHeader) :
    readExtendedTimestamp fmt stream reader = some (stream, reader) := by
  unfold readExtendedTimestamp
  rw [if_neg h]

/-- A message header of `fmt == 3` is empty. -/
theorem readMessageHeader_three (stream : Stream) (reader : List UInt8) :
    readMessageHeader 3 stream reader = some (stream, reader) := rfl

/-- The iterations of `runSteps` each take at least one byte. -/
theorem runSteps_length (cb : Stream → Bool) :
    ∀ (n : Nat) (c c2 : Composer) (reader r2 : List UInt8) (d d2 : List Stream),
      runSteps cb n c reader d = some (c2, r2, d2) → r2.length + n ≤ reader.length := by
  intro n
  induction n with
  | zero =>
    intro c c2 reader r2 d d2 h
    simp only [runSteps, Option.some.injEq, Prod.mk.injEq] at h
    rw [h.2.1]
    omega
  | succ n ih =>
    intro c c2 reader r2 d d2 h
    rw [runSteps] at h
    split at h
    · exact absurd h (by simp)
    · rename_i c1 r1 cs dl hs
      have h1 := chunkStep_next_length _ _ _ _ _ _ _ hs
      have h2 := ih _ _ _ _ _ _ h
      omega

/-- The loop of `RunLoop` after `n` iterations that go on. -/
theorem runLoopFuel_of_runSteps (cb : Stream → Bool) :
    ∀ (n : Nat) (c c2 : Composer) (reader r2 : List UInt8) (d d2 : List Stream) (f : Nat),
      runSteps cb n c reader d = some (c2, r2, d2) →
      runLoopFuel cb (n + f) c reader d = runLoopFuel cb f c2 r2 d2 := by
  intro n
  induction n with
  | zero =>
    intro c c2 reader r2 d d2 f h
    simp only [runSteps, Option.some.injEq, Prod.mk.injEq] at h
    obtain ⟨h1, h2, h3⟩ := h
    subst h1 h2 h3
    rw [Nat.zero_add]
  | succ n ih =>
    intro c c2 reader r2 d d2 f h
    rw [runSteps] at h
    have e : n + 1 + f = (n + f) + 1 := by omega
    rw [e, runLoopFuel]
    split at h
    · exact absurd h (by simp)
    · rename_i c1 r1 cs dl hs
      exact ih _ _ _ _ _ _ f h

/-- Iterations run one after the other. -/
theorem runSteps_add (cb : Stream → Bool) :
    ∀ (n k : Nat) (c c2 : Composer) (reader r2 : List UInt8) (d d2 : List Stream),
      runSteps cb n c reader d = some (c2, r2, d2) →
      runSteps cb (n + k) c reader d = runSteps cb k c2 r2 d2 := by
  intro n
  induction n with
  | zero =>
    intro k c c2 reader r2 d d2 h
    simp only [runSteps, Option.some.injEq, Prod.mk.injEq] at h
    obtain ⟨h1, h2, h3⟩ := h
    subst h1 h2 h3
    rw [Nat.zero_add]
  | succ n ih =>
    intro k c c2 reader r2 d d2 h
    rw [runSteps] at h
    have e : n + 1 + k = (n + k) + 1 := by omega
    rw [e, runSteps]
    split at h
    · exact absurd h (by simp)
    · rename_i c1 r1 cs dl hs
      exact ih _ _ _ _ _ _ _ h

/-! ## C11: chunked round trip -/

/-- The headers of a `fmt == 3` chunk on a chunk stream whose stored timestamp is not the
sentinel: nothing but the basic header is read. -/
theorem readHeaders_chunk3 (c : Composer) (csid : Nat) (s : Stream) (x : List UInt8)
    (h2 : 2 ≤ csid) (h3 : csid ≤ 65599) (hl : c.lookup csid = some s)
    (hts : s.header.timestamp ≠ maxTimestampInMessageHeader) :
    readHeaders c (basicHeader 3 csid ++ x) = some (3, csid, s, x) := by
  unfold readHeaders
  rw [readBasicHeader_basicHeader 3 csid x (by omega) h2 h3]
  simp only [getOrCreateStream_of_lookup c csid s hl, readMessageHeader_three,
    readExtendedTimestamp_none 3 s x hts]

/-- The headers of a `fmt == 0` chunk with a timestamp below the sentinel. -/
theorem readHeaders_chunk0 (c : Composer) (csid timestamp msgLen msgTypeID msgStreamID : Nat)
    (x : List UInt8) (h2 : 2 ≤ csid) (h3 : csid ≤ 65599) (hts : timestamp < 0xFFFFFF)
    (hlen : msgLen < 2 ^ 24) (hty : msgTypeID < 256) (hsid : msgStreamID < 2 ^ 32) :
    readHeaders c
        (basicHeader 0 csid ++ messageHeader0 timestamp msgLen msgTypeID msgStreamID ++ x) =
      some (0, csid, ⟨⟨timestamp, msgTypeID, msgStreamID⟩, timestamp, msgLen,
        (c.getOrCreateStream csid).msg⟩, x) := by
  unfold readHeaders
  rw [List.append_assoc, readBasicHeader_basicHeader 0 csid _ (by omega) h2 h3]
  simp only
  rw [readMessageHeader_messageHeader0 _ x timestamp msgLen msgTypeID msgStreamID
    (by omega) hlen hty hsid]
  simp only
  rw [readExtendedTimestamp_none]
  simp only [maxTimestampInMessageHeader, ne_eq]
  omega

/-- The payload of a chunk that does not complete the message. -/
theorem readPayload_pending (c : Composer) (csid : Nat) (s : Stream) (x : List UInt8)
    (cb : Composer → Stream → Bool) (k : Nat) (hk : neededSize c s = (k : Int))
    (hx : k ≤ x.length) (hlt : ((s.msg.length + k : Nat) : Int) < s.msgLen) :
    readPayload c csid s x cb =
      .next (c.store csid { s with msg := s.msg ++ x.take k }) (x.drop k) csid none := by
  unfold readPayload
  simp only [hk, Int.toNat_ofNat, readAtLeast_le x k hx, List.length_append,
    List.length_take, Nat.min_eq_left hx]
  rw [if_neg (by omega), if_neg (by omega), if_neg (by omega)]

/-- The payload of a chunk that completes the message. -/
theorem readPayload_complete (c : Composer) (csid : Nat) (s : Stream) (x : List UInt8)
    (cb : Composer → Stream → Bool) (k : Nat) (hk : neededSize c s = (k : Int))
    (hx : k ≤ x.length) (heq : ((s.msg.length + k : Nat) : Int) = s.msgLen) :
    readPayload c csid s x cb =
      if cb (if s.header.msgTypeID = typeidSetChunkSize
          then { c with peerChunkSize := BEUint32 (s.msg ++ x.take k) } else c)
          { s with msg := s.msg ++ x.take k }
      then .exit .cbErr (some { s with msg := s.msg ++ x.take k })
      else .next ((if s.header.msgTypeID = typeidSetChunkSize
          then { c with peerChunkSize := BEUint32 (s.msg ++ x.take k) } else c).store csid
          { s with msg := [] }) (x.drop k) csid (some { s with msg := s.msg ++ x.take k }) := by
  have hL : (0 : Int) ≤ s.msgLen := by omega
  unfold readPayload
  simp only [hk, Int.toNat_ofNat, readAtLeast_le x k hx, List.length_append,
    List.length_take, Nat.min_eq_left hx, List.length_nil]
  rw [if_neg (by omega), if_pos (by omega)]
  simp only [Nat.cast_zero, gt_iff_lt, if_neg (not_lt.mpr hL)]

/-- The payload length asked for while a message longer than the chunk size is being
assembled: the chunk size, or what is left of the message when that is less. -/
theorem neededSize_long (c : Composer) (s : Stream) (n L : Nat)
    (hn : c.peerChunkSize = (n : Int)) (hL : s.msgLen = (L : Int)) (hlt : n < L)
    (ha : s.msg.length ≤ L) :
    neededSize c s = ((min n (L - s.msg.length) : Nat) : Int) := by
  unfold neededSize
  rw [hn, hL, if_neg (by omega)]
  simp only
  by_cases h : (L : Int) - (s.msg.length : Int) > (n : Int)
  · rw [if_pos h]
    have : min n (L - s.msg.length) = n := by omega
    rw [this]
  · rw [if_neg h]
    have : min n (L - s.msg.length) = L - s.msg.length := by omega
    rw [this]
    omega

/-- A list cut into pieces has no piece when it is empty. -/
theorem chunksAux_nil (n fuel : Nat) : chunksAux n fuel [] = [] := by
  cases fuel <;> simp [chunksAux]

/-- A non-empty list cut into pieces has a first piece. -/
theorem chunksAux_cons (n fuel : Nat) (l : List UInt8) (hl : l ≠ []) :
    chunksAux n (fuel + 1) l = l.take n :: chunksAux n fuel (l.drop n) := by
  rw [chunksAux, if_neg hl]

/-- The continuation chunks of the bytes `r` that complete a message of which `acc` is
assembled: all the chunks but the last go on without a call of the callback, and the last
one hands the complete message to the callback. -/
theorem continuation_steps (cb : Stream → Bool) (csid n : Nat) (hdr : Header)
    (tsAbs : Int) (L : Nat) (rest : List UInt8) (h2 : 2 ≤ csid) (h3 : csid ≤ 65599)
    (hn1 : 1 ≤ n) (hnL : n < L) (hts : hdr.timestamp ≠ maxTimestampInMessageHeader)
    (hty : hdr.msgTypeID ≠ typeidSetChunkSize) :
    ∀ (fuel : Nat) (c : Composer) (acc r : List UInt8) (d : List Stream),
      r ≠ [] → r.length ≤ fuel → acc.length + r.length = L →
      c.lookup csid = some ⟨hdr, tsAbs, L, acc⟩ → c.peerChunkSize = (n : Int) →
      ∃ c1 r1, runSteps cb ((chunksAux n fuel r).length - 1) c
          (((chunksAux n fuel r).map (fun piece => basicHeader 3 csid ++ piece)).flatten ++
            rest) d = some (c1, r1, d) ∧
        c1.peerChunkSize = (n : Int) ∧
        1 ≤ (chunksAux n fuel r).length ∧
        chunkStep c1 r1 cb =
          if cb ⟨hdr, tsAbs, L, acc ++ r⟩ then .exit .cbErr (some ⟨hdr, tsAbs, L, acc ++ r⟩)
          else .next (c1.store csid ⟨hdr, tsAbs, L, []⟩) rest csid
            (some ⟨hdr, tsAbs, L, acc ++ r⟩) := by
  intro fuel
  induction fuel with
  | zero =>
    intro c acc r d hr hlen _ _ _
    have : r.length = 0 := by omega
    exact absurd (List.length_eq_zero.mp this) hr
  | succ fuel ih =>
    intro c acc r d hr hlen hsum hl hn
    rw [chunksAux_cons n fuel r hr]
    simp only [List.map_cons, List.flatten_cons, List.length_cons, Nat.add_sub_cancel,
      List.append_assoc]
    have hneed := neededSize_long c ⟨hdr, tsAbs, L, acc⟩ n L hn rfl hnL (by simp; omega)
    simp only at hneed
    by_cases hlast : r.length ≤ n
    · -- the last chunk
      have htake : r.take n = r := List.take_of_length_le hlast
      have hdrop : r.drop n = [] := List.drop_of_length_le hlast
      rw [htake, hdrop, chunksAux_nil]
      simp only [List.map_nil, List.flatten_nil, List.nil_append, List.length_nil]
      refine ⟨c, basicHeader 3 csid ++ (r ++ rest), rfl, hn, by omega, ?_⟩
      have hk : neededSize c ⟨hdr, tsAbs, L, acc⟩ = (r.length : Int) := by
        rw [hneed]
        have : min n (L - acc.length) = r.length := by omega
        rw [this]
      rw [chunkStep_eq_with, chunkStepWith_eq,
        readHeaders_chunk3 c csid ⟨hdr, tsAbs, L, acc⟩ _ h2 h3 hl hts]
      simp only
      rw [readPayload_complete c csid ⟨hdr, tsAbs, L, acc⟩ (r ++ rest) _ r.length hk
        (by simp) (by simp only []; omega)]
      simp only [List.take_left', List.drop_left', if_neg hty]
    · -- a chunk of `n` bytes that does not complete the message
      have hk : neededSize c ⟨hdr, tsAbs, L, acc⟩ = (n : Int) := by
        rw [hneed]
        have : min n (L - acc.length) = n := by omega
        rw [this]
      have hrl : (r.drop n).length = r.length - n := List.length_drop n r
      have hr2 : r.drop n ≠ [] := by
        intro h0
        rw [h0, List.length_nil] at hrl
        omega
      have htl : (r.take n).length = n := by
        rw [List.length_take]; omega
      obtain ⟨c1, r1, hrun, hp, hlen1, hfin⟩ := ih
        (c.store csid ⟨hdr, tsAbs, L, acc ++ r.take n⟩) (acc ++ r.take n) (r.drop n) d hr2
        (by omega) (by rw [List.length_append, htl, hrl]; omega)
        (lookup_store_self _ _ _) (by rw [peerChunkSize_store]; exact hn)
      have hstep : chunkStep c (basicHeader 3 csid ++ (r.take n ++
          (((chunksAux n fuel (r.drop n)).map
            (fun piece => basicHeader 3 csid ++ piece)).flatten ++ rest))) cb =
          .next (c.store csid ⟨hdr, tsAbs, L, acc ++ r.take n⟩)
            (((chunksAux n fuel (r.drop n)).map
              (fun piece => basicHeader 3 csid ++ piece)).flatten ++ rest) csid none := by
        rw [chunkStep_eq_with, chunkStepWith_eq,
          readHeaders_chunk3 c csid ⟨hdr, tsAbs, L, acc⟩ _ h2 h3 hl hts]
        simp only
        rw [readPayload_pending c csid ⟨hdr, tsAbs, L, acc⟩ _ _ n hk
          (by rw [List.length_append, htl]; omega) (by simp only []; omega)]
        rw [List.take_left' htl, List.drop_left' htl]
      refine ⟨c1, r1, ?_, hp, by omega, ?_⟩
      · obtain ⟨j, hj⟩ : ∃ j, (chunksAux n fuel (r.drop n)).length = j + 1 :=
          ⟨(chunksAux n fuel (r.drop n)).length - 1, by omega⟩
        rw [hj] at hrun
        simp only [Nat.add_sub_cancel] at hrun
        rw [hj, runSteps, hstep]
        simpa using hrun
      · rw [hfin]
        simp only [List.append_assoc, List.take_append_drop]

/-- On an empty reader an iteration returns the error of the reader. -/
theorem chunkStep_nil (c : Composer) (cb : Stream → Bool) :
    chunkStep c [] cb = .exit .readErr none := rfl

/-- The first chunk of an encoded message longer than the chunk size stores its first
`n` bytes without a call of the callback. -/
theorem first_chunk_step (c : Composer) (cb : Stream → Bool)
    (csid n timestamp msgTypeID msgStreamID : Nat) (m tail : List UInt8)
    (h2 : 2 ≤ csid) (h3 : csid ≤ 65599) (hn : c.peerChunkSize = (n : Int))
    (hlen : n < m.length) (hlen24 : m.length < 2 ^ 24) (hts : timestamp < 0xFFFFFF)
    (hty : msgTypeID < 256) (hsid : msgStreamID < 2 ^ 32)
    (hfresh : (c.getOrCreateStream csid).msg = []) :
    chunkStep c (basicHeader 0 csid ++
        messageHeader0 timestamp m.length msgTypeID msgStreamID ++ (m.take n ++ tail)) cb =
      .next (c.store csid ⟨⟨timestamp, msgTypeID, msgStreamID⟩, timestamp, m.length,
        m.take n⟩) tail csid none := by
  have htl : (m.take n).length = n := by rw [List.length_take]; omega
  rw [chunkStep_eq_with, chunkStepWith_eq,
    readHeaders_chunk0 c csid timestamp m.length msgTypeID msgStreamID _ h2 h3 hts hlen24
      hty hsid, hfresh]
  simp only
  have hneed := neededSize_long c
    ⟨⟨timestamp, msgTypeID, msgStreamID⟩, timestamp, m.length, []⟩ n m.length hn rfl hlen
    (by simp)
  simp only [List.length_nil, Nat.sub_zero] at hneed
  rw [Nat.min_eq_left (by omega)] at hneed
  rw [readPayload_pending c csid _ _ _ n hneed (by rw [List.length_append, htl]; omega)
    (by simp only [List.length_nil]; omega)]
  rw [List.take_left' htl, List.drop_left' htl, List.nil_append]

/-- C11: chunked round trip.  For a chunk stream id from 2 to 65599, a chunk size
`n ≥ 1` (the current `peerChunkSize`), a message `m` of fewer than `2^24` bytes with
`len(m) > n`, a message type other than Set-Chunk-Size, a header timestamp below
`0xFFFFFF`, and a chunk stream whose message buffer is empty (as for a fresh one): on the
encoding of `m` as one `fmt == 0` chunk followed by `fmt == 3` chunks of `n` bytes (the last
one possibly shorter), the first `K - 1` iterations of `RunLoop` go on without a call of
the callback, and the `K`-th one calls it with the stream holding `msgLen = len(m)` and the
message `m`; when the callback returns nil the buffer of the chunk stream is empty
afterwards and the loop goes on behind the encoding.  On the encoding alone `RunLoop`
calls the callback exactly once, with that stream. -/
theorem RunLoop_roundtrip (c : Composer) (cb : Stream → Bool)
    (csid n timestamp msgTypeID msgStreamID : Nat) (m rest : List UInt8)
    (h2 : 2 ≤ csid) (h3 : csid ≤ 65599) (hn : c.peerChunkSize = (n : Int)) (hn1 : 1 ≤ n)
    (hlen : n < m.length) (hlen24 : m.length < 2 ^ 24) (hts : timestamp < 0xFFFFFF)
    (hty : msgTypeID < 256) (hty1 : msgTypeID ≠ 1) (hsid : msgStreamID < 2 ^ 32)
    (hfresh : (c.getOrCreateStream csid).msg = []) :
    (∃ c1 r1, runSteps cb (chunkCount n m - 1) c
        (encodeMessage csid n timestamp msgTypeID msgStreamID m ++ rest) [] =
          some (c1, r1, []) ∧
      chunkStep c1 r1 cb =
        if cb (completedStream timestamp msgTypeID msgStreamID m)
        then .exit .cbErr (some (completedStream timestamp msgTypeID msgStreamID m))
        else .next (c1.store csid
            { completedStream timestamp msgTypeID msgStreamID m with msg := [] })
          rest csid (some (completedStream timestamp msgTypeID msgStreamID m))) ∧
    RunLoop c (encodeMessage csid n timestamp msgTypeID msgStreamID m) cb =
      ⟨if cb (completedStream timestamp msgTypeID msgStreamID m) then .cbErr else .readErr,
        [completedStream timestamp msgTypeID msgStreamID m]⟩ := by
  have htl : (m.take n).length = n := by rw [List.length_take]; omega
  have hdl : (m.drop n).length = m.length - n := List.length_drop n m
  have hdne : m.drop n ≠ [] := by
    intro h0
    rw [h0, List.length_nil] at hdl
    omega
  -- the iterations, for an arbitrary continuation of the reader
  have main : ∀ tail : List UInt8,
      ∃ c1 r1, runSteps cb (chunkCount n m - 1) c
          (encodeMessage csid n timestamp msgTypeID msgStreamID m ++ tail) [] =
            some (c1, r1, []) ∧
        chunkStep c1 r1 cb =
          if cb (completedStream timestamp msgTypeID msgStreamID m)
          then .exit .cbErr (some (completedStream timestamp msgTypeID msgStreamID m))
          else .next (c1.store csid
              { completedStream timestamp msgTypeID msgStreamID m with msg := [] })
            tail csid (some (completedStream timestamp msgTypeID msgStreamID m)) := by
    intro tail
    obtain ⟨c1, r1, hrun, _, hcnt, hfin⟩ := continuation_steps cb csid n
      ⟨timestamp, msgTypeID, msgStreamID⟩ timestamp m.length tail h2 h3 hn1 hlen
      (by simp only [maxTimestampInMessageHeader, ne_eq]; omega)
      (by simp only [typeidSetChunkSize, ne_eq]; omega)
      (m.drop n).length
      (c.store csid ⟨⟨timestamp, msgTypeID, msgStreamID⟩, timestamp, m.length, m.take n⟩)
      (m.take n) (m.drop n) [] hdne (le_refl _) (by rw [htl, hdl]; omega)
      (lookup_store_self _ _ _) (by rw [peerChunkSize_store]; exact hn)
    refine ⟨c1, r1, ?_, ?_⟩
    · have hK : chunkCount n m - 1 =
          ((chunksAux n (m.drop n).length (m.drop n)).length - 1) + 1 := by
        unfold chunkCount; omega
      have henc : encodeMessage csid n timestamp msgTypeID msgStreamID m ++ tail =
          basicHeader 0 csid ++ messageHeader0 timestamp m.length msgTypeID msgStreamID ++
            (m.take n ++ (((chunksAux n (m.drop n).length (m.drop n)).map
              (fun piece => basicHeader 3 csid ++ piece)).flatten ++ tail)) := by
        unfold encodeMessage continuationChunks
        simp only [List.append_assoc]
      rw [hK, henc, Nat.add_comm, runSteps_add cb 1 _ c _ _ _ [] []]
      · exact hrun
      · rw [runSteps, first_chunk_step c cb csid n timestamp msgTypeID msgStreamID m _ h2 h3
          hn hlen hlen24 hts hty hsid hfresh]
        rfl
    · rw [hfin, List.take_append_drop]
      rfl
  refine ⟨main rest, ?_⟩
  obtain ⟨c1, r1, hrun, hfin⟩ := main []
  rw [List.append_nil] at hrun
  have hlenr := runSteps_length cb _ _ _ _ _ _ _ hrun
  unfold RunLoop
  by_cases hcb : cb (completedStream timestamp msgTypeID msgStreamID m) = true
  · rw [if_pos hcb] at hfin
    obtain ⟨f, hf⟩ : ∃ f, (encodeMessage csid n timestamp msgTypeID msgStreamID m).length + 1 =
        (chunkCount n m - 1) + (f + 1) :=
      ⟨(encodeMessage csid n timestamp msgTypeID msgStreamID m).length -
        (chunkCount n m - 1), by omega⟩
    rw [hf, runLoopFuel_of_runSteps cb _ _ _ _ _ _ _ (f + 1) hrun, runLoopFuel, hfin,
      if_pos hcb]
    rfl
  · rw [if_neg hcb] at hfin
    have hr1 := chunkStep_next_length _ _ _ _ _ _ _ hfin
    obtain ⟨f, hf⟩ : ∃ f, (encodeMessage csid n timestamp msgTypeID msgStreamID m).length + 1 =
        (chunkCount n m - 1) + (f + 2) :=
      ⟨(encodeMessage csid n timestamp msgTypeID msgStreamID m).length -
        (chunkCount n m - 1) - 1, by omega⟩
    rw [hf, runLoopFuel_of_runSteps cb _ _ _ _ _ _ _ (f + 2) hrun, runLoopFuel, hfin,
      if_neg hcb]
    simp only
    rw [runLoopFuel, chunkStep_nil]
    rfl

set_option maxRecDepth 100000 in
/-- C11 at a message of 300 bytes on chunk stream 3 of a new composer (chunk size 128): the
chunks carry 128, 128 and 44 bytes. -/
theorem RunLoop_roundtrip_witness :
    (chunkCount 128 message300 = 3 ∧
      chunksAux 128 172 (message300.drop 128) =
        [List.replicate 128 0xA2, List.replicate 44 0xA3] ∧
      (NewComposer.getOrCreateStream 3).msg = []) ∧
    ((∃ c1 r1, runSteps cbOk (chunkCount 128 message300 - 1) NewComposer
        (encodeMessage 3 128 5 8 1 message300 ++ []) [] = some (c1, r1, []) ∧
      chunkStep c1 r1 cbOk =
        if cbOk (completedStream 5 8 1 message300)
        then .exit .cbErr (some (completedStream 5 8 1 message300))
        else .next (c1.store 3 { completedStream 5 8 1 message300 with msg := [] })
          [] 3 (some (completedStream 5 8 1 message300))) ∧
    RunLoop NewComposer (encodeMessage 3 128 5 8 1 message300) cbOk =
      ⟨if cbOk (completedStream 5 8 1 message300) then .cbErr else .readErr,
        [completedStream 5 8 1 message300]⟩) :=
  ⟨⟨by decide, by decide, by decide⟩,
    RunLoop_roundtrip NewComposer cbOk 3 128 5 8 1 message300 [] (by decide) (by decide)
      (by decide) (by decide) (by decide) (by decide) (by decide) (by decide) (by decide)
      (by decide) (by decide)⟩

/-! ## C12, C13, C19, C20: chunk size, timestamps, chunk stream ids -/

/-- What the payload part of an iteration does, by its result. -/
theorem readPayload_spec (c : Composer) (csid : Nat) (s : Stream) (r : List UInt8)
    (cb : Composer → Stream → Bool) :
    match readPayload c csid s r cb with
    | .next c2 _ k (some S) =>
      k = csid ∧ (S.msg.length : Int) = S.msgLen ∧ S.header = s.header ∧
        S.timestampAbs = s.timestampAbs ∧ S.msgLen = s.msgLen ∧
        cb (c.atCallback S) S = false ∧ c2 = (c.atCallback S).store csid { S with msg := [] }
    | .next c2 _ k none =>
      k = csid ∧ ∃ bytes, c2 = c.store csid { s with msg := s.msg ++ bytes }
    | .exit .cbErr (some S) =>
      (S.msg.length : Int) = S.msgLen ∧ S.header = s.header ∧ cb (c.atCallback S) S = true
    | _ => True := by
  unfold readPayload
  simp only
  by_cases h1 : neededSize c s < 0
  · rw [if_pos h1]
    trivial
  · rw [if_neg h1]
    cases hr : readAtLeast r (neededSize c s).toNat with
    | none => trivial
    | some x =>
      obtain ⟨bytes, r2⟩ := x
      simp only
      by_cases h2 : ((s.msg ++ bytes).length : Int) = s.msgLen
      · rw [if_pos h2]
        by_cases h3 : cb (if s.header.msgTypeID = typeidSetChunkSize
            then { c with peerChunkSize := BEUint32 (s.msg ++ bytes) } else c)
            { s with msg := s.msg ++ bytes } = true
        · rw [if_pos h3]
          exact ⟨h2, rfl, h3⟩
        · rw [if_neg h3]
          by_cases h4 : (([] : List UInt8).length : Int) > s.msgLen
          · rw [if_pos h4]
            trivial
          · rw [if_neg h4]
            exact ⟨rfl, h2, rfl, rfl, rfl, by simpa using h3, rfl⟩
      · rw [if_neg h2]
        by_cases h5 : ((s.msg ++ bytes).length : Int) > s.msgLen
        · rw [if_pos h5]
          trivial
        · rw [if_neg h5]
          exact ⟨rfl, bytes, rfl⟩

/-- An iteration that goes on: the headers it read and the composer it leaves. -/
theorem chunkStepWith_next (c c2 : Composer) (reader rest : List UInt8)
    (cb : Composer → Stream → Bool) (csid : Nat) (d : Option Stream)
    (h : chunkStepWith c reader cb = .next c2 rest csid d) :
    ∃ fmt s r, readHeaders c reader = some (fmt, csid, s, r) ∧
      ∃ s2, c2.lookup csid = some s2 ∧ s2.header = s.header ∧
        s2.timestampAbs = s.timestampAbs ∧ s2.msgLen = s.msgLen ∧
        (∀ k, k ≠ csid → c2.lookup k = c.lookup k) := by
  rw [chunkStepWith_eq] at h
  cases hh : readHeaders c reader with
  | none => rw [hh] at h; exact absurd h (by simp)
  | some x =>
    obtain ⟨fmt, k, s, r⟩ := x
    rw [hh] at h
    simp only at h
    have hspec := readPayload_spec c k s r cb
    rw [h] at hspec
    cases d with
    | none =>
      obtain ⟨hk, bytes, hc2⟩ := hspec
      subst hk hc2
      exact ⟨fmt, s, r, rfl, _, lookup_store_self _ _ _, rfl, rfl, rfl,
        fun k2 hk2 => lookup_store_other _ _ _ _ hk2⟩
    | some S =>
      obtain ⟨hk, _, hh1, hh2, hh3, _, hc2⟩ := hspec
      subst hk hc2
      refine ⟨fmt, s, r, rfl, _, lookup_store_self _ _ _, hh1, hh2, hh3, ?_⟩
      intro k2 hk2
      rw [lookup_store_other _ _ _ _ hk2]
      unfold Composer.atCallback
      split_ifs <;> rfl

/-- Only the first four bytes of a message make the value of a Set-Chunk-Size. -/
theorem BEUint32_take (l : List UInt8) (h : 4 ≤ l.length) :
    BEUint32 l = BEUint32 (l.take 4) ∧ (l.take 4).length = 4 := by
  match l, h with
  | a :: b :: c :: d :: rest, _ => exact ⟨rfl, rfl⟩

/-- C12: in every iteration of `RunLoop` that completes a message (the callback is called
with the stream `S`, `msg.len() = msgLen`), the callback is called with the composer
`atCallback`: for `msgTypeID == 1` its `peerChunkSize` is already the big-endian 32-bit value
read at the start of the message (its first four bytes when `msgLen >= 4`), for any other
type it is unchanged; when the iteration goes on, the composer handed to the following
iterations has that `peerChunkSize`, which is the one `neededSize` uses for every later
chunk.  An iteration that completes no message leaves `peerChunkSize` unchanged. -/
theorem setChunkSize_before_callback (c : Composer) (reader : List UInt8)
    (cb : Composer → Stream → Bool) :
    match chunkStepWith c reader cb with
    | .next c2 _ _ (some S) =>
      (S.msg.length : Int) = S.msgLen ∧ cb (c.atCallback S) S = false ∧
        c2.peerChunkSize = (c.atCallback S).peerChunkSize ∧
        (c.atCallback S).peerChunkSize =
          (if S.header.msgTypeID = 1 then (BEUint32 S.msg : Int) else c.peerChunkSize) ∧
        (4 ≤ S.msgLen → BEUint32 S.msg = BEUint32 (S.msg.take 4) ∧ (S.msg.take 4).length = 4) ∧
        (∀ st, neededSize c2 st =
          if st.msgLen ≤ (c.atCallback S).peerChunkSize then st.msgLen
          else if st.msgLen - st.msg.length > (c.atCallback S).peerChunkSize
            then (c.atCallback S).peerChunkSize else st.msgLen - st.msg.length)
    | .next c2 _ _ none => c2.peerChunkSize = c.peerChunkSize
    | .exit .cbErr (some S) =>
      (S.msg.length : Int) = S.msgLen ∧ cb (c.atCallback S) S = true ∧
        (c.atCallback S).peerChunkSize =
          (if S.header.msgTypeID = 1 then (BEUint32 S.msg : Int) else c.peerChunkSize)
    | _ => True := by
  have hat : ∀ S : Stream, (c.atCallback S).peerChunkSize =
      (if S.header.msgTypeID = 1 then (BEUint32 S.msg : Int) else c.peerChunkSize) := by
    intro S
    unfold Composer.atCallback typeidSetChunkSize
    split_ifs <;> rfl
  rw [chunkStepWith_eq]
  cases hh : readHeaders c reader with
  | none => trivial
  | some x =>
    obtain ⟨fmt, k, s, r⟩ := x
    simp only
    have hspec := readPayload_spec c k s r cb
    cases hp : readPayload c k s r cb with
    | exit e d =>
      rw [hp] at hspec
      cases e <;> cases d <;> first | trivial | exact ⟨hspec.1, hspec.2.2, hat _⟩
    | next c2 r2 k2 d =>
      rw [hp] at hspec
      cases d with
      | none =>
        obtain ⟨_, bytes, hc2⟩ := hspec
        subst hc2
        rfl
      | some S =>
        obtain ⟨_, h1, _, _, _, h2, hc2⟩ := hspec
        subst hc2
        refine ⟨h1, h2, rfl, hat S, ?_, ?_⟩
        · intro h4
          exact BEUint32_take S.msg (by omega)
        · intro st
          rfl

set_option maxRecDepth 100000 in
/-- A Set-Chunk-Size to 4096 followed by a message of 300 bytes in a single chunk: the
second iteration reads the 300 bytes at once, with the new chunk size. -/
theorem setChunkSize_example :
    (chunkStep NewComposer setSizeThenMessage cbOk =
      .next (({ NewComposer with peerChunkSize := 4096 }).store 2 ⟨⟨0, 1, 0⟩, 0, 4, []⟩)
        (chunk0 3 300 8 message300) 2 (some ⟨⟨0, 1, 0⟩, 0, 4, [0x00, 0x00, 0x10, 0x00]⟩)) ∧
    (runSteps cbOk 2 NewComposer setSizeThenMessage []).map
        (fun r => (r.1.peerChunkSize, r.2.1, r.2.2.map (fun s => s.msg))) =
      some (4096, [], [[0x00, 0x00, 0x10, 0x00], message300]) := by
  constructor <;> decide

/-- What a successful read returns. -/
theorem readAtLeast_some (reader : List UInt8) (n : Nat) (bytes rest : List UInt8)
    (h : readAtLeast reader n = some (bytes, rest)) :
    n ≤ reader.length ∧ bytes = reader.take n ∧ rest = reader.drop n := by
  unfold readAtLeast at h
  split at h
  · rename_i hle
    simp only [Option.some.injEq, Prod.mk.injEq] at h
    exact ⟨hle, h.1.symm, h.2.symm⟩
  · exact absurd h (by simp)

/-- A read of more bytes than are left fails. -/
theorem readAtLeast_short (reader : List UInt8) (n : Nat) (h : reader.length < n) :
    readAtLeast reader n = none := by
  unfold readAtLeast
  rw [if_neg (by omega)]

/-- A byte of a prefix is the byte of the list. -/
theorem getD_take (l : List UInt8) (k i : Nat) (h : i < k) :
    (l.take k).getD i 0 = l.getD i 0 := by
  simp [List.getD, List.getElem?_take, h]

/-- The 24-bit value at the start of a prefix of at least three bytes. -/
theorem BEUint24_take (l : List UInt8) (k : Nat) (h : 3 ≤ k) :
    BEUint24 (l.take k) = BEUint24 l := by
  unfold BEUint24
  rw [getD_take l k 0 (by omega), getD_take l k 1 (by omega), getD_take l k 2 (by omega)]

/-- The 32-bit value at the start of the prefix of four bytes. -/
theorem BEUint32_take_four (l : List UInt8) : BEUint32 (l.take 4) = BEUint32 l := by
  unfold BEUint32
  rw [getD_take l 4 0 (by omega), getD_take l 4 1 (by omega), getD_take l 4 2 (by omega),
    getD_take l 4 3 (by omega)]

/-- The message header by `fmt`: the timestamp stored afterwards, the absolute timestamp and
the bytes taken. -/
theorem readMessageHeader_spec (fmt : Nat) (stream s1 : Stream) (r0 r1 : List UInt8)
    (h : readMessageHeader fmt stream r0 = some (s1, r1)) :
    (fmt = 0 → s1.header.timestamp = BEUint24 r0 ∧ s1.timestampAbs = BEUint24 r0 ∧
      r1 = r0.drop 11) ∧
    (fmt = 1 → s1.header.timestamp = BEUint24 r0 ∧
      s1.timestampAbs = stream.timestampAbs + BEUint24 r0 ∧ r1 = r0.drop 7) ∧
    (fmt = 2 → s1.header.timestamp = BEUint24 r0 ∧
      s1.timestampAbs = stream.timestampAbs + BEUint24 r0 ∧ r1 = r0.drop 3) ∧
    (3 ≤ fmt → s1 = stream ∧ r1 = r0) := by
  match fmt with
  | 0 =>
    refine ⟨fun _ => ?_, fun h0 => absurd h0 (by omega), fun h0 => absurd h0 (by omega),
      fun h0 => absurd h0 (by omega)⟩
    unfold readMessageHeader at h
    simp only at h
    cases hr : readAtLeast r0 11 with
    | none => rw [hr] at h; exact absurd h (by simp)
    | some x =>
      obtain ⟨bs, r⟩ := x
      obtain ⟨_, hb, hrest⟩ := readAtLeast_some _ _ _ _ hr
      rw [hr] at h
      simp only [Option.some.injEq, Prod.mk.injEq] at h
      obtain ⟨h1, h2⟩ := h
      subst h1 h2 hb
      exact ⟨by simp [BEUint24_take], by simp [BEUint24_take], hrest⟩
  | 1 =>
    refine ⟨fun h0 => absurd h0 (by omega), fun _ => ?_, fun h0 => absurd h0 (by omega),
      fun h0 => absurd h0 (by omega)⟩
    unfold readMessageHeader at h
    simp only at h
    cases hr : readAtLeast r0 7 with
    | none => rw [hr] at h; exact absurd h (by simp)
    | some x =>
      obtain ⟨bs, r⟩ := x
      obtain ⟨_, hb, hrest⟩ := readAtLeast_some _ _ _ _ hr
      rw [hr] at h
      simp only [Option.some.injEq, Prod.mk.injEq] at h
      obtain ⟨h1, h2⟩ := h
      subst h1 h2 hb
      exact ⟨by simp [BEUint24_take], by simp [BEUint24_take], hrest⟩
  | 2 =>
    refine ⟨fun h0 => absurd h0 (by omega), fun h0 => absurd h0 (by omega), fun _ => ?_,
      fun h0 => absurd h0 (by omega)⟩
    unfold readMessageHeader at h
    simp only at h
    cases hr : readAtLeast r0 3 with
    | none => rw [hr] at h; exact absurd h (by simp)
    | some x =>
      obtain ⟨bs, r⟩ := x
      obtain ⟨_, hb, hrest⟩ := readAtLeast_some _ _ _ _ hr
      rw [hr] at h
      simp only [Option.some.injEq, Prod.mk.injEq] at h
      obtain ⟨h1, h2⟩ := h
      subst h1 h2 hb
      exact ⟨by simp [BEUint24_take], by simp [BEUint24_take], hrest⟩
  | n + 3 =>
    refine ⟨fun h0 => absurd h0 (by omega), fun h0 => absurd h0 (by omega),
      fun h0 => absurd h0 (by omega), fun _ => ?_⟩
    unfold readMessageHeader at h
    simp only [Option.some.injEq, Prod.mk.injEq] at h
    exact ⟨h.1.symm, h.2.symm⟩

/-- The extended timestamp: read exactly when the timestamp stored after the message
header is the sentinel. -/
theorem readExtendedTimestamp_spec (fmt : Nat) (s1 : Stream) (r1 : List UInt8) :
    (s1.header.timestamp ≠ maxTimestampInMessageHeader →
      readExtendedTimestamp fmt s1 r1 = some (s1, r1)) ∧
    (s1.header.timestamp = maxTimestampInMessageHeader →
      (r1.length < 4 ∧ readExtendedTimestamp fmt s1 r1 = none) ∨
      (4 ≤ r1.length ∧ ∃ s2, readExtendedTimestamp fmt s1 r1 = some (s2, r1.drop 4) ∧
        s2.header.timestamp = BEUint32 r1 ∧
        (fmt = 0 → s2.timestampAbs = BEUint32 r1) ∧
        (fmt = 1 ∨ fmt = 2 →
          s2.timestampAbs = s1.timestampAbs - maxTimestampInMessageHeader + BEUint32 r1) ∧
        (3 ≤ fmt → s2.timestampAbs = s1.timestampAbs))) := by
  refine ⟨fun h => readExtendedTimestamp_none fmt s1 r1 h, fun h => ?_⟩
  by_cases hlen : 4 ≤ r1.length
  · right
    refine ⟨hlen, ?_⟩
    unfold readExtendedTimestamp
    rw [if_pos h, readAtLeast_le r1 4 hlen]
    simp only [BEUint32_take_four]
    match fmt with
    | 0 => exact ⟨_, rfl, rfl, fun _ => rfl, fun h0 => absurd h0 (by omega),
        fun h0 => absurd h0 (by omega)⟩
    | 1 => exact ⟨_, rfl, rfl, fun h0 => absurd h0 (by omega), fun _ => rfl,
        fun h0 => absurd h0 (by omega)⟩
    | 2 => exact ⟨_, rfl, rfl, fun h0 => absurd h0 (by omega), fun _ => rfl,
        fun h0 => absurd h0 (by omega)⟩
    | n + 3 => exact ⟨_, rfl, rfl, fun h0 => absurd h0 (by omega),
        fun h0 => absurd h0 (by omega), fun _ => rfl⟩
  · left
    refine ⟨by omega, ?_⟩
    unfold readExtendedTimestamp
    rw [if_pos h, readAtLeast_short r1 4 (by omega)]

set_option maxRecDepth 100000 in
/-- C13, as stated, fails: after the `fmt == 0` chunk `sentinelChunk` (timestamp `FF FF FF`,
extended timestamp `00 FF FF FF`) the timestamp stored for chunk stream 3 is `0xFFFFFF`,
and the following `fmt == 3` chunk, which parses no timestamp, has the four bytes
`01 02 03 04` after its basic header read as an extended timestamp: the headers of that
chunk take five bytes, and the stored timestamp becomes `0x01020304`. -/
theorem extendedTimestamp_fmt3_counterexample :
    ∃ c, chunkStep NewComposer (sentinelChunk ++ continuation76) cbOk =
        .next c continuation76 3 none ∧
      (c.lookup 3).map (fun s => s.header.timestamp) = some 0xFFFFFF ∧
      readBasicHeader continuation76 = some (3, 3, continuation76.drop 1) ∧
      (readHeaders c continuation76).map (fun x => (x.2.2.1.header.timestamp, x.2.2.2)) =
        some (0x01020304, continuation76.drop 5) := by
  refine ⟨NewComposer.store 3 ⟨⟨0xFFFFFF, 8, 0⟩, 0xFFFFFF, 200, List.replicate 128 0xAA⟩,
    ?_, ?_, ?_, ?_⟩ <;> decide

/-- C13, amended: in every chunk processed by `RunLoop` the 4-byte extended-timestamp field
is read if and only if the timestamp stored for the chunk stream after the message header
of the chunk is exactly `0xFFFFFF`.  For `fmt` 0, 1, 2 that is the 3-byte timestamp parsed
from the header of the chunk itself; a `fmt == 3` chunk parses no timestamp, and the test is
made on the value left by the earlier chunks of its chunk stream, so it reads an extended
timestamp when that value is `0xFFFFFF`. -/
theorem extendedTimestamp_read_iff (fmt : Nat) (stream : Stream) (r0 : List UInt8) :
    match readMessageHeader fmt stream r0 with
    | none => True
    | some (s1, r1) =>
      (fmt ≤ 2 → s1.header.timestamp = BEUint24 r0) ∧
      (3 ≤ fmt → s1.header.timestamp = stream.header.timestamp ∧ r1 = r0) ∧
      (s1.header.timestamp ≠ maxTimestampInMessageHeader →
        readExtendedTimestamp fmt s1 r1 = some (s1, r1)) ∧
      (s1.header.timestamp = maxTimestampInMessageHeader →
        (r1.length < 4 ∧ readExtendedTimestamp fmt s1 r1 = none) ∨
        (4 ≤ r1.length ∧ ∃ s2, readExtendedTimestamp fmt s1 r1 = some (s2, r1.drop 4) ∧
          s2.header.timestamp = BEUint32 r1)) := by
  cases h : readMessageHeader fmt stream r0 with
  | none => trivial
  | some x =>
    obtain ⟨s1, r1⟩ := x
    obtain ⟨h0, h1, h2, h3⟩ := readMessageHeader_spec fmt stream s1 r0 r1 h
    obtain ⟨e1, e2⟩ := readExtendedTimestamp_spec fmt s1 r1
    refine ⟨?_, ?_, e1, ?_⟩
    · intro hf
      have : fmt = 0 ∨ fmt = 1 ∨ fmt = 2 := by omega
      rcases this with hf | hf | hf
      · exact (h0 hf).1
      · exact (h1 hf).1
      · exact (h2 hf).1
    · intro hf
      obtain ⟨hs, hr⟩ := h3 hf
      exact ⟨by rw [hs], hr⟩
    · intro hs
      rcases e2 hs with hl | ⟨hl, s2, hs2, ht, _⟩
      · exact Or.inl hl
      · exact Or.inr ⟨hl, s2, hs2, ht⟩

/-- The three reads that make up the headers of a chunk. -/
theorem readHeaders_some (c : Composer) (reader : List UInt8) (fmt csid : Nat) (s : Stream)
    (r : List UInt8) (h : readHeaders c reader = some (fmt, csid, s, r)) :
    ∃ r0 s1 r1, readBasicHeader reader = some (fmt, csid, r0) ∧
      readMessageHeader fmt (c.getOrCreateStream csid) r0 = some (s1, r1) ∧
      readExtendedTimestamp fmt s1 r1 = some (s, r) := by
  unfold readHeaders at h
  cases hb : readBasicHeader reader with
  | none => rw [hb] at h; exact absurd h (by simp)
  | some x =>
    obtain ⟨f, k, r0⟩ := x
    rw [hb] at h
    simp only at h
    cases hm : readMessageHeader f (c.getOrCreateStream k) r0 with
    | none => rw [hm] at h; exact absurd h (by simp)
    | some y =>
      obtain ⟨s1, r1⟩ := y
      rw [hm] at h
      simp only at h
      cases he : readExtendedTimestamp f s1 r1 with
      | none => rw [he] at h; exact absurd h (by simp)
      | some z =>
        obtain ⟨s2, r2⟩ := z
        rw [he] at h
        simp only [Option.some.injEq, Prod.mk.injEq] at h
        obtain ⟨h1, h2, h3, h4⟩ := h
        subst h1 h2 h3 h4
        exact ⟨r0, s1, r1, rfl, hm, he⟩

/-- The absolute timestamp after the headers of a chunk, by `fmt`. -/
theorem headers_timestampAbs (fmt : Nat) (stream s1 s2 : Stream) (r0 r1 r2 : List UInt8)
    (hm : readMessageHeader fmt stream r0 = some (s1, r1))
    (he : readExtendedTimestamp fmt s1 r1 = some (s2, r2)) :
    (fmt = 0 → s2.timestampAbs = effectiveTimestamp r0 11) ∧
    (fmt = 1 → s2.timestampAbs = stream.timestampAbs + effectiveTimestamp r0 7) ∧
    (fmt = 2 → s2.timestampAbs = stream.timestampAbs + effectiveTimestamp r0 3) ∧
    (3 ≤ fmt → s2.timestampAbs = stream.timestampAbs) := by
  obtain ⟨h0, h1, h2, h3⟩ := readMessageHeader_spec fmt stream s1 r0 r1 hm
  obtain ⟨e1, e2⟩ := readExtendedTimestamp_spec fmt s1 r1
  have hmax : maxTimestampInMessageHeader = 16777215 := rfl
  by_cases hs : s1.header.timestamp = maxTimestampInMessageHeader
  · rcases e2 hs with ⟨_, hn⟩ | ⟨_, s, hsome, _, a0, a1, a3⟩
    · rw [hn] at he; exact absurd he (by simp)
    · rw [hsome] at he
      simp only [Option.some.injEq, Prod.mk.injEq] at he
      obtain ⟨hs2, _⟩ := he
      subst hs2
      refine ⟨fun hf => ?_, fun hf => ?_, fun hf => ?_, fun hf => ?_⟩
      · obtain ⟨t1, _, t3⟩ := h0 hf
        have : BEUint24 r0 = 0xFFFFFF := by rw [t1, hmax] at hs; omega
        unfold effectiveTimestamp
        rw [if_pos this, a0 hf, t3]
      · obtain ⟨t1, t2, t3⟩ := h1 hf
        have : BEUint24 r0 = 0xFFFFFF := by rw [t1, hmax] at hs; omega
        unfold effectiveTimestamp
        rw [if_pos this, a1 (Or.inl hf), t2, t3, this, hmax]
        push_cast
        omega
      · obtain ⟨t1, t2, t3⟩ := h2 hf
        have : BEUint24 r0 = 0xFFFFFF := by rw [t1, hmax] at hs; omega
        unfold effectiveTimestamp
        rw [if_pos this, a1 (Or.inr hf), t2, t3, this, hmax]
        push_cast
        omega
      · rw [a3 hf, (h3 hf).1]
  · rw [e1 hs] at he
    simp only [Option.some.injEq, Prod.mk.injEq] at he
    obtain ⟨hs2, _⟩ := he
    subst hs2
    refine ⟨fun hf => ?_, fun hf => ?_, fun hf => ?_, fun hf => ?_⟩
    · obtain ⟨t1, t2, _⟩ := h0 hf
      have : ¬ BEUint24 r0 = 0xFFFFFF := by rw [t1, hmax] at hs; omega
      unfold effectiveTimestamp
      rw [if_neg this, t2]
    · obtain ⟨t1, t2, _⟩ := h1 hf
      have : ¬ BEUint24 r0 = 0xFFFFFF := by rw [t1, hmax] at hs; omega
      unfold effectiveTimestamp
      rw [if_neg this, t2]
    · obtain ⟨t1, t2, _⟩ := h2 hf
      have : ¬ BEUint24 r0 = 0xFFFFFF := by rw [t1, hmax] at hs; omega
      unfold effectiveTimestamp
      rw [if_neg this, t2]
    · rw [(h3 hf).1]

/-- C19: absolute timestamp tracking.  After an iteration of `RunLoop` on a chunk of chunk
stream `csid` whose message header starts the bytes `r0`: for `fmt == 0`, `timestampAbs` is
the effective timestamp of the chunk (the 3-byte value, or the 4-byte extended value when
the 3-byte value is `0xFFFFFF`); for `fmt == 1` and `fmt == 2` it is its previous value
plus the effective timestamp delta (previous + extended value when the 3-byte value is the
sentinel); for `fmt == 3` it is unchanged; the other chunk streams are as before. -/
theorem timestampAbs_tracking (c c2 : Composer) (reader rest : List UInt8)
    (cb : Stream → Bool) (csid : Nat) (d : Option Stream)
    (h : chunkStep c reader cb = .next c2 rest csid d) :
    ∃ fmt r0 s2, readBasicHeader reader = some (fmt, csid, r0) ∧
      c2.lookup csid = some s2 ∧
      (fmt = 0 → s2.timestampAbs = effectiveTimestamp r0 11) ∧
      (fmt = 1 → s2.timestampAbs =
        (c.getOrCreateStream csid).timestampAbs + effectiveTimestamp r0 7) ∧
      (fmt = 2 → s2.timestampAbs =
        (c.getOrCreateStream csid).timestampAbs + effectiveTimestamp r0 3) ∧
      (3 ≤ fmt → s2.timestampAbs = (c.getOrCreateStream csid).timestampAbs) ∧
      (∀ k, k ≠ csid → c2.lookup k = c.lookup k) := by
  rw [chunkStep_eq_with] at h
  obtain ⟨fmt, s, r, hh, s2, hl, _, hts, _, hother⟩ := chunkStepWith_next _ _ _ _ _ _ _ h
  obtain ⟨r0, s1, r1, hb, hm, he⟩ := readHeaders_some _ _ _ _ _ _ hh
  obtain ⟨a0, a1, a2, a3⟩ := headers_timestampAbs fmt _ s1 s r0 r1 r hm he
  refine ⟨fmt, r0, s2, hb, hl, ?_, ?_, ?_, ?_, hother⟩
  · intro hf; rw [hts, a0 hf]
  · intro hf; rw [hts, a1 hf]
  · intro hf; rw [hts, a2 hf]
  · intro hf; rw [hts, a3 hf]

/-- C19 at a `fmt == 0` chunk with the 3-byte timestamp `FF FF FF` and the extended timestamp
`01 02 03 04`: afterwards `timestampAbs` is `0x01020304`. -/
theorem timestampAbs_tracking_witness :
    chunkStep NewComposer extendedChunk cbOk =
      .next (NewComposer.store 3 ⟨⟨0x01020304, 8, 0⟩, 0x01020304, 2, []⟩) [] 3
        (some ⟨⟨0x01020304, 8, 0⟩, 0x01020304, 2, [0x0A, 0x0B]⟩) ∧
    effectiveTimestamp (extendedChunk.drop 1) 11 = 0x01020304 ∧
    ∃ fmt r0 s2, readBasicHeader extendedChunk = some (fmt, 3, r0) ∧
      (NewComposer.store 3 ⟨⟨0x01020304, 8, 0⟩, 0x01020304, 2, []⟩).lookup 3 = some s2 ∧
      (fmt = 0 → s2.timestampAbs = effectiveTimestamp r0 11) ∧
      (fmt = 1 → s2.timestampAbs =
        (NewComposer.getOrCreateStream 3).timestampAbs + effectiveTimestamp r0 7) ∧
      (fmt = 2 → s2.timestampAbs =
        (NewComposer.getOrCreateStream 3).timestampAbs + effectiveTimestamp r0 3) ∧
      (3 ≤ fmt → s2.timestampAbs = (NewComposer.getOrCreateStream 3).timestampAbs) ∧
      (∀ k, k ≠ 3 → (NewComposer.store 3 ⟨⟨0x01020304, 8, 0⟩, 0x01020304, 2, []⟩).lookup k =
        NewComposer.lookup k) :=
  ⟨by decide, by decide,
    timestampAbs_tracking NewComposer
      (NewComposer.store 3 ⟨⟨0x01020304, 8, 0⟩, 0x01020304, 2, []⟩) extendedChunk [] cbOk 3
      (some ⟨⟨0x01020304, 8, 0⟩, 0x01020304, 2, [0x0A, 0x0B]⟩) (by decide)⟩

/-- C20: chunk basic header decoding.  For every first byte `B0`, with `c = B0 & 0x3F`
(at most 63) and `fmt = (B0 >> 6) & 3` (at most 3): the chunk stream id is `c` itself when
`2 ≤ c`, with no further byte read; `64 + x` (64 to 319) for `c == 0` and one further
byte `x`; `64 + x + 256 * y` (64 to 65599) for `c == 1` and two further bytes `x`, `y`.
An iteration that goes on has worked on the chunk stream of the id so decoded, which is
stored under that id afterwards, and has left the streams of all other ids as they were:
an id always finds the state last stored for it, and distinct ids have separate states. -/
theorem basicHeader_decoding (c : Composer) (B0 : UInt8) (rest : List UInt8)
    (cb : Stream → Bool) :
    (B0 &&& 0x3f).toNat ≤ 63 ∧ ((B0 >>> 6) &&& 0x03).toNat ≤ 3 ∧
    readBasicHeader (B0 :: rest) =
      (if (B0 &&& 0x3f).toNat = 0 then
        match rest with
        | x :: r => some (((B0 >>> 6) &&& 0x03).toNat, 64 + x.toNat, r)
        | [] => none
      else if (B0 &&& 0x3f).toNat = 1 then
        match rest with
        | x :: y :: r => some (((B0 >>> 6) &&& 0x03).toNat, 64 + x.toNat + 256 * y.toNat, r)
        | _ => none
      else some (((B0 >>> 6) &&& 0x03).toNat, (B0 &&& 0x3f).toNat, rest)) ∧
    (∀ x : UInt8, 64 ≤ 64 + x.toNat ∧ 64 + x.toNat ≤ 319) ∧
    (∀ x y : UInt8, 64 ≤ 64 + x.toNat + 256 * y.toNat ∧
      64 + x.toNat + 256 * y.toNat ≤ 65599) ∧
    (∀ c2 r2 csid d, chunkStep c (B0 :: rest) cb = .next c2 r2 csid d →
      (∃ r0, readBasicHeader (B0 :: rest) = some (((B0 >>> 6) &&& 0x03).toNat, csid, r0)) ∧
      (∃ s, c2.lookup csid = some s ∧ c2.getOrCreateStream csid = s) ∧
      (∀ k, k ≠ csid → c2.getOrCreateStream k = c.getOrCreateStream k)) ∧
    (∀ (k : Nat) (s : Stream), (c.store k s).getOrCreateStream k = s ∧
      ∀ k2, k2 ≠ k → (c.store k s).getOrCreateStream k2 = c.getOrCreateStream k2) := by
  obtain ⟨hf, hc⟩ := basicByte_fields B0
  have hB := UInt8.toNat_lt B0
  refine ⟨by rw [hc]; omega, by rw [hf]; omega, ?_, ?_, ?_, ?_, ?_⟩
  · rw [readBasicHeader_cons, hf, hc]
    by_cases h0 : B0.toNat % 64 = 0
    · rw [if_pos h0, if_pos h0]
    · rw [if_neg h0, if_neg h0]
      by_cases h1 : B0.toNat % 64 = 1
      · rw [if_pos h1, if_pos h1]
        cases rest with
        | nil => rfl
        | cons x r =>
          cases r with
          | nil => rfl
          | cons y r2 => simp only [Nat.mul_comm]
      · rw [if_neg h1, if_neg h1]
  · intro x
    have := UInt8.toNat_lt x
    omega
  · intro x y
    have := UInt8.toNat_lt x
    have := UInt8.toNat_lt y
    omega
  · intro c2 r2 csid d h
    rw [chunkStep_eq_with] at h
    obtain ⟨fmt, s, r, hh, s2, hl, _, _, _, hother⟩ := chunkStepWith_next _ _ _ _ _ _ _ h
    obtain ⟨r0, s1, r1, hb, _, _⟩ := readHeaders_some _ _ _ _ _ _ hh
    have hfmt : fmt = ((B0 >>> 6) &&& 0x03).toNat := by
      rw [readBasicHeader_cons] at hb
      rw [hf]
      split_ifs at hb
      · split at hb
        · simp only [Option.some.injEq, Prod.mk.injEq] at hb
          exact hb.1.symm
        · exact absurd hb (by simp)
      · split at hb
        · simp only [Option.some.injEq, Prod.mk.injEq] at hb
          exact hb.1.symm
        · exact absurd hb (by simp)
      · simp only [Option.some.injEq, Prod.mk.injEq] at hb
        exact hb.1.symm
    refine ⟨⟨r0, by rw [← hfmt]; exact hb⟩,
      ⟨s2, hl, getOrCreateStream_of_lookup _ _ _ hl⟩, ?_⟩
    intro k hk
    unfold Composer.getOrCreateStream
    rw [hother k hk]
  · intro k s
    refine ⟨getOrCreateStream_of_lookup _ _ _ (lookup_store_self _ _ _), ?_⟩
    intro k2 hk2
    unfold Composer.getOrCreateStream
    rw [lookup_store_other _ _ _ _ hk2]

/-! ## C14, C15: `ReadRequest` -/

/-- A split has at least one part. -/
theorem splitOn_ne_nil (sep : Char) (l : List Char) : splitOn sep l ≠ [] := by
  cases l with
  | nil => simp [splitOn]
  | cons c cs =>
    rw [splitOn]
    split_ifs
    · simp
    · split <;> simp

/-- A string without the separator is its only part. -/
theorem splitOn_of_not_mem (sep : Char) :
    ∀ l : List Char, sep ∉ l → splitOn sep l = [l] := by
  intro l
  induction l with
  | nil => intro _; rfl
  | cons c cs ih =>
    intro h
    have hc : c ≠ sep := fun e => h (e ▸ List.mem_cons_self _ _)
    have hcs : sep ∉ cs := fun e => h (List.mem_cons_of_mem _ e)
    rw [splitOn, if_neg hc, ih hcs]

/-- The first part ends at the first separator. -/
theorem splitOn_append (sep : Char) (rest : List Char) :
    ∀ a : List Char, sep ∉ a → splitOn sep (a ++ sep :: rest) = a :: splitOn sep rest := by
  intro a
  induction a with
  | nil => intro _; simp [splitOn]
  | cons c cs ih =>
    intro h
    have hc : c ≠ sep := fun e => h (e ▸ List.mem_cons_self _ _)
    have hcs : sep ∉ cs := fun e => h (List.mem_cons_of_mem _ e)
    rw [List.cons_append, splitOn, if_neg hc, ih hcs]

/-- The first part is the string up to its first separator. -/
theorem splitOn_head (sep : Char) :
    ∀ l : List Char, (splitOn sep l).getD 0 [] = l.takeWhile (fun ch => ch != sep) := by
  intro l
  induction l with
  | nil => rfl
  | cons c cs ih =>
    rw [splitOn]
    by_cases hc : c = sep
    · rw [if_pos hc]
      simp [List.takeWhile, hc]
    · rw [if_neg hc]
      have hne := splitOn_ne_nil sep cs
      cases hs : splitOn sep cs with
      | nil => exact absurd hs hne
      | cons part parts =>
        rw [hs] at ih
        simp only [List.getD_cons_zero] at ih ⊢
        have hb : (c != sep) = true := by simp [hc]
        rw [List.takeWhile_cons, hb, ih]
        rfl

/-- A string with the separator has at least two parts. -/
theorem splitOn_length_of_mem (sep : Char) :
    ∀ l : List Char, sep ∈ l → 2 ≤ (splitOn sep l).length := by
  intro l
  induction l with
  | nil => intro h; simp at h
  | cons c cs ih =>
    intro h
    rw [splitOn]
    by_cases hc : c = sep
    · rw [if_pos hc]
      have := List.length_pos.mpr (splitOn_ne_nil sep cs)
      simp only [List.length_cons]
      omega
    · rw [if_neg hc]
      have hcs : sep ∈ cs := by
        rcases List.mem_cons.mp h with e | e
        · exact absurd e.symm hc
        · exact e
      have := ih hcs
      cases hs : splitOn sep cs with
      | nil => rw [hs] at this; simp at this
      | cons part parts =>
        rw [hs] at this
        simpa using this

/-- Going on without a separator adds no part. -/
theorem splitOn_length_append (sep : Char) (b : List Char) (hb : sep ∉ b) :
    ∀ a : List Char, (splitOn sep (a ++ b)).length = (splitOn sep a).length := by
  intro a
  induction a with
  | nil => simp [splitOn_of_not_mem sep b hb, splitOn]
  | cons x xs ihx =>
    rw [List.cons_append, splitOn, splitOn]
    by_cases hx : x = sep
    · rw [if_pos hx, if_pos hx]; simp [ihx]
    · rw [if_neg hx, if_neg hx]
      have g1 := splitOn_ne_nil sep (xs ++ b)
      have g2 := splitOn_ne_nil sep xs
      cases e1 : splitOn sep (xs ++ b) with
      | nil => exact absurd e1 g1
      | cons y ys =>
        cases e2 : splitOn sep xs with
        | nil => exact absurd e2 g2
        | cons z zs =>
          rw [e1, e2] at ihx
          simpa using ihx

/-- The last part of a string that goes on without a separator. -/
theorem splitOn_getLast_append (sep : Char) (b : List Char) (hb : sep ∉ b) :
    ∀ a : List Char, (splitOn sep (a ++ b)).getLast? =
      (splitOn sep a).getLast?.map (fun part => part ++ b) := by
  intro a
  induction a with
  | nil => simp [splitOn_of_not_mem sep b hb, splitOn]
  | cons c cs ih =>
    have hlen := splitOn_length_append sep b hb cs
    rw [List.cons_append, splitOn, splitOn]
    have h1 := splitOn_ne_nil sep (cs ++ b)
    have h2 := splitOn_ne_nil sep cs
    cases hs1 : splitOn sep (cs ++ b) with
    | nil => exact absurd hs1 h1
    | cons p1 ps1 =>
      cases hs2 : splitOn sep cs with
      | nil => exact absurd hs2 h2
      | cons p2 ps2 =>
        rw [hs1, hs2] at ih hlen
        by_cases hc : c = sep
        · rw [if_pos hc, if_pos hc, List.getLast?_cons_cons, List.getLast?_cons_cons]
          exact ih
        · rw [if_neg hc, if_neg hc]
          simp only
          cases ps1 with
          | nil =>
            cases ps2 with
            | nil =>
              simp only [List.getLast?_singleton, Option.map_some', Option.some.injEq] at ih ⊢
              rw [ih, List.cons_append]
            | cons q2 qs2 => simp at hlen
          | cons q1 qs1 =>
            cases ps2 with
            | nil => simp at hlen
            | cons q2 qs2 =>
              rw [List.getLast?_cons_cons, List.getLast?_cons_cons]
              rw [List.getLast?_cons_cons, List.getLast?_cons_cons] at ih
              exact ih

/-- A string has the suffix it ends with. -/
theorem hasSuffix_append (pre suffix : List Char) : hasSuffix (pre ++ suffix) suffix = true := by
  unfold hasSuffix
  simp

/-- A string with a suffix ends with it. -/
theorem hasSuffix_elim (s suffix : List Char) (h : hasSuffix s suffix = true) :
    ∃ pre, s = pre ++ suffix := by
  unfold hasSuffix at h
  simp only [Bool.and_eq_true, decide_eq_true_eq, beq_iff_eq] at h
  refine ⟨s.take (s.length - suffix.length), ?_⟩
  conv_lhs => rw [← List.take_append_drop (s.length - suffix.length) s]
  rw [h.2]

/-- The last part of a uri that ends with `.flv` has at least two parts around its dots. -/
theorem flv_file_parts (uri : List Char) (a app last : List Char)
    (hs : hasSuffix uri ".flv".toList = true) (hu : splitOn '/' uri = [a, app, last]) :
    2 ≤ (splitOn '.' last).length := by
  obtain ⟨pre, hpre⟩ := hasSuffix_elim _ _ hs
  have hl := splitOn_getLast_append '/' ".flv".toList (by decide) pre
  rw [← hpre, hu] at hl
  have hne := splitOn_ne_nil '/' pre
  cases hp : (splitOn '/' pre).getLast? with
  | none =>
    rw [List.getLast?_eq_none_iff] at hp
    exact absurd hp hne
  | some part =>
    rw [hp] at hl
    simp only [List.getLast?_cons_cons, List.getLast?_singleton, Option.map_some',
      Option.some.injEq] at hl
    rw [hl]
    apply splitOn_length_of_mem
    apply List.mem_append_right
    decide

/-- A list of three elements. -/
theorem length_three {α : Type} (l : List α) (h : l.length = 3) : ∃ x y z, l = [x, y, z] := by
  match l, h with
  | [x, y, z], _ => exact ⟨x, y, z, rfl⟩

/-- C14: for every request whose first line is `GET /<app>/<file>.flv HTTP/1.1`, with
`app` and `file` containing no space and no `/`, `ReadRequest` returns nil and sets `URI`
to the second token `/<app>/<file>.flv`, `AppName` to `app` and `StreamName` to the part
of the file name `<file>.flv` before its first `.`; it records the time and the headers
and leaves every other field as it was: the session is not disposed. -/
theorem ReadRequest_ok (s : SubSession) (now : Int) (headers : List (List Char × List Char))
    (app file : List Char) (ha1 : ' ' ∉ app) (ha2 : '/' ∉ app) (hf1 : ' ' ∉ file)
    (hf2 : '/' ∉ file) :
    s.ReadRequest now ⟨requestLine app file, headers, false⟩ =
      ({ s with
          StartTick := now
          Headers := headers
          URI := "/".toList ++ app ++ "/".toList ++ file ++ ".flv".toList
          AppName := app
          StreamName := (file ++ ".flv".toList).takeWhile (fun ch => ch != '.') }, none) ∧
    (s.ReadRequest now ⟨requestLine app file, headers, false⟩).1.hasClosedFlag =
      s.hasClosedFlag ∧
    (s.ReadRequest now ⟨requestLine app file, headers, false⟩).1.connCloseCount =
      s.connCloseCount := by
  have e1 : "GET /".toList = "GET".toList ++ ' ' :: "/".toList := by decide
  have e2 : ".flv HTTP/1.1".toList = ".flv".toList ++ ' ' :: "HTTP/1.1".toList := by decide
  have e3 : "/".toList = ['/'] := by decide
  have hline : requestLine app file = "GET".toList ++ ' ' ::
      (("/".toList ++ app ++ "/".toList ++ file ++ ".flv".toList) ++
        ' ' :: "HTTP/1.1".toList) := by
    unfold requestLine
    rw [e1, e2]
    simp only [List.append_assoc, List.cons_append]
  have huri_sp : ' ' ∉ "/".toList ++ app ++ "/".toList ++ file ++ ".flv".toList := by
    simp only [List.mem_append, not_or]
    exact ⟨⟨⟨⟨by decide, ha1⟩, by decide⟩, hf1⟩, by decide⟩
  have hsplit : splitOn ' ' (requestLine app file) =
      ["GET".toList, "/".toList ++ app ++ "/".toList ++ file ++ ".flv".toList,
        "HTTP/1.1".toList] := by
    rw [hline, splitOn_append ' ' _ "GET".toList (by decide),
      splitOn_append ' ' _ _ huri_sp, splitOn_of_not_mem ' ' "HTTP/1.1".toList (by decide)]
  have hfile_sl : '/' ∉ file ++ ".flv".toList := by
    simp only [List.mem_append, not_or]
    exact ⟨hf2, by decide⟩
  have husplit : splitOn '/' ("/".toList ++ app ++ "/".toList ++ file ++ ".flv".toList) =
      [[], app, file ++ ".flv".toList] := by
    have : "/".toList ++ app ++ "/".toList ++ file ++ ".flv".toList =
        [] ++ '/' :: (app ++ '/' :: (file ++ ".flv".toList)) := by
      rw [e3]
      simp only [List.append_assoc, List.cons_append, List.nil_append]
    rw [this, splitOn_append '/' _ [] (by simp), splitOn_append '/' _ app ha2,
      splitOn_of_not_mem '/' _ hfile_sl]
  have hsuf : hasSuffix ("/".toList ++ app ++ "/".toList ++ file ++ ".flv".toList)
      ".flv".toList = true := hasSuffix_append _ _
  have hdots : ¬ (splitOn '.' (file ++ ".flv".toList)).length < 2 := by
    have := splitOn_length_of_mem '.' (file ++ ".flv".toList)
      (List.mem_append_right _ (by decide))
    omega
  have hmain : s.ReadRequest now ⟨requestLine app file, headers, false⟩ =
      ({ s with
          StartTick := now
          Headers := headers
          URI := "/".toList ++ app ++ "/".toList ++ file ++ ".flv".toList
          AppName := app
          StreamName := (file ++ ".flv".toList).takeWhile (fun ch => ch != '.') }, none) := by
    unfold SubSession.ReadRequest
    simp only [hsplit, husplit, hsuf, List.length_cons, List.length_nil, List.getD_cons_zero,
      List.getD_cons_succ, splitOn_head, hdots, ne_eq, not_true_eq_false, or_self,
      if_false, Bool.false_eq_true, not_false_eq_true, Nat.reduceAdd]
  rw [hmain]
  exact ⟨rfl, rfl, rfl⟩

/-- C14 at the request line `GET /live/stream1.flv HTTP/1.1`: `AppName` is `live`,
`StreamName` is `stream1`, `URI` is `/live/stream1.flv`. -/
theorem ReadRequest_ok_witness :
    (' ' ∉ "live".toList ∧ '/' ∉ "live".toList ∧ ' ' ∉ "stream1".toList ∧
      '/' ∉ "stream1".toList) ∧
    requestLine "live".toList "stream1".toList = "GET /live/stream1.flv HTTP/1.1".toList ∧
    NewSubSession.ReadRequest 7 liveRequest =
      ({ NewSubSession with
          StartTick := 7
          URI := "/live/stream1.flv".toList
          AppName := "live".toList
          StreamName := "stream1".toList }, none) ∧
    (NewSubSession.ReadRequest 7
        ⟨requestLine "live".toList "stream1".toList, [], false⟩ =
      ({ NewSubSession with
          StartTick := 7
          Headers := []
          URI := "/".toList ++ "live".toList ++ "/".toList ++ "stream1".toList ++ ".flv".toList
          AppName := "live".toList
          StreamName :=
            ("stream1".toList ++ ".flv".toList).takeWhile (fun ch => ch != '.') }, none) ∧
    (NewSubSession.ReadRequest 7
        ⟨requestLine "live".toList "stream1".toList, [], false⟩).1.hasClosedFlag =
      NewSubSession.hasClosedFlag ∧
    (NewSubSession.ReadRequest 7
        ⟨requestLine "live".toList "stream1".toList, [], false⟩).1.connCloseCount =
      NewSubSession.connCloseCount) :=
  ⟨⟨by decide, by decide, by decide, by decide⟩, by decide, by decide,
    ReadRequest_ok NewSubSession 7 [] "live".toList "stream1".toList (by decide) (by decide)
      (by decide) (by decide)⟩

/-- Disposing a session in a consistent state leaves it closed, the connection closed
once. -/
theorem Dispose_closed (s : SubSession) (hc : s.Consistent) :
    s.Dispose.closeOnceDone = true ∧ s.Dispose.hasClosedFlag = 1 ∧
      s.Dispose.exitChanClosed = true ∧ s.Dispose.connCloseCount = 1 := by
  unfold SubSession.Dispose
  rcases hc with ⟨h1, _, _, h4⟩ | ⟨h1, h2, h3, h4⟩
  · rw [h1]
    simp [h4]
  · rw [h1]
    simp [h1, h2, h3, h4]

/-- A `Dispose` after the first one does nothing. -/
theorem Dispose_of_done (s : SubSession) (h : s.closeOnceDone = true) : s.Dispose = s := by
  unfold SubSession.Dispose
  rw [if_pos h]

/-- A state is consistent by its four close fields alone. -/
theorem Consistent_of_fields (s t : SubSession) (hc : s.Consistent)
    (h1 : t.closeOnceDone = s.closeOnceDone) (h2 : t.hasClosedFlag = s.hasClosedFlag)
    (h3 : t.exitChanClosed = s.exitChanClosed) (h4 : t.connCloseCount = s.connCloseCount) :
    t.Consistent := by
  unfold SubSession.Consistent at hc ⊢
  rw [h1, h2, h3, h4]
  exact hc

/-- The result of `ReadRequest`, by the error returned: on an error the session has been
disposed; on nil the close fields are as before. -/
theorem ReadRequest_effect (s : SubSession) (now : Int) (p : ParseResult) :
    ((s.ReadRequest now p).2 ≠ none →
      ∃ t : SubSession, (s.ReadRequest now p).1 = t.Dispose ∧
        t.closeOnceDone = s.closeOnceDone ∧
        t.hasClosedFlag = s.hasClosedFlag ∧ t.exitChanClosed = s.exitChanClosed ∧
        t.connCloseCount = s.connCloseCount) ∧
    ((s.ReadRequest now p).2 = none →
      (s.ReadRequest now p).1.closeOnceDone = s.closeOnceDone ∧
      (s.ReadRequest now p).1.hasClosedFlag = s.hasClosedFlag ∧
      (s.ReadRequest now p).1.exitChanClosed = s.exitChanClosed ∧
      (s.ReadRequest now p).1.connCloseCount = s.connCloseCount) := by
  unfold SubSession.ReadRequest
  simp only
  split_ifs
  all_goals first
    | exact ⟨fun _ => ⟨_, rfl, rfl, rfl, rfl, rfl⟩, fun h => absurd h (by simp)⟩
    | exact ⟨fun h => absurd rfl h, fun _ => ⟨rfl, rfl, rfl, rfl⟩⟩

/-- C15, as stated, fails: the first line `GET a/b/c.flv FTP/9` is accepted (nil is
returned, with `AppName` `b` and `StreamName` `c`) although its third token is not
`HTTP/1.1` and its uri does not begin with `/`: the first part of the uri is `a`, not the
empty string. -/
theorem ReadRequest_validation_counterexample :
    (NewSubSession.ReadRequest 0 oddRequest).2 = none ∧
    (NewSubSession.ReadRequest 0 oddRequest).1.AppName = "b".toList ∧
    (NewSubSession.ReadRequest 0 oddRequest).1.StreamName = "c".toList ∧
    splitOn ' ' oddRequest.firstLine = ["GET".toList, "a/b/c.flv".toList, "FTP/9".toList] ∧
    "FTP/9".toList ≠ "HTTP/1.1".toList ∧
    splitOn '/' "a/b/c.flv".toList = ["a".toList, "b".toList, "c.flv".toList] ∧
    "a".toList ≠ [] := by
  decide

/-- C15, amended: `ReadRequest` returns nil if and only if `parseHTTPHeader` returned no
error, the first line splits by spaces into exactly three tokens of which the first is
`GET`, and the second token (the uri) ends with `.flv` and splits by `/` into exactly three
parts; the third token and the first part of the uri are not examined.  In every other
case it returns an error and, for a session in a consistent state, the session is disposed
(the closed flag is set); when it returns nil the close state is as before. -/
theorem ReadRequest_nil_iff (s : SubSession) (now : Int) (p : ParseResult) :
    ((s.ReadRequest now p).2 = none ↔
      (p.err = false ∧ ∃ uri third a app last,
        splitOn ' ' p.firstLine = ["GET".toList, uri, third] ∧
        hasSuffix uri ".flv".toList = true ∧ splitOn '/' uri = [a, app, last])) ∧
    ((s.ReadRequest now p).2 ≠ none → s.Consistent →
      (s.ReadRequest now p).1.hasClosed = true ∧ (s.ReadRequest now p).1.Consistent) ∧
    ((s.ReadRequest now p).2 = none →
      (s.ReadRequest now p).1.hasClosedFlag = s.hasClosedFlag) := by
  refine ⟨⟨?_, ?_⟩, ?_, ?_⟩
  · intro h
    unfold SubSession.ReadRequest at h
    simp only at h
    by_cases h1 : p.err = true
    · rw [if_pos h1] at h; exact absurd h (by simp)
    · rw [if_neg h1] at h
      by_cases h2 : (splitOn ' ' p.firstLine).length ≠ 3 ∨
          (splitOn ' ' p.firstLine).getD 0 [] ≠ "GET".toList
      · rw [if_pos h2] at h; exact absurd h (by simp)
      · rw [if_neg h2] at h
        simp only [not_or, ne_eq, not_not] at h2
        obtain ⟨x, uri, third, hx⟩ := length_three _ h2.1
        have hget : x = "GET".toList := by
          have := h2.2
          rw [hx] at this
          simpa using this
        rw [hx] at h
        simp only [List.getD_cons_zero, List.getD_cons_succ] at h
        by_cases h3 : ¬ hasSuffix uri ".flv".toList = true
        · rw [if_pos h3] at h; exact absurd h (by simp)
        · rw [if_neg h3] at h
          simp only [not_not] at h3
          by_cases h4 : (splitOn '/' uri).length ≠ 3
          · rw [if_pos h4] at h; exact absurd h (by simp)
          · simp only [ne_eq, not_not] at h4
            obtain ⟨a, app, last, hu⟩ := length_three _ h4
            exact ⟨by simpa using h1, uri, third, a, app, last, by rw [hx, hget], h3, hu⟩
  · rintro ⟨h1, uri, third, a, app, last, hx, h3, hu⟩
    have hd := flv_file_parts uri a app last h3 hu
    unfold SubSession.ReadRequest
    simp only [h1, hx, h3, hu, List.length_cons, List.length_nil, List.getD_cons_zero,
      List.getD_cons_succ, ne_eq, not_true_eq_false, or_self, if_false,
      Bool.false_eq_true, not_false_eq_true, Nat.reduceAdd, not_lt.mpr hd]
  · intro h hc
    obtain ⟨t, ht, f1, f2, f3, f4⟩ := (ReadRequest_effect s now p).1 h
    have hct := Consistent_of_fields s t hc f1 f2 f3 f4
    obtain ⟨d1, d2, d3, d4⟩ := Dispose_closed t hct
    rw [ht]
    refine ⟨by unfold SubSession.hasClosed; rw [d2]; rfl, Or.inr ⟨d1, d2, d3, d4⟩⟩
  · intro h
    exact ((ReadRequest_effect s now p).2 h).2.1

/-- C15 amended, at a first line without `.flv`: an error is returned and the new session
is disposed. -/
theorem ReadRequest_nil_iff_witness :
    ((NewSubSession.ReadRequest 0 ⟨"GET /live/stream1 HTTP/1.1".toList, [], false⟩).2 ≠ none ∧
      NewSubSession.Consistent) ∧
    (NewSubSession.ReadRequest 0
        ⟨"GET /live/stream1 HTTP/1.1".toList, [], false⟩).1.hasClosed = true ∧
    (NewSubSession.ReadRequest 0
        ⟨"GET /live/stream1 HTTP/1.1".toList, [], false⟩).1.Consistent :=
  ⟨⟨by decide, by decide⟩,
    (ReadRequest_nil_iff NewSubSession 0
      ⟨"GET /live/stream1 HTTP/1.1".toList, [], false⟩).2.1 (by decide) (by decide)⟩

/-! ## C16, C17: `Dispose` and `WritePacket` -/

/-- Every call either leaves the four close fields as they are, or ends with a `Dispose` of
a session with those close fields. -/
theorem step_fields (s t : SubSession) (op : Op) (hs : s.step op = some t) :
    (t.closeOnceDone = s.closeOnceDone ∧ t.hasClosedFlag = s.hasClosedFlag ∧
      t.exitChanClosed = s.exitChanClosed ∧ t.connCloseCount = s.connCloseCount) ∨
    (∃ u : SubSession, t = u.Dispose ∧ u.closeOnceDone = s.closeOnceDone ∧
      u.hasClosedFlag = s.hasClosedFlag ∧ u.exitChanClosed = s.exitChanClosed ∧
      u.connCloseCount = s.connCloseCount) := by
  cases op with
  | readRequest now p =>
    simp only [SubSession.step, Option.some.injEq] at hs
    subst hs
    by_cases he : (s.ReadRequest now p).2 = none
    · exact Or.inl ((ReadRequest_effect s now p).2 he)
    · exact Or.inr ((ReadRequest_effect s now p).1 he)
  | writePacket pkt =>
    simp only [SubSession.step, SubSession.WritePacket] at hs
    split_ifs at hs
    all_goals
      simp only [Option.some.injEq] at hs
      subst hs
      exact Or.inl ⟨rfl, rfl, rfl, rfl⟩
  | dispose =>
    simp only [SubSession.step, Option.some.injEq] at hs
    subst hs
    exact Or.inr ⟨s, rfl, rfl, rfl, rfl, rfl⟩
  | takePacket writeErr =>
    simp only [SubSession.step, SubSession.takePacket] at hs
    split at hs
    · exact absurd hs (by simp)
    · split_ifs at hs
      all_goals first
        | (simp only [Option.some.injEq] at hs
           subst hs
           exact Or.inl ⟨rfl, rfl, rfl, rfl⟩)
        | (simp only [Option.some.injEq] at hs
           subst hs
           exact Or.inr ⟨_, rfl, rfl, rfl, rfl, rfl⟩)

/-- Every call leaves a consistent state consistent. -/
theorem step_consistent (s t : SubSession) (op : Op) (hc : s.Consistent)
    (hs : s.step op = some t) : t.Consistent := by
  rcases step_fields s t op hs with ⟨f1, f2, f3, f4⟩ | ⟨u, hu, f1, f2, f3, f4⟩
  · exact Consistent_of_fields s t hc f1 f2 f3 f4
  · rw [hu]
    exact Or.inr (Dispose_closed u (Consistent_of_fields s u hc f1 f2 f3 f4))

/-- A disposed session stays so under every call: the `Once` is done, the flag set, the
exit channel closed, the connection closed once. -/
theorem step_closed (s t : SubSession) (op : Op)
    (h : s.closeOnceDone = true ∧ s.hasClosedFlag = 1 ∧ s.exitChanClosed = true ∧
      s.connCloseCount = 1)
    (hs : s.step op = some t) :
    t.closeOnceDone = true ∧ t.hasClosedFlag = 1 ∧ t.exitChanClosed = true ∧
      t.connCloseCount = 1 := by
  obtain ⟨h1, h2, h3, h4⟩ := h
  rcases step_fields s t op hs with ⟨f1, f2, f3, f4⟩ | ⟨u, hu, f1, f2, f3, f4⟩
  · exact ⟨by rw [f1, h1], by rw [f2, h2], by rw [f3, h3], by rw [f4, h4]⟩
  · rw [hu]
    exact Dispose_closed u (Or.inr ⟨by rw [f1, h1], by rw [f2, h2], by rw [f3, h3],
      by rw [f4, h4]⟩)

/-- Closed is absorbing along every sequence of calls. -/
theorem runOps_closed :
    ∀ (ops : List Op) (s t : SubSession),
      (s.closeOnceDone = true ∧ s.hasClosedFlag = 1 ∧ s.exitChanClosed = true ∧
        s.connCloseCount = 1) →
      SubSession.runOps ops s = some t →
      t.closeOnceDone = true ∧ t.hasClosedFlag = 1 ∧ t.exitChanClosed = true ∧
        t.connCloseCount = 1 := by
  intro ops
  induction ops with
  | nil =>
    intro s t h hr
    simp only [SubSession.runOps, Option.some.injEq] at hr
    subst hr
    exact h
  | cons op ops ih =>
    intro s t h hr
    rw [SubSession.runOps] at hr
    split at hr
    · exact absurd hr (by simp)
    · rename_i s2 hs
      exact ih s2 t (step_closed s s2 op h hs) hr

/-- Every session reached from a new one by calls that return is in a consistent state. -/
theorem runOps_consistent :
    ∀ (ops : List Op) (s t : SubSession), s.Consistent →
      SubSession.runOps ops s = some t → t.Consistent := by
  intro ops
  induction ops with
  | nil =>
    intro s t h hr
    simp only [SubSession.runOps, Option.some.injEq] at hr
    subst hr
    exact h
  | cons op ops ih =>
    intro s t h hr
    rw [SubSession.runOps] at hr
    split at hr
    · exact absurd hr (by simp)
    · rename_i s2 hs
      exact ih s2 t (step_consistent s s2 op h hs) hr

/-- C16: `Dispose` is single-shot.  On a session that has not been disposed, the first
`Dispose` sets the closed flag, closes the exit channel and closes the connection, and
changes nothing else; a `Dispose` of a disposed session leaves the state unchanged; for
every `N ≥ 1`, `N` calls of `Dispose` give the state of one call, with the connection
closed exactly once; and the closed state is kept by every later sequence of calls. -/
theorem Dispose_single_shot (s : SubSession) (hc : s.Consistent) :
    (s.closeOnceDone = false →
      s.Dispose = { s with closeOnceDone := true, hasClosedFlag := 1, exitChanClosed := true,
                           connCloseCount := 1 }) ∧
    (s.Dispose.hasClosed = true ∧ s.Dispose.exitChanClosed = true ∧
      s.Dispose.connCloseCount = 1) ∧
    s.Dispose.Dispose = s.Dispose ∧
    (∀ N, 1 ≤ N → Nat.iterate SubSession.Dispose N s = s.Dispose ∧
      (Nat.iterate SubSession.Dispose N s).connCloseCount = 1) ∧
    (∀ ops t, SubSession.runOps ops s.Dispose = some t →
      t.hasClosed = true ∧ t.exitChanClosed = true ∧ t.connCloseCount = 1) := by
  obtain ⟨d1, d2, d3, d4⟩ := Dispose_closed s hc
  have hidem : s.Dispose.Dispose = s.Dispose := Dispose_of_done s.Dispose d1
  refine ⟨?_, ⟨by unfold SubSession.hasClosed; rw [d2]; rfl, d3, d4⟩, hidem, ?_, ?_⟩
  · intro h0
    rcases hc with ⟨_, _, _, h4⟩ | ⟨h1, _, _, _⟩
    · unfold SubSession.Dispose
      rw [h0, h4]
      rfl
    · rw [h0] at h1
      exact absurd h1 (by decide)
  · intro N hN
    have key : ∀ n, Nat.iterate SubSession.Dispose (n + 1) s = s.Dispose := by
      intro n
      induction n with
      | zero => rfl
      | succ n ih =>
        rw [Function.iterate_succ_apply', ih, hidem]
    obtain ⟨n, hn⟩ : ∃ n, N = n + 1 := ⟨N - 1, by omega⟩
    rw [hn, key n]
    exact ⟨rfl, d4⟩
  · intro ops t hr
    obtain ⟨t1, t2, t3, t4⟩ := runOps_closed ops s.Dispose t ⟨d1, d2, d3, d4⟩ hr
    exact ⟨by unfold SubSession.hasClosed; rw [t2]; rfl, t3, t4⟩

/-- C16 at a new session and three calls of `Dispose`. -/
theorem Dispose_single_shot_witness :
    NewSubSession.Consistent ∧
    Nat.iterate SubSession.Dispose 3 NewSubSession =
      { NewSubSession with closeOnceDone := true, hasClosedFlag := 1, exitChanClosed := true,
                           connCloseCount := 1 } ∧
    (∀ N, 1 ≤ N → Nat.iterate SubSession.Dispose N NewSubSession = NewSubSession.Dispose ∧
      (Nat.iterate SubSession.Dispose N NewSubSession).connCloseCount = 1) :=
  ⟨by decide, by decide, (Dispose_single_shot NewSubSession (by decide)).2.2.2.1⟩

/-- C17: after `Dispose` has returned, and after any further calls, every `WritePacket`
returns at once and leaves the session, its queue included, as it is, whatever the
length of the queue; so do `WriteHTTPResponseHeader`, `WriteFlvHeader` and `Write`. -/
theorem WritePacket_after_dispose (s t : SubSession) (hc : s.Consistent) (ops : List Op)
    (hr : SubSession.runOps ops s.Dispose = some t) (pkt : List UInt8) :
    t.WritePacket pkt = some t ∧ t.WriteHTTPResponseHeader = some t ∧
      t.WriteFlvHeader = some t ∧ t.Write pkt = some t := by
  obtain ⟨d1, d2, d3, d4⟩ := Dispose_closed s hc
  obtain ⟨_, t2, _, _⟩ := runOps_closed ops s.Dispose t ⟨d1, d2, d3, d4⟩ hr
  have key : ∀ q, t.WritePacket q = some t := by
    intro q
    unfold SubSession.WritePacket SubSession.hasClosed
    rw [t2]
    rfl
  exact ⟨key pkt, key _, key _, key pkt⟩

set_option maxRecDepth 100000 in
/-- C17 at a session with a full queue: before `Dispose` a `WritePacket` does not return;
after it, and after a further `Dispose` and `WritePacket`, the calls return and the queue
still holds its 1024 packets. -/
theorem WritePacket_after_dispose_witness :
    (fullSession.Consistent ∧ fullSession.wChan.length = wChanSize ∧
      fullSession.WritePacket [0x01] = none ∧
      SubSession.runOps [Op.dispose, Op.writePacket [0x02]] fullSession.Dispose =
        some fullSession.Dispose) ∧
    (fullSession.Dispose.WritePacket [0x01] = some fullSession.Dispose ∧
      fullSession.Dispose.WriteHTTPResponseHeader = some fullSession.Dispose ∧
      fullSession.Dispose.WriteFlvHeader = some fullSession.Dispose ∧
      fullSession.Dispose.Write [0x01] = some fullSession.Dispose) ∧
    fullSession.Dispose.wChan.length = 1024 :=
  ⟨⟨by decide, by decide, by decide, by decide⟩,
    WritePacket_after_dispose fullSession fullSession.Dispose (by decide)
      [Op.dispose, Op.writePacket [0x02]] (by decide) [0x01],
    by decide⟩

end Lal
